import Mathlib

/-!
# PF_KEY socket message fan-out: `sys/netipsec/keysock.c`

A shallow embedding of the delivery functions of `keysock.c`
(`key_output`, `key_sendup0`, `_key_sendup_mbuf`, `key_sendup_mbuf`) together
with the data they touch, followed by theorems about them.

Conventions of the embedding.

* An mbuf chain is a record of the three things the file reads or writes: the
  length `m_len` of the first mbuf, the packet-header length `m_pkthdr.len`,
  and the bytes of the whole chain.  Every chain here carries `M_PKTHDR`.
* The registry `key_rawcb` is the list of control blocks in list order.  A
  socket pointer is the position of its control block in that list, so the
  test `sotorawcb(so) == rp` is equality of positions, never of contents.
* Calls into the rest of the kernel that may fail (mbuf allocation, socket
  buffer append) take their outcome from a host record, one entry per call
  site, so that every behaviour of the host during one call is covered.
* `KASSERT`s, `log`/`printf`, `m_freem`, `splsoftnet`/`splx` and `sorwakeup`
  leave no trace in the modelled state and are omitted.
-/

namespace Keysock

/-! ## Constants taken from the kernel headers -/

/-- Address family of the key management domain, `PF_KEY` of sys/socket.h. -/
def PF_KEY : Nat := 29

/-- Protocol number `PF_KEY_V2` of net/pfkeyv2.h. -/
def PF_KEY_V2 : Nat := 2

/-- Message type `SADB_X_PROMISC` of net/pfkeyv2.h. -/
def SADB_X_PROMISC : Nat := 11

/-- Error number `EINVAL` of sys/errno.h. -/
def EINVAL : Int := 22

/-- Error number `ENOBUFS` of sys/errno.h. -/
def ENOBUFS : Int := 55

/-- Target `KEY_SENDUP_ONE` of netipsec/keysock.h. -/
def KEY_SENDUP_ONE : Int := 0

/-- Target `KEY_SENDUP_ALL` of netipsec/keysock.h. -/
def KEY_SENDUP_ALL : Int := 1

/-- Target `KEY_SENDUP_REGISTERED` of netipsec/keysock.h. -/
def KEY_SENDUP_REGISTERED : Int := 2

/-- Priority `SB_PRIO_BESTEFFORT` of sys/socketvar.h. -/
def SB_PRIO_BESTEFFORT : Int := 3

/-- Size in bytes of `struct sadb_msg`, the value of `sizeof(struct sadb_msg)`. -/
def sizeof_sadb_msg : Nat := 16

/-- Length `key_src.sa_len` of the source address put in front of each record. -/
def key_src_sa_len : Nat := 2

/-- Conversion `PFKEY_UNIT64(a)`, that is `a >> 3`. -/
def PFKEY_UNIT64 (a : Nat) : Nat := a >>> 3

/-- Conversion `PFKEY_UNUNIT64(a)`, that is `a << 3`. -/
def PFKEY_UNUNIT64 (a : Nat) : Nat := a <<< 3

/-- Value of an `int` converted to `u_long` (64 bits) by the usual arithmetic
conversions, as happens when an `int` is compared with `sb_cc`. -/
def u_long_of_int (i : Int) : Nat := (i % 18446744073709551616).toNat

/-! ## Data -/

/-- Chain of mbufs: `m_len` of the first mbuf, `m_pkthdr.len`, and the bytes of
the whole chain in order. -/
structure mbuf where
  m_len : Nat
  m_pkthdr_len : Nat
  m_data : List Nat
  deriving DecidableEq, Repr

/-- Header `struct sadb_msg` of net/pfkeyv2.h. -/
structure sadb_msg where
  sadb_msg_version : Nat
  sadb_msg_type : Nat
  sadb_msg_errno : Nat
  sadb_msg_satype : Nat
  sadb_msg_len : Nat
  sadb_msg_reserved : Nat
  sadb_msg_seq : Nat
  sadb_msg_pid : Nat
  deriving DecidableEq, Repr

/-- Bytes of a `struct sadb_msg` in memory (fields in declaration order,
multi-byte fields low byte first). -/
def sadb_msg.bytes (h : sadb_msg) : List Nat :=
  [ h.sadb_msg_version % 256, h.sadb_msg_type % 256,
    h.sadb_msg_errno % 256, h.sadb_msg_satype % 256,
    h.sadb_msg_len % 256, h.sadb_msg_len / 256 % 256,
    h.sadb_msg_reserved % 256, h.sadb_msg_reserved / 256 % 256,
    h.sadb_msg_seq % 256, h.sadb_msg_seq / 256 % 256,
    h.sadb_msg_seq / 65536 % 256, h.sadb_msg_seq / 16777216 % 256,
    h.sadb_msg_pid % 256, h.sadb_msg_pid / 256 % 256,
    h.sadb_msg_pid / 65536 % 256, h.sadb_msg_pid / 16777216 % 256 ]

/-- View `mtod(m, struct sadb_msg *)` of the first sixteen bytes of a chain. -/
def mtod (d : List Nat) : sadb_msg :=
  { sadb_msg_version := d.getD 0 0
    sadb_msg_type := d.getD 1 0
    sadb_msg_errno := d.getD 2 0
    sadb_msg_satype := d.getD 3 0
    sadb_msg_len := d.getD 4 0 + 256 * d.getD 5 0
    sadb_msg_reserved := d.getD 6 0 + 256 * d.getD 7 0
    sadb_msg_seq := d.getD 8 0 + 256 * d.getD 9 0 + 65536 * d.getD 10 0
      + 16777216 * d.getD 11 0
    sadb_msg_pid := d.getD 12 0 + 256 * d.getD 13 0 + 65536 * d.getD 14 0
      + 16777216 * d.getD 15 0 }

/-- Receive buffer `struct sockbuf`: the byte count `sb_cc`, the drop count
`sb_overflowed` and the queued records, oldest first. -/
structure sockbuf where
  sb_cc : Nat
  sb_overflowed : Nat
  sb_mb : List mbuf
  deriving DecidableEq, Repr

/-- Socket, reduced to its receive buffer `so_rcv`. -/
structure socket where
  so_rcv : sockbuf
  deriving DecidableEq, Repr

/-- Pair `struct sockproto` of family and protocol. -/
structure sockproto where
  sp_family : Nat
  sp_protocol : Nat
  deriving DecidableEq, Repr

/-- Raw control block `struct rawcb`; the socket it points to is held inline. -/
structure rawcb where
  rcb_socket : socket
  rcb_proto : sockproto
  deriving DecidableEq, Repr

/-- Key control block `struct keycb` of netipsec/keysock.h. -/
structure keycb where
  kp_raw : rawcb
  kp_promisc : Int
  kp_registered : Int
  deriving DecidableEq, Repr

/-- Counters of `pfkeystat` used by this file, one field per `PFKEY_STAT_*`
index; the three histograms are indexed by message type or target. -/
structure pfkeystat where
  out_total : Nat
  out_bytes : Nat
  out_msgtype : Nat → Nat
  out_invlen : Nat
  out_tooshort : Nat
  out_nomem : Nat
  in_total : Nat
  in_bytes : Nat
  in_msgtype : Nat → Nat
  in_msgtarget : Int → Nat
  in_nomem : Nat
  sockerr : Nat

/-- Counters `struct key_cb`. -/
structure key_cb where
  key_count : Int
  any_count : Int
  deriving DecidableEq, Repr

/-- Global state of the file: the list `key_rawcb`, the tunable
`key_registered_sb_max`, the statistics, the counters `key_cb` and whether
`key_so_mtx` is held. -/
structure KeyState where
  key_rawcb : List keycb
  key_registered_sb_max : Int
  stats : pfkeystat
  key_cb : key_cb
  key_so_mtx : Bool

/-! ## Host primitives -/

/-- Duplication `m_copym(m, 0, M_COPYALL, M_DONTWAIT)`: a chain equal to `m`, or
`NULL` when the host has no memory (`ok = false`). -/
def m_copym (ok : Bool) (m : mbuf) : Option mbuf :=
  if ok then some m else none

/-- Call `m_pullup(m, len)`: fails when the chain holds fewer than `len` bytes
or the host has no memory; otherwise the first mbuf holds at least `len`
bytes and the contents are unchanged. -/
def m_pullup (ok : Bool) (m : mbuf) (len : Nat) : Option mbuf :=
  if m.m_data.length < len then none
  else if ok then some { m with m_len := max m.m_len len }
  else none

/-- Macro `M_PREPEND(m, plen, M_DONTWAIT)` of sys/mbuf.h: with leading space
the first mbuf grows by `plen`; otherwise `m_prepend` allocates a new first
mbuf of `plen` bytes or frees the chain and yields `NULL`.  On success the
macro itself adds `plen` to `m_pkthdr.len` (its last statement is
`if ((m) && (m)->m_flags & M_PKTHDR) (m)->m_pkthdr.len += (plen);`).  The new
bytes are unspecified (here zero) until written. -/
def M_PREPEND (leadingspace : Bool) (ok : Bool) (m : mbuf) (plen : Nat) :
    Option mbuf :=
  if leadingspace then
    some { m_len := m.m_len + plen
           m_pkthdr_len := m.m_pkthdr_len + plen
           m_data := List.replicate plen 0 ++ m.m_data }
  else if ok then
    some { m_len := plen
           m_pkthdr_len := m.m_pkthdr_len + plen
           m_data := List.replicate plen 0 ++ m.m_data }
  else none

/-- Effect of a successful `sbappendaddr`/`sbappendaddrchain` on a receive
buffer: the record is queued last and `sb_cc` grows by the address and the
bytes of the chain. -/
def sbappend_record (sb : sockbuf) (m : mbuf) : sockbuf :=
  { sb with
    sb_cc := sb.sb_cc + key_src_sa_len + m.m_data.length
    sb_mb := sb.sb_mb ++ [m] }

/-- Outcomes of the host calls made by one call of `key_sendup0`. -/
structure sendup0_host where
  leadingspace : Bool
  m_prepend_ok : Bool
  m_pullup_ok : Bool
  sbappendaddr_ok : Bool
  sbappendaddrchain_ok : Bool
  deriving DecidableEq, Repr

/-- Outcomes of the host calls made by one call of `_key_sendup_mbuf`; the
calls made inside the loop are indexed by the position of the control block
in `key_rawcb`. -/
structure sendup_host where
  m_pullup_ok : Bool
  promisc_copym_ok : Nat → Bool
  promisc_sendup0 : Nat → sendup0_host
  copym_ok : Nat → Bool
  sendup0 : Nat → sendup0_host
  final_sendup0 : sendup0_host

/-! ## Statistics updates -/

/-- Update `PFKEY_STATINC(PFKEY_STAT_IN_NOMEM)`. -/
def stat_in_nomem (ps : pfkeystat) : pfkeystat :=
  { ps with in_nomem := ps.in_nomem + 1 }

/-- Update `PFKEY_STATINC(PFKEY_STAT_IN_MSGTYPE + t)`. -/
def stat_in_msgtype (ps : pfkeystat) (t : Nat) : pfkeystat :=
  { ps with in_msgtype := fun k => if k = t then ps.in_msgtype k + 1 else ps.in_msgtype k }

/-- Update `PFKEY_STATINC(PFKEY_STAT_IN_MSGTARGET + target)`. -/
def stat_in_msgtarget (ps : pfkeystat) (target : Int) : pfkeystat :=
  { ps with
    in_msgtarget := fun k => if k = target then ps.in_msgtarget k + 1 else ps.in_msgtarget k }

/-- Update `PFKEY_STATINC(PFKEY_STAT_OUT_MSGTYPE + t)`. -/
def stat_out_msgtype (ps : pfkeystat) (t : Nat) : pfkeystat :=
  { ps with
    out_msgtype := fun k => if k = t then ps.out_msgtype k + 1 else ps.out_msgtype k }

/-! ## `key_sendup0` -/

/-- Envelope written by `key_sendup0` over the first sixteen bytes: all zero
except version, type and length, the length being `PFKEY_UNIT64` of
`m_pkthdr.len` stored in the 16-bit field. -/
def promisc_header (pkthdr_len : Nat) : sadb_msg :=
  { sadb_msg_version := PF_KEY_V2
    sadb_msg_type := SADB_X_PROMISC
    sadb_msg_errno := 0
    sadb_msg_satype := 0
    sadb_msg_len := PFKEY_UNIT64 pkthdr_len % 65536
    sadb_msg_reserved := 0
    sadb_msg_seq := 0
    sadb_msg_pid := 0 }

/-- Block `if (promisc) ...` of `key_sendup0` (lines 174-194): the
chain with the envelope in front, or `none` when the chain became `NULL`. -/
def key_sendup0_promisc (h : sendup0_host) (m : mbuf) : Option mbuf :=
  match M_PREPEND h.leadingspace h.m_prepend_ok m sizeof_sadb_msg with
  | none => none
  | some m1 =>
    match (if m1.m_len < sizeof_sadb_msg
           then m_pullup h.m_pullup_ok m1 sizeof_sadb_msg else some m1) with
    | none => none
    | some m2 =>
      let len := m2.m_pkthdr_len + sizeof_sadb_msg
      some { m_len := m2.m_len
             m_pkthdr_len := len
             m_data := (promisc_header len).bytes ++ m2.m_data.drop sizeof_sadb_msg }

/-- Successful append to `rp->rcb_socket->so_rcv`: the control block with the
record queued. -/
def so_rcv_append (rp : keycb) (m : mbuf) : keycb :=
  { rp with kp_raw := { rp.kp_raw with rcb_socket :=
      { so_rcv := sbappend_record rp.kp_raw.rcb_socket.so_rcv m } } }

/-- Statement `rp->rcb_socket->so_rcv.sb_overflowed++`. -/
def so_rcv_overflow (rp : keycb) : keycb :=
  { rp with kp_raw := { rp.kp_raw with rcb_socket :=
      { so_rcv := { rp.kp_raw.rcb_socket.so_rcv with
          sb_overflowed := rp.kp_raw.rcb_socket.so_rcv.sb_overflowed + 1 } } } }

/-- Function `key_sendup0(rp, m, promisc, sbprio)`: returns the error code,
the control block with its socket updated, and the statistics. -/
def key_sendup0 (h : sendup0_host) (rp : keycb) (m : mbuf) (promisc : Int)
    (sbprio : Int) (ps : pfkeystat) : Int × keycb × pfkeystat :=
  let wrapped : Option (mbuf × pfkeystat) :=
    if promisc ≠ 0 then
      match key_sendup0_promisc h m with
      | none => none
      | some m1 => some (m1, stat_in_msgtype ps SADB_X_PROMISC)
    else some (m, ps)
  match wrapped with
  | none => (ENOBUFS, rp, stat_in_nomem ps)
  | some (m1, ps1) =>
    let ok := if sbprio = 0 then h.sbappendaddr_ok else h.sbappendaddrchain_ok
    if ok then (0, so_rcv_append rp m1, ps1)
    else (ENOBUFS, so_rcv_overflow rp, stat_in_nomem ps1)

/-! ## `_key_sendup_mbuf` -/

/-- Lines 290-295: the copy for a control block in promiscuous mode; the
result of `key_sendup0` is discarded. -/
def promisc_tap (H : sendup_host) (i : Nat) (rp : keycb) (m : mbuf)
    (ps : pfkeystat) : keycb × pfkeystat :=
  if rp.kp_promisc ≠ 0 then
    match m_copym (H.promisc_copym_ok i) m with
    | some n => (key_sendup0 (H.promisc_sendup0 i) rp n 1 0 ps).2
    | none => (rp, ps)
  else (rp, ps)

/-- Lines 301-323: the value of `sendup` after the `switch (target)`, for a
control block that is not the sender's. -/
def sendup_of (target : Int) (so : Option Nat) (i : Nat) (rp : keycb)
    (key_registered_sb_max : Int) : Nat :=
  if target = KEY_SENDUP_ONE then
    (if so = some i then 1 else 0)
  else if target = KEY_SENDUP_ALL then 1
  else if target = KEY_SENDUP_REGISTERED then
    (if rp.kp_registered ≠ 0 then
      (if rp.kp_raw.rcb_socket.so_rcv.sb_cc ≤ u_long_of_int key_registered_sb_max
       then 1 else 0)
     else 0)
  else 0

/-- One pass of the body of `LIST_FOREACH(rp, &key_rawcb, rcb_list)` (lines
275-340) for the control block at position `i`: `some e` when the function
returns `e` from inside the loop, `none` when the loop goes on. -/
def sendup_body (H : sendup_host) (so : Option Nat) (m : mbuf) (target : Int)
    (key_registered_sb_max : Int) (i : Nat) (rp : keycb) (ps : pfkeystat) :
    Option Int × keycb × pfkeystat :=
  if rp.kp_raw.rcb_proto.sp_family ≠ PF_KEY then (none, rp, ps)
  else if rp.kp_raw.rcb_proto.sp_protocol ≠ 0
      ∧ rp.kp_raw.rcb_proto.sp_protocol ≠ PF_KEY_V2 then (none, rp, ps)
  else
    let t := promisc_tap H i rp m ps
    if so = some i then (none, t.1, t.2)
    else
      let sendup := sendup_of target so i t.1 key_registered_sb_max
      let ps2 := stat_in_msgtarget t.2 target
      if sendup = 0 then (none, t.1, ps2)
      else
        match m_copym (H.copym_ok i) m with
        | none => (some ENOBUFS, t.1, stat_in_nomem ps2)
        | some n =>
          let r := key_sendup0 (H.sendup0 i) t.1 n 0 0 ps2
          if r.1 ≠ 0 then (some r.1, r.2.1, r.2.2) else (none, r.2.1, r.2.2)

/-- Loop `LIST_FOREACH(rp, &key_rawcb, rcb_list)` over the control blocks from
position `i` on: the early return value if any, the control blocks after the
loop, and the statistics. -/
def sendup_loop (H : sendup_host) (so : Option Nat) (m : mbuf) (target : Int)
    (key_registered_sb_max : Int) :
    Nat → List keycb → pfkeystat → Option Int × List keycb × pfkeystat
  | _, [], ps => (none, [], ps)
  | i, rp :: rest, ps =>
    let b := sendup_body H so m target key_registered_sb_max i rp ps
    match b.1 with
    | some e => (some e, b.2.1 :: rest, b.2.2)
    | none =>
      let r := sendup_loop H so m target key_registered_sb_max (i + 1) rest b.2.2
      (r.1, b.2.1 :: r.2.1, r.2.2)

/-- Lines 256-266: the header is pulled up when the first mbuf is shorter than
a `struct sadb_msg`; `none` when `m_pullup` returned `NULL`. -/
def sendup_pullup (H : sendup_host) (m : mbuf) : Option mbuf :=
  if m.m_len < sizeof_sadb_msg then m_pullup H.m_pullup_ok m sizeof_sadb_msg else some m

/-- Lines 250-255: the total and byte counters on entry. -/
def stat_in_total (ps : pfkeystat) (m : mbuf) : pfkeystat :=
  { ps with
    in_total := ps.in_total + 1
    in_bytes := ps.in_bytes + m.m_pkthdr_len }

/-- Lines 267-271: the message type histogram, counted when the first mbuf
holds a whole header. -/
def stat_in_msgtype_of (ps : pfkeystat) (m : mbuf) : pfkeystat :=
  if sizeof_sadb_msg ≤ m.m_len
  then stat_in_msgtype ps (mtod m.m_data).sadb_msg_type else ps

/-- Priority computed at lines 230-248. -/
def sbprio_of (target : Int) : Int :=
  if target = KEY_SENDUP_REGISTERED then SB_PRIO_BESTEFFORT else 0

/-- Function `_key_sendup_mbuf(so, m, target)`; `so` is the position of the
sender's control block, `none` for `NULL`.  The result is `none` only when
`so` names no control block of the list, where the C code dereferences a
dangling `sotorawcb(so)`. -/
def _key_sendup_mbuf (H : sendup_host) (st : KeyState) (so : Option Nat)
    (m : mbuf) (target : Int) : Option (Int × KeyState) :=
  let sbprio : Int := sbprio_of target
  let ps0 : pfkeystat := stat_in_total st.stats m
  match sendup_pullup H m with
  | none => some (ENOBUFS, { st with stats := stat_in_nomem ps0 })
  | some m1 =>
    let ps1 := stat_in_msgtype_of ps0 m1
    let r := sendup_loop H so m1 target st.key_registered_sb_max 0 st.key_rawcb ps1
    match r.1 with
    | some e => some (e, { st with key_rawcb := r.2.1, stats := r.2.2 })
    | none =>
      match so with
      | none => some (0, { st with key_rawcb := r.2.1, stats := r.2.2 })
      | some i =>
        match r.2.1[i]? with
        | none => none
        | some rp =>
          let f := key_sendup0 H.final_sendup0 rp m1 0 sbprio r.2.2
          some (f.1, { st with key_rawcb := r.2.1.set i f.2.1, stats := f.2.2 })

/-- Function `key_sendup_mbuf(so, m, target)`: with `so == NULL` it takes
`key_so_mtx` around the call (and cannot proceed, `none`, while the mutex is
held); with a sender it leaves the mutex alone. -/
def key_sendup_mbuf (H : sendup_host) (st : KeyState) (so : Option Nat)
    (m : mbuf) (target : Int) : Option (Int × KeyState) :=
  match so with
  | none =>
    if st.key_so_mtx then none
    else
      match _key_sendup_mbuf H { st with key_so_mtx := true } none m target with
      | none => none
      | some r => some (r.1, { r.2 with key_so_mtx := false })
  | some i => _key_sendup_mbuf H st (some i) m target

/-! ## `key_output` -/

/-- Lines 115-120: the total and byte counters of `key_output`. -/
def stat_out_total (ps : pfkeystat) (m : mbuf) : pfkeystat :=
  { ps with
    out_total := ps.out_total + 1
    out_bytes := ps.out_bytes + m.m_pkthdr_len }

/-- Update `PFKEY_STATINC(PFKEY_STAT_OUT_TOOSHORT)`. -/
def stat_out_tooshort (ps : pfkeystat) : pfkeystat :=
  { ps with out_tooshort := ps.out_tooshort + 1 }

/-- Update `PFKEY_STATINC(PFKEY_STAT_OUT_NOMEM)`. -/
def stat_out_nomem (ps : pfkeystat) : pfkeystat :=
  { ps with out_nomem := ps.out_nomem + 1 }

/-- Update `PFKEY_STATINC(PFKEY_STAT_OUT_INVLEN)`. -/
def stat_out_invlen (ps : pfkeystat) : pfkeystat :=
  { ps with out_invlen := ps.out_invlen + 1 }

/-- Function `key_output(m, so)`.  The parser `key_parse` of netipsec/key.c is
a parameter: it receives the message, the sender and the state and returns
its error code and the new state.  `pullup_ok` is the outcome of the
`m_pullup` call. -/
def key_output (key_parse : mbuf → Nat → KeyState → Int × KeyState)
    (pullup_ok : Bool) (st : KeyState) (m : mbuf) (so : Nat) : Int × KeyState :=
  let ps0 : pfkeystat := stat_out_total st.stats m
  let len := m.m_pkthdr_len
  if len < sizeof_sadb_msg then
    (EINVAL, { st with stats := stat_out_tooshort ps0 })
  else
    match (if m.m_len < sizeof_sadb_msg
           then m_pullup pullup_ok m sizeof_sadb_msg else some m) with
    | none => (ENOBUFS, { st with stats := stat_out_nomem ps0 })
    | some m1 =>
      let msg := mtod m1.m_data
      let ps1 := stat_out_msgtype ps0 msg.sadb_msg_type
      if len ≠ PFKEY_UNUNIT64 msg.sadb_msg_len then
        (EINVAL, { st with stats := stat_out_invlen ps1 })
      else
        key_parse m1 so { st with stats := ps1 }

/-! ## `key_attach` and `key_detach` -/

/-- Control block as `kmem_zalloc` hands it out and a successful `raw_attach`
(net/raw_cb.c) fills it in: flags zero, the socket given, the family of the
key domain, and `proto` stored in the `u_short` field `sp_protocol`. -/
def attached_keycb (so : socket) (proto : Int) : keycb :=
  { kp_raw :=
      { rcb_socket := so
        rcb_proto := { sp_family := PF_KEY, sp_protocol := (proto % 65536).toNat } }
    kp_promisc := 0
    kp_registered := 0 }

/-- Update `PFKEY_STATINC(PFKEY_STAT_SOCKERR)`. -/
def stat_sockerr (ps : pfkeystat) : pfkeystat :=
  { ps with sockerr := ps.sockerr + 1 }

/-- Function `key_attach(so, proto)` for a socket without control block.
`raw_attach_error` is what `raw_attach` returns; on success `raw_attach` has
put the control block at the head of `key_rawcb` (`LIST_INSERT_HEAD`), so the
blocks already there move one position up.  `so_lock` says whether
`so->so_lock` is `key_so_mtx` already; when it is not, `solock` takes the
mutex, which cannot proceed (`none`) while the mutex is held.  The result
holds the error code, `so->so_pcb` after the call (the position of the
control block, `none` for `NULL`) and the state.  The address fields,
`soisconnected` and `SO_USELOOPBACK` touch nothing kept in the state. -/
def key_attach (raw_attach_error : Int) (so_lock : Bool) (st : KeyState)
    (so : socket) (proto : Int) : Option (Int × Option Nat × KeyState) :=
  if so_lock = false ∧ st.key_so_mtx = true then none
  else if raw_attach_error ≠ 0 then
    some (raw_attach_error, none,
      { st with key_so_mtx := true, stats := stat_sockerr st.stats })
  else
    let kp := attached_keycb so proto
    some (0, some 0,
      { st with
        key_so_mtx := true
        key_rawcb := kp :: st.key_rawcb
        key_cb :=
          { key_count :=
              if kp.kp_raw.rcb_proto.sp_protocol = PF_KEY
              then st.key_cb.key_count + 1 else st.key_cb.key_count
            any_count := st.key_cb.any_count + 1 } })

/-- Function `key_detach(so)`, `so` being the position of the control block:
the counters go down as `key_attach` took them up and `raw_detach` unlinks
the control block.  The result is `none` when the socket has no control
block (`KASSERT(kp != NULL)`).  The registrations dropped by `key_freereg`
live in netipsec/key.c and are not part of the state. -/
def key_detach (st : KeyState) (so : Nat) : Option KeyState :=
  match st.key_rawcb[so]? with
  | none => none
  | some kp =>
    some { st with
      key_cb :=
        { key_count :=
            if kp.kp_raw.rcb_proto.sp_protocol = PF_KEY
            then st.key_cb.key_count - 1 else st.key_cb.key_count
          any_count := st.key_cb.any_count - 1 }
      key_rawcb := st.key_rawcb.eraseIdx so }

/-! ## Concrete data used to exercise the definitions -/

/-- Every counter zero. -/
def stats0 : pfkeystat :=
  { out_total := 0, out_bytes := 0, out_msgtype := fun _ => 0, out_invlen := 0,
    out_tooshort := 0, out_nomem := 0, in_total := 0, in_bytes := 0,
    in_msgtype := fun _ => 0, in_msgtarget := fun _ => 0, in_nomem := 0, sockerr := 0 }

/-- Key socket of protocol `PF_KEY_V2` with the given flags and `cc` bytes
accounted in an otherwise empty receive buffer. -/
def endpoint (promisc registered : Int) (cc : Nat) : keycb :=
  { kp_raw :=
      { rcb_socket := { so_rcv := { sb_cc := cc, sb_overflowed := 0, sb_mb := [] } }
        rcb_proto := { sp_family := PF_KEY, sp_protocol := PF_KEY_V2 } }
    kp_promisc := promisc
    kp_registered := registered }

/-- State with the given registry and ceiling, zero counters, mutex free. -/
def state_of (l : List keycb) (sb_max : Int) : KeyState :=
  { key_rawcb := l, key_registered_sb_max := sb_max, stats := stats0,
    key_cb := { key_count := 0, any_count := 0 }, key_so_mtx := false }

/-- Host call outcomes of `key_sendup0` when nothing fails. -/
def sendup0_ok : sendup0_host :=
  { leadingspace := false, m_prepend_ok := true, m_pullup_ok := true,
    sbappendaddr_ok := true, sbappendaddrchain_ok := true }

/-- Host call outcomes of `key_sendup0` when the socket buffer rejects the
record. -/
def sendup0_full : sendup0_host :=
  { leadingspace := false, m_prepend_ok := true, m_pullup_ok := true,
    sbappendaddr_ok := false, sbappendaddrchain_ok := false }

/-- Host on which no call fails. -/
def host_ok : sendup_host :=
  { m_pullup_ok := true, promisc_copym_ok := fun _ => true,
    promisc_sendup0 := fun _ => sendup0_ok, copym_ok := fun _ => true,
    sendup0 := fun _ => sendup0_ok, final_sendup0 := sendup0_ok }

/-- A sixteen-byte message: a bare header of version 2, type 1, whose length
field says two 8-byte units. -/
def msg16 : mbuf :=
  { m_len := 16, m_pkthdr_len := 16,
    m_data := [2, 1, 0, 0, 2, 0, 0, 0, 0, 0, 0, 0, 0, 0, 0, 0] }

/-- Registry of three key sockets: a promiscuous one, a plain one, and a
registered one with five bytes queued. -/
def registry3 : List keycb := [endpoint 1 0 0, endpoint 0 0 0, endpoint 0 1 5]

/-- Host on which only the duplication for the plain copy of the control
block at position `k` fails. -/
def host_copy_fails_at (k : Nat) : sendup_host :=
  { host_ok with copym_ok := fun i => decide (i ≠ k) }

/-- Host on which only the receive buffer of the control block at position
`k` rejects the plain copy. -/
def host_full_at (k : Nat) : sendup_host :=
  { host_ok with sendup0 := fun i => if i = k then sendup0_full else sendup0_ok }

/-- Host on which only the duplication for the promiscuous copies fails. -/
def host_no_promisc_copy : sendup_host :=
  { host_ok with promisc_copym_ok := fun _ => false }

/-- A sixteen-byte message whose length field says three 8-byte units
(24 bytes). -/
def msg_badlen : mbuf :=
  { m_len := 16, m_pkthdr_len := 16,
    m_data := [2, 1, 0, 0, 3, 0, 0, 0, 0, 0, 0, 0, 0, 0, 0, 0] }

/-- A message of 24 bytes whose first mbuf holds eight of them and whose
length field says two 8-byte units (16 bytes). -/
def msg_split : mbuf :=
  { m_len := 8, m_pkthdr_len := 24,
    m_data := [2, 1, 0, 0, 2, 0, 0, 0, 0, 0, 0, 0, 0, 0, 0, 0, 0, 0, 0, 0, 0, 0, 0, 0] }

/-- Parser stand-in that accepts every message and changes nothing. -/
def key_parse_nop : mbuf → Nat → KeyState → Int × KeyState :=
  fun _ _ st => (0, st)

/-- Host call outcomes of `key_sendup0` when the ordinary append
`sbappendaddr` rejects the record, the receive buffer being at its limit,
while the append by priority `sbappendaddrchain` would take it. -/
def sendup0_prio_only : sendup0_host :=
  { leadingspace := false, m_prepend_ok := true, m_pullup_ok := true,
    sbappendaddr_ok := false, sbappendaddrchain_ok := true }

/-- Host on which every receive buffer is at its limit for the ordinary
append of the plain copies and open to the append by priority. -/
def host_prio_only : sendup_host :=
  { host_ok with sendup0 := fun _ => sendup0_prio_only }

/-- Parser stand-in that answers the sender as `key_parse` does, through
`_key_sendup_mbuf` with target `KEY_SENDUP_ONE`. -/
def key_parse_echo : mbuf → Nat → KeyState → Int × KeyState :=
  fun m so st =>
    match _key_sendup_mbuf host_ok st (some so) m KEY_SENDUP_ONE with
    | some r => r
    | none => (EINVAL, st)

/-- A message of 32 bytes: a header of version 2, type 1, whose length field
says four 8-byte units, and sixteen more bytes. -/
def msg32 : mbuf :=
  { m_len := 32, m_pkthdr_len := 32,
    m_data := [2, 1, 0, 0, 4, 0, 0, 0, 0, 0, 0, 0, 0, 0, 0, 0,
               0, 0, 0, 0, 0, 0, 0, 0, 0, 0, 0, 0, 0, 0, 0, 0] }

/-- Records queued on the socket of a control block. -/
def records (rp : keycb) : List mbuf := rp.kp_raw.rcb_socket.so_rcv.sb_mb

/-- Test of lines 276-281 read positively: the control block belongs to the
`PF_KEY` family and its protocol is zero or `PF_KEY_V2`. -/
def is_key_socket (rp : keycb) : Bool :=
  decide (rp.kp_raw.rcb_proto.sp_family = PF_KEY) &&
    (decide (rp.kp_raw.rcb_proto.sp_protocol = 0) ||
      decide (rp.kp_raw.rcb_proto.sp_protocol = PF_KEY_V2))

/-- Records that lines 290-295 queue on the control block at position `i`: the
enveloped copy when the block is promiscuous and duplication, envelope and
append all succeed, nothing otherwise. -/
def relay_records (H : sendup_host) (i : Nat) (rp : keycb) (m : mbuf) : List mbuf :=
  if rp.kp_promisc ≠ 0 ∧ H.promisc_copym_ok i = true
      ∧ (H.promisc_sendup0 i).sbappendaddr_ok = true then
    (key_sendup0_promisc (H.promisc_sendup0 i) m).toList
  else []

/-- Records queued on `after` beyond those already on `before`. -/
def new_records (before after : keycb) : List mbuf :=
  (records after).drop (records before).length

/-- Number of key sockets other than the sender's among the control blocks
from position `i` on. -/
def non_sender_endpoints (so : Option Nat) : Nat → List keycb → Nat
  | _, [] => 0
  | i, rp :: rest =>
    (if is_key_socket rp = true ∧ so ≠ some i then 1 else 0)
      + non_sender_endpoints so (i + 1) rest

/-- Number of newly queued records equal to `m`, summed over the control
blocks other than the sender's. -/
def copies_enqueued (so : Option Nat) (m : mbuf) :
    Nat → List keycb → List keycb → Nat
  | i, b :: bs, a :: as =>
    (if so = some i then 0 else (new_records b a).count m)
      + copies_enqueued so m (i + 1) bs as
  | _, _, _ => 0

/-- Return decision of one pass of the loop body: `some e` when the function
returns `e` at this control block, `none` when the loop goes on. -/
def body_ret (H : sendup_host) (so : Option Nat) (m : mbuf) (target : Int)
    (mx : Int) (i : Nat) (rp : keycb) : Option Int :=
  (sendup_body H so m target mx i rp stats0).1

/-- Control block left by one pass of the loop body. -/
def body_cb (H : sendup_host) (so : Option Nat) (m : mbuf) (target : Int)
    (mx : Int) (i : Nat) (rp : keycb) : keycb :=
  (sendup_body H so m target mx i rp stats0).2.1

/-- Control block after lines 290-295 for the block at position `i`. -/
def tap_cb (H : sendup_host) (i : Nat) (rp : keycb) (m : mbuf) : keycb :=
  (promisc_tap H i rp m stats0).1

/-- Early return value of the loop run from position `i`, `none` when the loop
runs to the end. -/
def loop_ret (H : sendup_host) (so : Option Nat) (m : mbuf) (target : Int)
    (mx : Int) (i : Nat) (l : List keycb) : Option Int :=
  (sendup_loop H so m target mx i l stats0).1

/-- Control blocks left by the loop run from position `i`. -/
def loop_cbs (H : sendup_host) (so : Option Nat) (m : mbuf) (target : Int)
    (mx : Int) (i : Nat) (l : List keycb) : List keycb :=
  (sendup_loop H so m target mx i l stats0).2.1

/-- Outcome of the append made by the final `key_sendup0` call of line 345:
`sbappendaddrchain` for target `KEY_SENDUP_REGISTERED`, `sbappendaddr`
otherwise. -/
def final_ok (H : sendup_host) (target : Int) : Bool :=
  if sbprio_of target = 0 then H.final_sendup0.sbappendaddr_ok
  else H.final_sendup0.sbappendaddrchain_ok

/-- Statistics at the end of the loop of `_key_sendup_mbuf`. -/
def loop_stats (H : sendup_host) (st : KeyState) (so : Option Nat) (m m1 : mbuf)
    (target : Int) : pfkeystat :=
  (sendup_loop H so m1 target st.key_registered_sb_max 0 st.key_rawcb
    (stat_in_msgtype_of (stat_in_total st.stats m) m1)).2.2

/-- What one pass of the loop body does apart from the promiscuous copy, the
selection being made on the control block as the pass finds it: the return
decision and the plain records queued. -/
def plain_outcome (H : sendup_host) (so : Option Nat) (m : mbuf) (target : Int)
    (mx : Int) (i : Nat) (rp : keycb) : Option Int × List mbuf :=
  if is_key_socket rp = false then (none, [])
  else if so = some i then (none, [])
  else if sendup_of target so i rp mx = 0 then (none, [])
  else if H.copym_ok i = false then (some ENOBUFS, [])
  else if (H.sendup0 i).sbappendaddr_ok = true then (none, [m])
  else (some ENOBUFS, [])

/-- Value returned by `_key_sendup_mbuf` once the loop has ended with `lr`:
the early return value, or 0 without a sender, or what the final append
decides. -/
def call_ret (H : sendup_host) (so : Option Nat) (target : Int) (lr : Option Int) : Int :=
  match lr with
  | some e => e
  | none =>
    match so with
    | none => 0
    | some _ => if final_ok H target = true then 0 else ENOBUFS

/-! ## Basic facts -/

theorem records_so_rcv_append (rp : keycb) (m : mbuf) :
    records (so_rcv_append rp m) = records rp ++ [m] := rfl

theorem records_so_rcv_overflow (rp : keycb) :
    records (so_rcv_overflow rp) = records rp := rfl

theorem is_key_socket_iff (rp : keycb) :
    is_key_socket rp = true ↔
      ¬ (rp.kp_raw.rcb_proto.sp_family ≠ PF_KEY) ∧
      ¬ (rp.kp_raw.rcb_proto.sp_protocol ≠ 0
          ∧ rp.kp_raw.rcb_proto.sp_protocol ≠ PF_KEY_V2) := by
  unfold is_key_socket
  simp only [Bool.and_eq_true, Bool.or_eq_true, decide_eq_true_eq]
  tauto

/-- Without the envelope `key_sendup0` either queues the chain and returns 0 or
counts a drop and returns `ENOBUFS`, as the append decides. -/
theorem key_sendup0_plain (h : sendup0_host) (rp : keycb) (m : mbuf)
    (sbprio : Int) (ps : pfkeystat) :
    key_sendup0 h rp m 0 sbprio ps =
      if (if sbprio = 0 then h.sbappendaddr_ok else h.sbappendaddrchain_ok) = true
      then (0, so_rcv_append rp m, ps)
      else (ENOBUFS, so_rcv_overflow rp, stat_in_nomem ps) := by
  simp [key_sendup0]

/-- Case form of `key_sendup0`. -/
theorem key_sendup0_eq (h : sendup0_host) (rp : keycb) (m : mbuf)
    (promisc sbprio : Int) (ps : pfkeystat) :
    key_sendup0 h rp m promisc sbprio ps =
      if promisc ≠ 0 then
        match key_sendup0_promisc h m with
        | none => (ENOBUFS, rp, stat_in_nomem ps)
        | some w =>
          if (if sbprio = 0 then h.sbappendaddr_ok else h.sbappendaddrchain_ok) = true
          then (0, so_rcv_append rp w, stat_in_msgtype ps SADB_X_PROMISC)
          else (ENOBUFS, so_rcv_overflow rp,
            stat_in_nomem (stat_in_msgtype ps SADB_X_PROMISC))
      else
        if (if sbprio = 0 then h.sbappendaddr_ok else h.sbappendaddrchain_ok) = true
        then (0, so_rcv_append rp m, ps)
        else (ENOBUFS, so_rcv_overflow rp, stat_in_nomem ps) := by
  unfold key_sendup0
  by_cases hp : promisc ≠ 0
  · cases hw : key_sendup0_promisc h m <;> simp [hp, hw]
  · simp [hp]

/-- The error code and control block returned by `key_sendup0` do not depend
on the statistics passed in. -/
theorem key_sendup0_stats_indep (h : sendup0_host) (rp : keycb) (m : mbuf)
    (promisc sbprio : Int) (ps ps1 : pfkeystat) :
    (key_sendup0 h rp m promisc sbprio ps).1 = (key_sendup0 h rp m promisc sbprio ps1).1 ∧
    (key_sendup0 h rp m promisc sbprio ps).2.1
      = (key_sendup0 h rp m promisc sbprio ps1).2.1 := by
  rw [key_sendup0_eq, key_sendup0_eq]
  by_cases hp : promisc ≠ 0
  · rw [if_pos hp, if_pos hp]
    cases key_sendup0_promisc h m with
    | none => exact ⟨rfl, rfl⟩
    | some w =>
      by_cases hok : (if sbprio = 0 then h.sbappendaddr_ok
          else h.sbappendaddrchain_ok) = true
      · simp only [if_pos hok]; exact ⟨trivial, trivial⟩
      · simp only [if_neg hok]; exact ⟨trivial, trivial⟩
  · rw [if_neg hp, if_neg hp]
    by_cases hok : (if sbprio = 0 then h.sbappendaddr_ok
        else h.sbappendaddrchain_ok) = true
    · rw [if_pos hok, if_pos hok]; exact ⟨rfl, rfl⟩
    · rw [if_neg hok, if_neg hok]; exact ⟨rfl, rfl⟩

theorem promisc_tap_stats_indep (H : sendup_host) (i : Nat) (rp : keycb) (m : mbuf)
    (ps ps1 : pfkeystat) :
    (promisc_tap H i rp m ps).1 = (promisc_tap H i rp m ps1).1 := by
  unfold promisc_tap
  by_cases hp : rp.kp_promisc ≠ 0
  · rw [if_pos hp, if_pos hp]
    cases m_copym (H.promisc_copym_ok i) m with
    | none => rfl
    | some n => exact (key_sendup0_stats_indep _ rp n 1 0 ps ps1).2
  · rw [if_neg hp, if_neg hp]

/-- Records after the promiscuous copy: those before, then the relay records. -/
theorem records_promisc_tap (H : sendup_host) (i : Nat) (rp : keycb) (m : mbuf)
    (ps : pfkeystat) :
    records (promisc_tap H i rp m ps).1 = records rp ++ relay_records H i rp m := by
  unfold promisc_tap relay_records m_copym
  by_cases hp : rp.kp_promisc ≠ 0
  · rw [if_pos hp]
    cases hc : H.promisc_copym_ok i with
    | false => simp
    | true =>
      simp only [if_true, key_sendup0_eq]
      rw [if_pos (by decide : (1 : Int) ≠ 0)]
      cases hw : key_sendup0_promisc (H.promisc_sendup0 i) m with
      | none => simp
      | some w =>
        cases hq : (H.promisc_sendup0 i).sbappendaddr_ok with
        | false => simp [hp, records_so_rcv_overflow]
        | true => simp [hp, records_so_rcv_append]
  · rw [if_neg hp]
    simp [hp]

/-- The promiscuous copy changes nothing of a control block but its receive
buffer, whose byte count does not shrink. -/
theorem promisc_tap_frame (H : sendup_host) (i : Nat) (rp : keycb) (m : mbuf)
    (ps : pfkeystat) :
    (promisc_tap H i rp m ps).1.kp_registered = rp.kp_registered ∧
    (promisc_tap H i rp m ps).1.kp_promisc = rp.kp_promisc ∧
    (promisc_tap H i rp m ps).1.kp_raw.rcb_proto = rp.kp_raw.rcb_proto ∧
    rp.kp_raw.rcb_socket.so_rcv.sb_cc
      ≤ (promisc_tap H i rp m ps).1.kp_raw.rcb_socket.so_rcv.sb_cc := by
  unfold promisc_tap m_copym
  by_cases hp : rp.kp_promisc ≠ 0
  · rw [if_pos hp]
    cases hc : H.promisc_copym_ok i with
    | false => simp
    | true =>
      simp only [if_true, key_sendup0_eq]
      rw [if_pos (by decide : (1 : Int) ≠ 0)]
      cases hw : key_sendup0_promisc (H.promisc_sendup0 i) m with
      | none => simp
      | some w =>
        cases hq : (H.promisc_sendup0 i).sbappendaddr_ok with
        | false => simp [so_rcv_overflow]
        | true =>
          simp only [if_true, so_rcv_append, sbappend_record]
          refine ⟨trivial, trivial, trivial, ?_⟩
          show rp.kp_raw.rcb_socket.so_rcv.sb_cc
            ≤ rp.kp_raw.rcb_socket.so_rcv.sb_cc + key_src_sa_len + w.m_data.length
          omega
  · rw [if_neg hp]
    simp

/-- The return decision and the control block produced by one pass of the
loop body do not depend on the statistics passed in. -/
theorem sendup_body_stats_indep (H : sendup_host) (so : Option Nat) (m : mbuf)
    (target : Int) (mx : Int) (i : Nat) (rp : keycb) (ps ps1 : pfkeystat) :
    (sendup_body H so m target mx i rp ps).1 = (sendup_body H so m target mx i rp ps1).1 ∧
    (sendup_body H so m target mx i rp ps).2.1
      = (sendup_body H so m target mx i rp ps1).2.1 := by
  unfold sendup_body
  by_cases hf : rp.kp_raw.rcb_proto.sp_family ≠ PF_KEY
  · rw [if_pos hf, if_pos hf]; exact ⟨rfl, rfl⟩
  rw [if_neg hf, if_neg hf]
  by_cases hpr : rp.kp_raw.rcb_proto.sp_protocol ≠ 0
      ∧ rp.kp_raw.rcb_proto.sp_protocol ≠ PF_KEY_V2
  · rw [if_pos hpr, if_pos hpr]; exact ⟨rfl, rfl⟩
  rw [if_neg hpr, if_neg hpr]
  have ht := promisc_tap_stats_indep H i rp m ps ps1
  generalize promisc_tap H i rp m ps = t at ht ⊢
  generalize promisc_tap H i rp m ps1 = t1 at ht ⊢
  obtain ⟨a, b⟩ := t
  obtain ⟨a1, b1⟩ := t1
  simp only at ht
  subst ht
  simp only
  by_cases hs : so = some i
  · rw [if_pos hs, if_pos hs]; exact ⟨rfl, rfl⟩
  rw [if_neg hs, if_neg hs]
  by_cases hz : sendup_of target so i a mx = 0
  · rw [if_pos hz, if_pos hz]; exact ⟨rfl, rfl⟩
  rw [if_neg hz, if_neg hz]
  cases m_copym (H.copym_ok i) m with
  | none => exact ⟨rfl, rfl⟩
  | some n =>
    simp only
    obtain ⟨h1, h2⟩ := key_sendup0_stats_indep (H.sendup0 i) a n 0 0
      (stat_in_msgtarget b target) (stat_in_msgtarget b1 target)
    rw [h1, h2]
    by_cases he : (key_sendup0 (H.sendup0 i) a n 0 0 (stat_in_msgtarget b1 target)).1 ≠ 0
    · rw [if_pos he, if_pos he]; exact ⟨rfl, rfl⟩
    · rw [if_neg he, if_neg he]; exact ⟨rfl, rfl⟩

theorem sendup_body_ret (H : sendup_host) (so : Option Nat) (m : mbuf)
    (target : Int) (mx : Int) (i : Nat) (rp : keycb) (ps : pfkeystat) :
    (sendup_body H so m target mx i rp ps).1 = body_ret H so m target mx i rp :=
  (sendup_body_stats_indep H so m target mx i rp ps stats0).1

theorem sendup_body_cb (H : sendup_host) (so : Option Nat) (m : mbuf)
    (target : Int) (mx : Int) (i : Nat) (rp : keycb) (ps : pfkeystat) :
    (sendup_body H so m target mx i rp ps).2.1 = body_cb H so m target mx i rp :=
  (sendup_body_stats_indep H so m target mx i rp ps stats0).2

/-! ## The loop -/

/-- One unfolding of the loop in terms of `body_ret` and `body_cb`. -/
theorem sendup_loop_cons (H : sendup_host) (so : Option Nat) (m : mbuf)
    (target : Int) (mx : Int) (i : Nat) (rp : keycb) (rest : List keycb)
    (ps : pfkeystat) :
    ((sendup_loop H so m target mx i (rp :: rest) ps).1 =
      match body_ret H so m target mx i rp with
      | some e => some e
      | none => (sendup_loop H so m target mx (i + 1) rest
          (sendup_body H so m target mx i rp ps).2.2).1) ∧
    ((sendup_loop H so m target mx i (rp :: rest) ps).2.1 =
      match body_ret H so m target mx i rp with
      | some _ => body_cb H so m target mx i rp :: rest
      | none => body_cb H so m target mx i rp ::
          (sendup_loop H so m target mx (i + 1) rest
            (sendup_body H so m target mx i rp ps).2.2).2.1) := by
  have h1 := sendup_body_ret H so m target mx i rp ps
  have h2 := sendup_body_cb H so m target mx i rp ps
  rw [← h1, ← h2]
  cases hb : (sendup_body H so m target mx i rp ps).1 with
  | none => constructor <;> simp only [sendup_loop, hb]
  | some e => constructor <;> simp only [sendup_loop, hb]

/-- The loop keeps the number of control blocks. -/
theorem sendup_loop_length (H : sendup_host) (so : Option Nat) (m : mbuf)
    (target : Int) (mx : Int) (l : List keycb) :
    ∀ (i : Nat) (ps : pfkeystat),
      (sendup_loop H so m target mx i l ps).2.1.length = l.length := by
  induction l with
  | nil => intro i ps; rfl
  | cons rp rest ih =>
    intro i ps
    rw [(sendup_loop_cons H so m target mx i rp rest ps).2]
    cases body_ret H so m target mx i rp with
    | none => simp [ih]
    | some e => simp

/-- When no pass returns, the loop runs to the end. -/
theorem sendup_loop_none (H : sendup_host) (so : Option Nat) (m : mbuf)
    (target : Int) (mx : Int) (l : List keycb) :
    ∀ (i : Nat) (ps : pfkeystat),
      (∀ j rp, l[j]? = some rp → body_ret H so m target mx (i + j) rp = none) →
      (sendup_loop H so m target mx i l ps).1 = none := by
  induction l with
  | nil => intro i ps _; rfl
  | cons rp rest ih =>
    intro i ps h
    rw [(sendup_loop_cons H so m target mx i rp rest ps).1]
    have h0 := h 0 rp (by simp)
    rw [Nat.add_zero] at h0
    rw [h0]
    apply ih
    intro j rp1 hj
    have := h (j + 1) rp1 (by simpa using hj)
    rw [show i + (j + 1) = i + 1 + j by omega] at this
    exact this

/-- When the loop runs to the end, every control block was passed over by the
body and none of the passes returned. -/
theorem sendup_loop_complete (H : sendup_host) (so : Option Nat) (m : mbuf)
    (target : Int) (mx : Int) (l : List keycb) :
    ∀ (i : Nat) (ps : pfkeystat),
      (sendup_loop H so m target mx i l ps).1 = none →
      ∀ j rp, l[j]? = some rp →
        body_ret H so m target mx (i + j) rp = none ∧
        (sendup_loop H so m target mx i l ps).2.1[j]?
          = some (body_cb H so m target mx (i + j) rp) := by
  induction l with
  | nil => intro i ps _ j rp hj; simp at hj
  | cons rp0 rest ih =>
    intro i ps h j rp hj
    have hc := sendup_loop_cons H so m target mx i rp0 rest ps
    rw [hc.1] at h
    rw [hc.2]
    cases hb : body_ret H so m target mx i rp0 with
    | some e => rw [hb] at h; simp at h
    | none =>
      rw [hb] at h
      cases j with
      | zero =>
        simp at hj
        subst hj
        simp [hb]
      | succ k =>
        have hk : rest[k]? = some rp := by simpa using hj
        have := ih (i + 1) _ h k rp hk
        rw [show i + 1 + k = i + (k + 1) by omega] at this
        simpa using this

/-- Whatever the loop does, each control block is either left as it was or as
one pass of the body leaves it. -/
theorem sendup_loop_entry (H : sendup_host) (so : Option Nat) (m : mbuf)
    (target : Int) (mx : Int) (l : List keycb) :
    ∀ (i : Nat) (ps : pfkeystat) (j : Nat) (rp : keycb), l[j]? = some rp →
      (sendup_loop H so m target mx i l ps).2.1[j]? = some rp ∨
      (sendup_loop H so m target mx i l ps).2.1[j]?
        = some (body_cb H so m target mx (i + j) rp) := by
  induction l with
  | nil => intro i ps j rp hj; simp at hj
  | cons rp0 rest ih =>
    intro i ps j rp hj
    rw [(sendup_loop_cons H so m target mx i rp0 rest ps).2]
    cases hb : body_ret H so m target mx i rp0 with
    | some e =>
      cases j with
      | zero => simp at hj; subst hj; right; simp
      | succ k => left; simpa using hj
    | none =>
      cases j with
      | zero => simp at hj; subst hj; right; simp
      | succ k =>
        have hk : rest[k]? = some rp := by simpa using hj
        have := ih (i + 1) (sendup_body H so m target mx i rp0 ps).2.2 k rp hk
        rw [show i + 1 + k = i + (k + 1) by omega] at this
        simpa using this

/-- The early return value and the control blocks left by the loop do not
depend on the statistics passed in. -/
theorem sendup_loop_stats_indep (H : sendup_host) (so : Option Nat) (m : mbuf)
    (target : Int) (mx : Int) (l : List keycb) :
    ∀ (i : Nat) (ps : pfkeystat),
      (sendup_loop H so m target mx i l ps).1 = loop_ret H so m target mx i l ∧
      (sendup_loop H so m target mx i l ps).2.1 = loop_cbs H so m target mx i l := by
  induction l with
  | nil => intro i ps; exact ⟨rfl, rfl⟩
  | cons rp rest ih =>
    intro i ps
    unfold loop_ret loop_cbs
    have hc := sendup_loop_cons H so m target mx i rp rest ps
    have hc0 := sendup_loop_cons H so m target mx i rp rest stats0
    rw [hc.1, hc.2, hc0.1, hc0.2]
    cases body_ret H so m target mx i rp with
    | some e => exact ⟨rfl, rfl⟩
    | none =>
      simp only
      rw [(ih (i + 1) _).1, (ih (i + 1) _).2, (ih (i + 1) _).1, (ih (i + 1) _).2]
      exact ⟨rfl, rfl⟩

/-- Case form of one pass of the loop body. -/
theorem sendup_body_cases (H : sendup_host) (so : Option Nat) (m : mbuf)
    (target : Int) (mx : Int) (i : Nat) (rp : keycb) :
    (body_ret H so m target mx i rp, body_cb H so m target mx i rp) =
      if is_key_socket rp = false then (none, rp)
      else if so = some i then (none, tap_cb H i rp m)
      else if sendup_of target so i (tap_cb H i rp m) mx = 0 then (none, tap_cb H i rp m)
      else if H.copym_ok i = false then (some ENOBUFS, tap_cb H i rp m)
      else if (H.sendup0 i).sbappendaddr_ok = true
        then (none, so_rcv_append (tap_cb H i rp m) m)
        else (some ENOBUFS, so_rcv_overflow (tap_cb H i rp m)) := by
  unfold body_ret body_cb sendup_body tap_cb
  by_cases hk : is_key_socket rp = true
  · have hk2 := (is_key_socket_iff rp).1 hk
    rw [if_neg hk2.1, if_neg hk2.2,
      if_neg (show ¬ (is_key_socket rp = false) by simp [hk])]
    simp only
    by_cases hs : so = some i
    · rw [if_pos hs, if_pos hs]
    rw [if_neg hs, if_neg hs]
    by_cases hz : sendup_of target so i (promisc_tap H i rp m stats0).1 mx = 0
    · rw [if_pos hz, if_pos hz]
    rw [if_neg hz, if_neg hz]
    cases hc : H.copym_ok i with
    | false => simp [m_copym]
    | true =>
      simp only [m_copym, if_true, key_sendup0_plain]
      cases hq : (H.sendup0 i).sbappendaddr_ok with
      | false => simp [ENOBUFS]
      | true => simp
  · have hk1 : is_key_socket rp = false := by simpa using hk
    rw [if_pos hk1]
    have hk2 := (is_key_socket_iff rp).not.1 hk
    by_cases hf : rp.kp_raw.rcb_proto.sp_family ≠ PF_KEY
    · rw [if_pos hf]
    · rw [if_neg hf]
      have : rp.kp_raw.rcb_proto.sp_protocol ≠ 0
          ∧ rp.kp_raw.rcb_proto.sp_protocol ≠ PF_KEY_V2 := by
        by_contra hn; exact hk2 ⟨hf, hn⟩
      rw [if_pos this]

/-- Every error returned from inside the loop is `ENOBUFS`. -/
theorem body_ret_enobufs (H : sendup_host) (so : Option Nat) (m : mbuf)
    (target : Int) (mx : Int) (i : Nat) (rp : keycb) (e : Int)
    (h : body_ret H so m target mx i rp = some e) : e = ENOBUFS := by
  have hc := congrArg Prod.fst (sendup_body_cases H so m target mx i rp)
  simp only at hc
  rw [h] at hc
  split_ifs at hc <;> simp_all

/-- The enveloped chain: sixteen header bytes, then the bytes of the chain
given; `m_pkthdr.len` has grown by twice the header size. -/
theorem key_sendup0_promisc_some (h : sendup0_host) (m w : mbuf)
    (hw : key_sendup0_promisc h m = some w) :
    w.m_pkthdr_len = m.m_pkthdr_len + 2 * sizeof_sadb_msg ∧
    w.m_data = (promisc_header (m.m_pkthdr_len + 2 * sizeof_sadb_msg)).bytes
      ++ m.m_data := by
  unfold key_sendup0_promisc M_PREPEND at hw
  cases hl : h.leadingspace <;> cases ha : h.m_prepend_ok <;>
    simp [hl, ha, sizeof_sadb_msg, m_pullup] at hw
  all_goals
    subst hw
    simp [sizeof_sadb_msg]
    try omega

/-! ## The whole function -/

/-- The pulled-up chain has the bytes and packet length of the chain given. -/
theorem sendup_pullup_some (H : sendup_host) (m m1 : mbuf)
    (h : sendup_pullup H m = some m1) :
    m1.m_data = m.m_data ∧ m1.m_pkthdr_len = m.m_pkthdr_len
      ∧ sizeof_sadb_msg ≤ m1.m_len := by
  unfold sendup_pullup m_pullup at h
  by_cases hl : m.m_len < sizeof_sadb_msg
  · rw [if_pos hl] at h
    by_cases hd : m.m_data.length < sizeof_sadb_msg
    · rw [if_pos hd] at h; simp at h
    · rw [if_neg hd] at h
      cases hok : H.m_pullup_ok with
      | false => rw [hok] at h; simp at h
      | true =>
        rw [hok] at h
        simp only [if_true, Option.some.injEq] at h
        subst h
        exact ⟨rfl, rfl, le_max_right _ _⟩
  · rw [if_neg hl] at h
    simp only [Option.some.injEq] at h
    subst h
    exact ⟨rfl, rfl, Nat.le_of_not_lt hl⟩

/-- When the header cannot be pulled up the function returns `ENOBUFS` and
touches nothing but the statistics. -/
theorem key_sendup_mbuf_pullup_fail (H : sendup_host) (st : KeyState)
    (so : Option Nat) (m : mbuf) (target : Int) (h : sendup_pullup H m = none) :
    _key_sendup_mbuf H st so m target
      = some (ENOBUFS, { st with stats := stat_in_nomem (stat_in_total st.stats m) }) := by
  unfold _key_sendup_mbuf
  simp only [h]

/-- Return from inside the loop: the error is returned, the control blocks
are as the loop left them, and no final delivery is made. -/
theorem key_sendup_mbuf_loop_ret (H : sendup_host) (st : KeyState)
    (so : Option Nat) (m m1 : mbuf) (target : Int) (e : Int)
    (hp : sendup_pullup H m = some m1)
    (hr : loop_ret H so m1 target st.key_registered_sb_max 0 st.key_rawcb = some e) :
    _key_sendup_mbuf H st so m target
      = some (e, { st with
          key_rawcb := loop_cbs H so m1 target st.key_registered_sb_max 0 st.key_rawcb
          stats := loop_stats H st so m m1 target }) := by
  unfold _key_sendup_mbuf loop_stats
  simp only [hp]
  rw [(sendup_loop_stats_indep H so m1 target st.key_registered_sb_max st.key_rawcb 0 _).1,
    (sendup_loop_stats_indep H so m1 target st.key_registered_sb_max st.key_rawcb 0 _).2, hr]

/-- Loop run to the end without a sender: the function returns 0 and the
control blocks are as the loop left them. -/
theorem key_sendup_mbuf_no_sender (H : sendup_host) (st : KeyState)
    (m m1 : mbuf) (target : Int)
    (hp : sendup_pullup H m = some m1)
    (hr : loop_ret H none m1 target st.key_registered_sb_max 0 st.key_rawcb = none) :
    _key_sendup_mbuf H st none m target
      = some (0, { st with
          key_rawcb := loop_cbs H none m1 target st.key_registered_sb_max 0 st.key_rawcb
          stats := loop_stats H st none m m1 target }) := by
  unfold _key_sendup_mbuf loop_stats
  simp only [hp]
  rw [(sendup_loop_stats_indep H none m1 target st.key_registered_sb_max st.key_rawcb 0 _).1,
    (sendup_loop_stats_indep H none m1 target st.key_registered_sb_max st.key_rawcb 0 _).2, hr]

/-- Loop run to the end with a sender: the result is that of the final
`key_sendup0` on the sender's control block. -/
theorem key_sendup_mbuf_sender (H : sendup_host) (st : KeyState) (s : Nat)
    (m m1 : mbuf) (target : Int) (rp : keycb)
    (hp : sendup_pullup H m = some m1)
    (hr : loop_ret H (some s) m1 target st.key_registered_sb_max 0 st.key_rawcb = none)
    (hs : (loop_cbs H (some s) m1 target st.key_registered_sb_max 0 st.key_rawcb)[s]?
      = some rp) :
    _key_sendup_mbuf H st (some s) m target
      = some (if final_ok H target = true then 0 else ENOBUFS,
          { st with
            key_rawcb :=
              (loop_cbs H (some s) m1 target st.key_registered_sb_max 0 st.key_rawcb).set s
                (if final_ok H target = true then so_rcv_append rp m1
                 else so_rcv_overflow rp)
            stats :=
              if final_ok H target = true then loop_stats H st (some s) m m1 target
              else stat_in_nomem (loop_stats H st (some s) m m1 target) }) := by
  unfold _key_sendup_mbuf loop_stats final_ok
  simp only [hp]
  rw [(sendup_loop_stats_indep H (some s) m1 target st.key_registered_sb_max
        st.key_rawcb 0 _).1,
    (sendup_loop_stats_indep H (some s) m1 target st.key_registered_sb_max
        st.key_rawcb 0 _).2, hr]
  simp only [hs, key_sendup0_plain]
  by_cases hok : (if sbprio_of target = 0 then H.final_sendup0.sbappendaddr_ok
      else H.final_sendup0.sbappendaddrchain_ok) = true
  · simp only [if_pos hok]
  · simp only [if_neg hok]

/-! ## Relay records and plain copies -/

theorem sadb_msg_bytes_length (h : sadb_msg) : h.bytes.length = sizeof_sadb_msg := rfl

/-- A relay record is the envelope followed by the bytes of the message. -/
theorem relay_records_wrapped (H : sendup_host) (i : Nat) (rp : keycb) (m x : mbuf)
    (hx : x ∈ relay_records H i rp m) :
    x.m_data = (promisc_header (m.m_pkthdr_len + 2 * sizeof_sadb_msg)).bytes
      ++ m.m_data := by
  unfold relay_records at hx
  split_ifs at hx with hc
  · rw [Option.mem_toList] at hx
    exact (key_sendup0_promisc_some _ m x hx).2
  · simp at hx

/-- A relay record is never the message itself. -/
theorem relay_records_ne (H : sendup_host) (i : Nat) (rp : keycb) (m x : mbuf)
    (hx : x ∈ relay_records H i rp m) : x ≠ m := by
  intro h
  have hw := relay_records_wrapped H i rp m x hx
  rw [h] at hw
  have hl := congrArg List.length hw
  rw [List.length_append, sadb_msg_bytes_length] at hl
  unfold sizeof_sadb_msg at hl
  omega

theorem records_tap_cb (H : sendup_host) (i : Nat) (rp : keycb) (m : mbuf) :
    records (tap_cb H i rp m) = records rp ++ relay_records H i rp m :=
  records_promisc_tap H i rp m stats0

theorem new_records_append (rp rp1 : keycb) (x : List mbuf)
    (h : records rp1 = records rp ++ x) : new_records rp rp1 = x := by
  unfold new_records
  rw [h, List.drop_left]

theorem sendup_of_all (so : Option Nat) (i : Nat) (rp : keycb) (mx : Int) :
    sendup_of KEY_SENDUP_ALL so i rp mx = 1 := by
  unfold sendup_of
  rw [if_neg (by decide), if_pos rfl]

/-- Under target `KEY_SENDUP_ALL`, with duplication and the plain append
succeeding, no pass of the body returns, and a pass queues the copy on every
key socket but the sender's. -/
theorem body_all (H : sendup_host) (so : Option Nat) (m : mbuf) (mx : Int)
    (i : Nat) (rp : keycb)
    (hcopy : H.copym_ok i = true) (hq : (H.sendup0 i).sbappendaddr_ok = true) :
    body_ret H so m KEY_SENDUP_ALL mx i rp = none ∧
    body_cb H so m KEY_SENDUP_ALL mx i rp =
      if is_key_socket rp = false then rp
      else if so = some i then tap_cb H i rp m
      else so_rcv_append (tap_cb H i rp m) m := by
  have hc := sendup_body_cases H so m KEY_SENDUP_ALL mx i rp
  rw [sendup_of_all, hcopy, hq] at hc
  simp only [one_ne_zero, if_false, if_true, Bool.true_eq_false] at hc
  have h1 := congrArg Prod.fst hc
  have h2 := congrArg Prod.snd hc
  simp only at h1 h2
  constructor
  · rw [h1]; split_ifs <;> rfl
  · rw [h2]; split_ifs <;> rfl

/-- Counting lemma: when each control block other than the sender's gains
the message exactly once if it is a key socket and not at all otherwise, the
number of copies is the number of key sockets other than the sender's. -/
theorem copies_enqueued_eq (so : Option Nat) (m : mbuf) (b : List keycb) :
    ∀ (a : List keycb) (i : Nat), a.length = b.length →
      (∀ j rp, b[j]? = some rp → so ≠ some (i + j) →
        ∃ rp1, a[j]? = some rp1 ∧
          (new_records rp rp1).count m = if is_key_socket rp = true then 1 else 0) →
      copies_enqueued so m i b a = non_sender_endpoints so i b := by
  induction b with
  | nil =>
    intro a i hl _
    cases a with
    | nil => rfl
    | cons x xs => simp at hl
  | cons rp rest ih =>
    intro a i hl h
    cases a with
    | nil => simp at hl
    | cons rp1 as =>
      simp only [copies_enqueued, non_sender_endpoints]
      have hrest : copies_enqueued so m (i + 1) rest as
          = non_sender_endpoints so (i + 1) rest := by
        apply ih
        · simpa using hl
        · intro j rpj hj hne
          have := h (j + 1) rpj (by simpa using hj)
            (by rw [show i + (j + 1) = i + 1 + j by omega]; exact hne)
          simpa using this
      rw [hrest]
      congr 1
      by_cases hs : so = some i
      · simp [hs]
      · obtain ⟨r1, hr1, hcount⟩ := h 0 rp (by simp) (by simpa using hs)
        simp only [List.getElem?_cons_zero, Option.some.injEq] at hr1
        subst hr1
        rw [if_neg hs, hcount]
        by_cases hk : is_key_socket rp = true
        · simp [hk, hs]
        · simp [hk]

theorem loop_cbs_length (H : sendup_host) (so : Option Nat) (m : mbuf)
    (target : Int) (mx : Int) (i : Nat) (l : List keycb) :
    (loop_cbs H so m target mx i l).length = l.length :=
  sendup_loop_length H so m target mx l i stats0

/-- Away from the sender's control block the function leaves the control
blocks as the loop left them. -/
theorem key_sendup_mbuf_frame (H : sendup_host) (st : KeyState) (so : Option Nat)
    (m m1 : mbuf) (target : Int) (e : Int) (st1 : KeyState)
    (hp : sendup_pullup H m = some m1)
    (hres : _key_sendup_mbuf H st so m target = some (e, st1)) :
    st1.key_rawcb.length = st.key_rawcb.length ∧
    ∀ i, so ≠ some i →
      st1.key_rawcb[i]?
        = (loop_cbs H so m1 target st.key_registered_sb_max 0 st.key_rawcb)[i]? := by
  cases hr : loop_ret H so m1 target st.key_registered_sb_max 0 st.key_rawcb with
  | some e1 =>
    rw [key_sendup_mbuf_loop_ret H st so m m1 target e1 hp hr] at hres
    simp only [Option.some.injEq, Prod.mk.injEq] at hres
    obtain ⟨_, h2⟩ := hres
    subst h2
    exact ⟨loop_cbs_length _ _ _ _ _ _ _, fun _ _ => rfl⟩
  | none =>
    cases so with
    | none =>
      rw [key_sendup_mbuf_no_sender H st m m1 target hp hr] at hres
      simp only [Option.some.injEq, Prod.mk.injEq] at hres
      obtain ⟨_, h2⟩ := hres
      subst h2
      exact ⟨loop_cbs_length _ _ _ _ _ _ _, fun _ _ => rfl⟩
    | some s =>
      cases hs : (loop_cbs H (some s) m1 target st.key_registered_sb_max 0
          st.key_rawcb)[s]? with
      | none =>
        exfalso
        unfold _key_sendup_mbuf at hres
        simp only [hp] at hres
        rw [(sendup_loop_stats_indep H (some s) m1 target st.key_registered_sb_max
              st.key_rawcb 0 _).1,
          (sendup_loop_stats_indep H (some s) m1 target st.key_registered_sb_max
              st.key_rawcb 0 _).2, hr] at hres
        simp [hs] at hres
      | some rp =>
        rw [key_sendup_mbuf_sender H st s m m1 target rp hp hr hs] at hres
        simp only [Option.some.injEq, Prod.mk.injEq] at hres
        obtain ⟨_, h2⟩ := hres
        subst h2
        refine ⟨by simp [loop_cbs_length], ?_⟩
        intro i hi
        have hne : s ≠ i := fun h => hi (by rw [h])
        simp [List.getElem?_set_ne hne]

/-- The function returns a result whenever the header is pulled up and the
sender, if any, is on the list. -/
theorem key_sendup_mbuf_returns (H : sendup_host) (st : KeyState) (so : Option Nat)
    (m m1 : mbuf) (target : Int)
    (hp : sendup_pullup H m = some m1)
    (hso : ∀ s, so = some s → s < st.key_rawcb.length) :
    ∃ e st1, _key_sendup_mbuf H st so m target = some (e, st1) := by
  cases hr : loop_ret H so m1 target st.key_registered_sb_max 0 st.key_rawcb with
  | some e1 => exact ⟨_, _, key_sendup_mbuf_loop_ret H st so m m1 target e1 hp hr⟩
  | none =>
    cases so with
    | none => exact ⟨_, _, key_sendup_mbuf_no_sender H st m m1 target hp hr⟩
    | some s =>
      have hlt : s < (loop_cbs H (some s) m1 target st.key_registered_sb_max 0
          st.key_rawcb).length := by
        rw [loop_cbs_length]; exact hso s rfl
      have hs := List.getElem?_eq_getElem hlt
      exact ⟨_, _, key_sendup_mbuf_sender H st s m m1 target _ hp hr hs⟩

/-- When the loop runs to the end every control block is as one pass of the
body leaves it. -/
theorem loop_cbs_complete (H : sendup_host) (so : Option Nat) (m : mbuf)
    (target : Int) (mx : Int) (l : List keycb)
    (hr : loop_ret H so m target mx 0 l = none) (j : Nat) (rp : keycb)
    (hj : l[j]? = some rp) :
    body_ret H so m target mx j rp = none ∧
    (loop_cbs H so m target mx 0 l)[j]? = some (body_cb H so m target mx j rp) := by
  have := sendup_loop_complete H so m target mx l 0 stats0 hr j rp hj
  rw [Nat.zero_add] at this
  exact this

/-- The loop runs to the end when no pass returns. -/
theorem loop_ret_none (H : sendup_host) (so : Option Nat) (m : mbuf)
    (target : Int) (mx : Int) (l : List keycb)
    (h : ∀ j rp, l[j]? = some rp → body_ret H so m target mx j rp = none) :
    loop_ret H so m target mx 0 l = none := by
  apply sendup_loop_none
  intro j rp hj
  rw [Nat.zero_add]
  exact h j rp hj

/-! ## C1 -/

/-- C1. Fan-out with target `KEY_SENDUP_ALL` when the header pull-up, every
duplication and every plain append succeed: the call returns, each control
block other than the sender's keeps its records and gains, after its relay
records, exactly one record equal to the message when it is a key socket
(family `PF_KEY`, protocol 0 or `PF_KEY_V2`) and nothing otherwise; the
number of copies queued is the number of such sockets; and the bytes queued
are the bytes of the message handed in. -/
theorem sendup_all_one_copy_each (H : sendup_host) (st : KeyState)
    (so : Option Nat) (m m1 : mbuf)
    (hpull : sendup_pullup H m = some m1)
    (hcopy : ∀ i, H.copym_ok i = true)
    (hq : ∀ i, (H.sendup0 i).sbappendaddr_ok = true)
    (hso : ∀ s, so = some s → s < st.key_rawcb.length) :
    ∃ e st1, _key_sendup_mbuf H st so m KEY_SENDUP_ALL = some (e, st1) ∧
      m1.m_data = m.m_data ∧
      copies_enqueued so m1 0 st.key_rawcb st1.key_rawcb
        = non_sender_endpoints so 0 st.key_rawcb ∧
      ∀ i rp, st.key_rawcb[i]? = some rp → so ≠ some i →
        ∃ rp1, st1.key_rawcb[i]? = some rp1 ∧
          records rp1 = records rp ++
            (if is_key_socket rp = true then relay_records H i rp m1 ++ [m1] else []) := by
  obtain ⟨e, st1, hres⟩ := key_sendup_mbuf_returns H st so m m1 KEY_SENDUP_ALL hpull hso
  obtain ⟨hlen, hframe⟩ := key_sendup_mbuf_frame H st so m m1 KEY_SENDUP_ALL e st1 hpull hres
  have hret : loop_ret H so m1 KEY_SENDUP_ALL st.key_registered_sb_max 0 st.key_rawcb
      = none :=
    loop_ret_none _ _ _ _ _ _ (fun j rp _ => (body_all H so m1 _ j rp (hcopy j) (hq j)).1)
  have hentry : ∀ i rp, st.key_rawcb[i]? = some rp → so ≠ some i →
      ∃ rp1, st1.key_rawcb[i]? = some rp1 ∧
        records rp1 = records rp ++
          (if is_key_socket rp = true then relay_records H i rp m1 ++ [m1] else []) := by
    intro i rp hi hne
    refine ⟨body_cb H so m1 KEY_SENDUP_ALL st.key_registered_sb_max i rp, ?_, ?_⟩
    · rw [hframe i hne]
      exact (loop_cbs_complete H so m1 _ _ _ hret i rp hi).2
    · rw [(body_all H so m1 _ i rp (hcopy i) (hq i)).2]
      by_cases hk : is_key_socket rp = true
      · rw [if_neg (by simp [hk]), if_neg hne, if_pos hk, records_so_rcv_append,
          records_tap_cb, List.append_assoc]
      · rw [if_pos (by simpa using hk), if_neg hk, List.append_nil]
  refine ⟨e, st1, hres, (sendup_pullup_some H m m1 hpull).1, ?_, hentry⟩
  apply copies_enqueued_eq so m1 st.key_rawcb st1.key_rawcb 0 hlen
  intro j rp hj hne
  rw [Nat.zero_add] at hne
  obtain ⟨rp1, h1, h2⟩ := hentry j rp hj hne
  refine ⟨rp1, h1, ?_⟩
  rw [new_records_append rp rp1 _ h2]
  by_cases hk : is_key_socket rp = true
  · rw [if_pos hk, if_pos hk, List.count_append,
      List.count_eq_zero_of_not_mem (fun hx => relay_records_ne H j rp m1 m1 hx rfl)]
    simp
  · rw [if_neg hk, if_neg hk]
    rfl

/-- Witness of C1: three key sockets, the third being the sender, on a host
where nothing fails. -/
theorem sendup_all_one_copy_each_witness :
    sendup_pullup host_ok msg16 = some msg16 ∧
    (∃ e st1, _key_sendup_mbuf host_ok (state_of registry3 100) (some 2) msg16
        KEY_SENDUP_ALL = some (e, st1) ∧
      msg16.m_data = msg16.m_data ∧
      copies_enqueued (some 2) msg16 0 (state_of registry3 100).key_rawcb st1.key_rawcb
        = non_sender_endpoints (some 2) 0 (state_of registry3 100).key_rawcb ∧
      ∀ i rp, (state_of registry3 100).key_rawcb[i]? = some rp → some 2 ≠ some i →
        ∃ rp1, st1.key_rawcb[i]? = some rp1 ∧
          records rp1 = records rp ++
            (if is_key_socket rp = true
             then relay_records host_ok i rp msg16 ++ [msg16] else [])) :=
  ⟨rfl, sendup_all_one_copy_each host_ok (state_of registry3 100) (some 2) msg16 msg16
    rfl (fun _ => rfl) (fun _ => rfl)
    (by intro s h; cases h; decide)⟩

/-! ## The loop without the statistics -/

theorem loop_ret_cons (H : sendup_host) (so : Option Nat) (m : mbuf)
    (target : Int) (mx : Int) (i : Nat) (rp : keycb) (rest : List keycb) :
    loop_ret H so m target mx i (rp :: rest) =
      match body_ret H so m target mx i rp with
      | some e => some e
      | none => loop_ret H so m target mx (i + 1) rest := by
  unfold loop_ret
  rw [(sendup_loop_cons H so m target mx i rp rest stats0).1]
  cases body_ret H so m target mx i rp with
  | some e => rfl
  | none => exact (sendup_loop_stats_indep H so m target mx rest (i + 1) _).1

theorem loop_cbs_cons (H : sendup_host) (so : Option Nat) (m : mbuf)
    (target : Int) (mx : Int) (i : Nat) (rp : keycb) (rest : List keycb) :
    loop_cbs H so m target mx i (rp :: rest) =
      match body_ret H so m target mx i rp with
      | some _ => body_cb H so m target mx i rp :: rest
      | none => body_cb H so m target mx i rp :: loop_cbs H so m target mx (i + 1) rest := by
  unfold loop_cbs
  rw [(sendup_loop_cons H so m target mx i rp rest stats0).2]
  cases body_ret H so m target mx i rp with
  | some e => rfl
  | none =>
    simp only
    rw [(sendup_loop_stats_indep H so m target mx rest (i + 1) _).2]
    rfl

/-- The loop over `pre ++ post`: when the loop over `pre` runs to the end, the
control blocks of `post` are processed as by a loop started at their
position; otherwise they are left alone. -/
theorem loop_append (H : sendup_host) (so : Option Nat) (m : mbuf)
    (target : Int) (mx : Int) (pre post : List keycb) :
    ∀ i : Nat,
      (loop_ret H so m target mx i (pre ++ post) =
        match loop_ret H so m target mx i pre with
        | some e => some e
        | none => loop_ret H so m target mx (i + pre.length) post) ∧
      (loop_cbs H so m target mx i (pre ++ post) =
        match loop_ret H so m target mx i pre with
        | some _ => loop_cbs H so m target mx i pre ++ post
        | none => loop_cbs H so m target mx i pre
            ++ loop_cbs H so m target mx (i + pre.length) post) := by
  induction pre with
  | nil =>
    intro i
    simp only [List.nil_append, List.length_nil, Nat.add_zero]
    exact ⟨rfl, rfl⟩
  | cons rp rest ih =>
    intro i
    simp only [List.cons_append, loop_ret_cons, loop_cbs_cons, List.length_cons]
    cases body_ret H so m target mx i rp with
    | some e => exact ⟨rfl, rfl⟩
    | none =>
      simp only
      obtain ⟨h1, h2⟩ := ih (i + 1)
      rw [h1, h2, show i + 1 + rest.length = i + (rest.length + 1) by omega]
      cases loop_ret H so m target mx (i + 1) rest with
      | some e => exact ⟨rfl, rfl⟩
      | none => exact ⟨rfl, rfl⟩

/-- Whatever the loop does, each control block is either left as it was or as
one pass of the body leaves it. -/
theorem loop_cbs_entry (H : sendup_host) (so : Option Nat) (m : mbuf)
    (target : Int) (mx : Int) (l : List keycb) (j : Nat) (rp : keycb)
    (hj : l[j]? = some rp) :
    (loop_cbs H so m target mx 0 l)[j]? = some rp ∨
    (loop_cbs H so m target mx 0 l)[j]? = some (body_cb H so m target mx j rp) := by
  have := sendup_loop_entry H so m target mx l 0 stats0 j rp hj
  rw [Nat.zero_add] at this
  exact this

/-- The control block in the middle of `pre ++ rp :: post` is at position
`pre.length`. -/
theorem getElem?_middle (pre post : List keycb) (rp : keycb) :
    (pre ++ rp :: post)[pre.length]? = some rp := by
  rw [List.getElem?_append_right (Nat.le_refl _)]
  simp

/-! ## C3 -/

/-- A ceiling that is not negative (and fits an `int`) converts to itself. -/
theorem u_long_of_int_nonneg (mx : Int) (h0 : 0 ≤ mx) (h1 : mx < 2147483648) :
    (u_long_of_int mx : Int) = mx := by
  unfold u_long_of_int
  omega

/-- Under target `KEY_SENDUP_REGISTERED` a control block that is not
registered, or whose queued bytes exceed the ceiling (the test
`sb_cc <= key_registered_sb_max` of line 313 is false), is not selected. -/
theorem sendup_of_registered_skip (so : Option Nat) (i : Nat) (rp : keycb) (mx : Int)
    (h : rp.kp_registered = 0 ∨
      u_long_of_int mx < rp.kp_raw.rcb_socket.so_rcv.sb_cc) :
    sendup_of KEY_SENDUP_REGISTERED so i rp mx = 0 := by
  unfold sendup_of
  rw [if_neg (by decide), if_neg (by decide), if_pos rfl]
  rcases h with h | h
  · rw [if_neg (by simp [h])]
  · by_cases hr : rp.kp_registered ≠ 0
    · rw [if_pos hr, if_neg (by omega)]
    · rw [if_neg hr]

/-- Under target `KEY_SENDUP_REGISTERED` the pass over a control block that
is not registered, or is over the ceiling, does not return and leaves the
block as it was or as the promiscuous copy left it. -/
theorem body_registered_skip (H : sendup_host) (so : Option Nat) (m : mbuf)
    (mx : Int) (i : Nat) (rp : keycb)
    (h : rp.kp_registered = 0 ∨
      u_long_of_int mx < rp.kp_raw.rcb_socket.so_rcv.sb_cc) :
    body_ret H so m KEY_SENDUP_REGISTERED mx i rp = none ∧
    (body_cb H so m KEY_SENDUP_REGISTERED mx i rp = rp ∨
      body_cb H so m KEY_SENDUP_REGISTERED mx i rp = tap_cb H i rp m) := by
  have hf := promisc_tap_frame H i rp m stats0
  have hz : sendup_of KEY_SENDUP_REGISTERED so i (tap_cb H i rp m) mx = 0 := by
    apply sendup_of_registered_skip
    unfold tap_cb
    rcases h with h | h
    · left; rw [hf.1]; exact h
    · right
      have := hf.2.2.2
      omega
  have hc := sendup_body_cases H so m KEY_SENDUP_REGISTERED mx i rp
  rw [hz] at hc
  simp only [if_true] at hc
  have h1 := congrArg Prod.fst hc
  have h2 := congrArg Prod.snd hc
  simp only at h1 h2
  constructor
  · rw [h1]; split_ifs <;> rfl
  · rw [h2]; split_ifs
    · left; rfl
    · right; rfl
    · right; rfl

/-- C3. Fan-out with target `KEY_SENDUP_REGISTERED`, for a control block other
than the sender's that is not registered (`kp_registered` zero), or whose
queued bytes `so_rcv.sb_cc` exceed the ceiling `key_registered_sb_max` (as
line 313 compares them, the `int` ceiling converted to `u_long`): the call
queues on it nothing but relay records, in particular no copy of the
message; the pass over it returns no error; and when the loop reaches it the
following control blocks are processed exactly as by a loop started right
after it. -/
theorem sendup_registered_skip (H : sendup_host) (st : KeyState) (so : Option Nat)
    (m m1 : mbuf) (pre : List keycb) (rp : keycb) (post : List keycb)
    (hpull : sendup_pullup H m = some m1)
    (hreg : st.key_rawcb = pre ++ rp :: post)
    (hne : so ≠ some pre.length)
    (hso : ∀ s, so = some s → s < st.key_rawcb.length)
    (hskip : rp.kp_registered = 0 ∨
      u_long_of_int st.key_registered_sb_max < rp.kp_raw.rcb_socket.so_rcv.sb_cc) :
    (∃ e st1 rp1,
        _key_sendup_mbuf H st so m KEY_SENDUP_REGISTERED = some (e, st1) ∧
        st1.key_rawcb[pre.length]? = some rp1 ∧
        (records rp1 = records rp ∨
          records rp1 = records rp ++ relay_records H pre.length rp m1) ∧
        m1 ∉ new_records rp rp1) ∧
    body_ret H so m1 KEY_SENDUP_REGISTERED st.key_registered_sb_max pre.length rp = none ∧
    (loop_ret H so m1 KEY_SENDUP_REGISTERED st.key_registered_sb_max 0 pre = none →
      loop_ret H so m1 KEY_SENDUP_REGISTERED st.key_registered_sb_max 0
          (pre ++ rp :: post)
        = loop_ret H so m1 KEY_SENDUP_REGISTERED st.key_registered_sb_max
            (pre.length + 1) post ∧
      loop_cbs H so m1 KEY_SENDUP_REGISTERED st.key_registered_sb_max 0
          (pre ++ rp :: post)
        = loop_cbs H so m1 KEY_SENDUP_REGISTERED st.key_registered_sb_max 0 pre
          ++ body_cb H so m1 KEY_SENDUP_REGISTERED st.key_registered_sb_max
              pre.length rp
          :: loop_cbs H so m1 KEY_SENDUP_REGISTERED st.key_registered_sb_max
              (pre.length + 1) post) := by
  obtain ⟨hb1, hb2⟩ :=
    body_registered_skip H so m1 st.key_registered_sb_max pre.length rp hskip
  refine ⟨?_, hb1, ?_⟩
  · obtain ⟨e, st1, hres⟩ :=
      key_sendup_mbuf_returns H st so m m1 KEY_SENDUP_REGISTERED hpull hso
    obtain ⟨_, hframe⟩ :=
      key_sendup_mbuf_frame H st so m m1 KEY_SENDUP_REGISTERED e st1 hpull hres
    have hmid : st.key_rawcb[pre.length]? = some rp := by
      rw [hreg]; exact getElem?_middle pre post rp
    have hent := loop_cbs_entry H so m1 KEY_SENDUP_REGISTERED
      st.key_registered_sb_max st.key_rawcb pre.length rp hmid
    rw [← hframe pre.length hne] at hent
    have hcases : st1.key_rawcb[pre.length]? = some rp ∨
        st1.key_rawcb[pre.length]? = some (tap_cb H pre.length rp m1) := by
      rcases hent with h | h
      · left; exact h
      · rcases hb2 with h2 | h2
        · left; rw [h, h2]
        · right; rw [h, h2]
    rcases hcases with h | h
    · refine ⟨e, st1, rp, hres, h, Or.inl rfl, ?_⟩
      unfold new_records
      simp
    · refine ⟨e, st1, _, hres, h, Or.inr (records_tap_cb H pre.length rp m1), ?_⟩
      rw [new_records_append rp _ _ (records_tap_cb H pre.length rp m1)]
      exact fun hx => relay_records_ne H pre.length rp m1 m1 hx rfl
  · intro hpre
    obtain ⟨h1, h2⟩ := loop_append H so m1 KEY_SENDUP_REGISTERED
      st.key_registered_sb_max pre (rp :: post) 0
    rw [hpre] at h1 h2
    simp only [Nat.zero_add] at h1 h2
    rw [h1, h2, loop_ret_cons, loop_cbs_cons, hb1]
    exact ⟨rfl, rfl⟩

/-- Witness of C3: the registered socket in the middle holds 101 bytes against
a ceiling of 100; its neighbours are registered and within the ceiling. -/
theorem sendup_registered_skip_witness :
    (∃ e st1 rp1,
        _key_sendup_mbuf host_ok
            (state_of ([endpoint 0 1 0] ++ endpoint 0 1 101 :: [endpoint 0 1 0]) 100)
            none msg16 KEY_SENDUP_REGISTERED = some (e, st1) ∧
        st1.key_rawcb[[endpoint 0 1 0].length]? = some rp1 ∧
        (records rp1 = records (endpoint 0 1 101) ∨
          records rp1 = records (endpoint 0 1 101)
            ++ relay_records host_ok [endpoint 0 1 0].length (endpoint 0 1 101) msg16) ∧
        msg16 ∉ new_records (endpoint 0 1 101) rp1) ∧
    body_ret host_ok none msg16 KEY_SENDUP_REGISTERED 100 [endpoint 0 1 0].length
        (endpoint 0 1 101) = none ∧
    (loop_cbs host_ok none msg16 KEY_SENDUP_REGISTERED 100 0
        ([endpoint 0 1 0] ++ endpoint 0 1 101 :: [endpoint 0 1 0])).map records
      = [[msg16], [], [msg16]] :=
  have h := sendup_registered_skip host_ok
    (state_of ([endpoint 0 1 0] ++ endpoint 0 1 101 :: [endpoint 0 1 0]) 100) none
    msg16 msg16 [endpoint 0 1 0] (endpoint 0 1 101) [endpoint 0 1 0]
    rfl rfl (by decide) (by intro s hs; cases hs) (Or.inr (by decide))
  ⟨h.1, h.2.1, by decide⟩

/-! ## Selected control blocks -/

/-- Pass over a selected control block whose duplication fails: the function
returns `ENOBUFS` and the block is as the promiscuous copy left it. -/
theorem body_selected_copy_fails (H : sendup_host) (so : Option Nat) (m : mbuf)
    (target : Int) (mx : Int) (i : Nat) (rp : keycb)
    (hkey : is_key_socket rp = true) (hne : so ≠ some i)
    (hsel : sendup_of target so i (tap_cb H i rp m) mx ≠ 0)
    (hfail : H.copym_ok i = false) :
    body_ret H so m target mx i rp = some ENOBUFS ∧
    body_cb H so m target mx i rp = tap_cb H i rp m := by
  have hc := sendup_body_cases H so m target mx i rp
  rw [if_neg (by simp [hkey]), if_neg hne, if_neg hsel, if_pos hfail] at hc
  exact ⟨congrArg Prod.fst hc, congrArg Prod.snd hc⟩

/-- Pass over a selected control block whose receive buffer rejects the copy:
the function returns `ENOBUFS` and the drop count of the block goes up. -/
theorem body_selected_rejected (H : sendup_host) (so : Option Nat) (m : mbuf)
    (target : Int) (mx : Int) (i : Nat) (rp : keycb)
    (hkey : is_key_socket rp = true) (hne : so ≠ some i)
    (hsel : sendup_of target so i (tap_cb H i rp m) mx ≠ 0)
    (hcopy : H.copym_ok i = true)
    (hfull : (H.sendup0 i).sbappendaddr_ok = false) :
    body_ret H so m target mx i rp = some ENOBUFS ∧
    body_cb H so m target mx i rp = so_rcv_overflow (tap_cb H i rp m) := by
  have hc := sendup_body_cases H so m target mx i rp
  rw [if_neg (by simp [hkey]), if_neg hne, if_neg hsel, if_neg (by simp [hcopy]),
    if_neg (by simp [hfull])] at hc
  exact ⟨congrArg Prod.fst hc, congrArg Prod.snd hc⟩

/-- Pass over a selected control block that does not return: duplication and
append succeeded and the copy is queued after the relay records. -/
theorem body_selected_none (H : sendup_host) (so : Option Nat) (m : mbuf)
    (target : Int) (mx : Int) (i : Nat) (rp : keycb)
    (hkey : is_key_socket rp = true) (hne : so ≠ some i)
    (hsel : sendup_of target so i (tap_cb H i rp m) mx ≠ 0)
    (hret : body_ret H so m target mx i rp = none) :
    body_cb H so m target mx i rp = so_rcv_append (tap_cb H i rp m) m := by
  have hc := sendup_body_cases H so m target mx i rp
  rw [if_neg (by simp [hkey]), if_neg hne, if_neg hsel, hret] at hc
  by_cases h1 : H.copym_ok i = false
  · rw [if_pos h1] at hc
    simp at hc
  · rw [if_neg h1] at hc
    by_cases h2 : (H.sendup0 i).sbappendaddr_ok = true
    · rw [if_pos h2] at hc
      exact congrArg Prod.snd hc
    · rw [if_neg h2] at hc
      simp at hc

/-! ## C7 -/

/-- C7. When the loop reaches a selected control block (the blocks `pre`
before it were passed without a return) and the duplication for it fails,
the call returns `ENOBUFS`; every selected block of `pre` holds its copy,
queued after its relay records; the block itself gets no copy; and the
blocks `post` after it are untouched, the sender receiving no final
delivery. -/
theorem sendup_copy_failure_aborts (H : sendup_host) (st : KeyState)
    (so : Option Nat) (m m1 : mbuf) (target : Int)
    (pre : List keycb) (rp : keycb) (post : List keycb)
    (hpull : sendup_pullup H m = some m1)
    (hreg : st.key_rawcb = pre ++ rp :: post)
    (hreach : loop_ret H so m1 target st.key_registered_sb_max 0 pre = none)
    (hkey : is_key_socket rp = true) (hne : so ≠ some pre.length)
    (hsel : sendup_of target so pre.length (tap_cb H pre.length rp m1)
      st.key_registered_sb_max ≠ 0)
    (hfail : H.copym_ok pre.length = false) :
    ∃ st1, _key_sendup_mbuf H st so m target = some (ENOBUFS, st1) ∧
      st1.key_rawcb
        = loop_cbs H so m1 target st.key_registered_sb_max 0 pre
          ++ tap_cb H pre.length rp m1 :: post ∧
      m1 ∉ new_records rp (tap_cb H pre.length rp m1) ∧
      ∀ j rpj, pre[j]? = some rpj → is_key_socket rpj = true → so ≠ some j →
        sendup_of target so j (tap_cb H j rpj m1) st.key_registered_sb_max ≠ 0 →
        ∃ rp1, st1.key_rawcb[j]? = some rp1 ∧
          records rp1 = records rpj ++ relay_records H j rpj m1 ++ [m1] := by
  obtain ⟨hb1, hb2⟩ := body_selected_copy_fails H so m1 target
    st.key_registered_sb_max pre.length rp hkey hne hsel hfail
  obtain ⟨h1, h2⟩ := loop_append H so m1 target st.key_registered_sb_max pre
    (rp :: post) 0
  rw [hreach] at h1 h2
  simp only [Nat.zero_add, loop_ret_cons, loop_cbs_cons, hb1, hb2] at h1 h2
  have hres := key_sendup_mbuf_loop_ret H st so m m1 target ENOBUFS hpull
    (by rw [hreg]; exact h1)
  refine ⟨_, hres, by rw [hreg]; exact h2, ?_, ?_⟩
  · rw [new_records_append rp _ _ (records_tap_cb H pre.length rp m1)]
    exact fun hx => relay_records_ne H pre.length rp m1 m1 hx rfl
  · intro j rpj hj hk hnej hselj
    obtain ⟨c1, c2⟩ := loop_cbs_complete H so m1 target st.key_registered_sb_max
      pre hreach j rpj hj
    have hlt : j < (loop_cbs H so m1 target st.key_registered_sb_max 0 pre).length := by
      rw [loop_cbs_length]
      by_contra hcon
      rw [List.getElem?_eq_none (by omega)] at hj
      cases hj
    refine ⟨body_cb H so m1 target st.key_registered_sb_max j rpj, ?_, ?_⟩
    · show (loop_cbs H so m1 target st.key_registered_sb_max 0 st.key_rawcb)[j]? = _
      rw [hreg, h2, List.getElem?_append_left hlt]
      exact c2
    · rw [body_selected_none H so m1 target st.key_registered_sb_max j rpj hk hnej
        hselj c1, records_so_rcv_append, records_tap_cb]

/-- Witness of C7: five key sockets, target `KEY_SENDUP_ALL`, no sender, the
duplication for the third fails; the first two hold their copies, the last
three hold nothing. -/
theorem sendup_copy_failure_aborts_witness :
    ∃ st1, _key_sendup_mbuf (host_copy_fails_at 2)
        (state_of ([endpoint 0 0 0, endpoint 0 0 0] ++ endpoint 0 0 0
          :: [endpoint 0 0 0, endpoint 0 0 0]) 100)
        none msg16 KEY_SENDUP_ALL = some (ENOBUFS, st1) ∧
      st1.key_rawcb.map records = [[msg16], [msg16], [], [], []] := by
  obtain ⟨st1, h1, h2, _, _⟩ := sendup_copy_failure_aborts (host_copy_fails_at 2)
    (state_of ([endpoint 0 0 0, endpoint 0 0 0] ++ endpoint 0 0 0
      :: [endpoint 0 0 0, endpoint 0 0 0]) 100)
    none msg16 msg16 KEY_SENDUP_ALL [endpoint 0 0 0, endpoint 0 0 0] (endpoint 0 0 0)
    [endpoint 0 0 0, endpoint 0 0 0] rfl rfl (by decide) (by decide) (by decide)
    (by decide) (by decide)
  exact ⟨st1, h1, by rw [h2]; decide⟩

/-! ## The drop counter -/

theorem key_sendup0_nomem_mono (h : sendup0_host) (rp : keycb) (m : mbuf)
    (promisc sbprio : Int) (ps : pfkeystat) :
    ps.in_nomem ≤ (key_sendup0 h rp m promisc sbprio ps).2.2.in_nomem := by
  rw [key_sendup0_eq]
  by_cases hp : promisc ≠ 0
  · rw [if_pos hp]
    cases key_sendup0_promisc h m with
    | none => simp [stat_in_nomem]
    | some w =>
      simp only
      split_ifs <;> simp [stat_in_nomem, stat_in_msgtype]
  · rw [if_neg hp]
    split_ifs <;> simp [stat_in_nomem]

theorem promisc_tap_nomem_mono (H : sendup_host) (i : Nat) (rp : keycb) (m : mbuf)
    (ps : pfkeystat) : ps.in_nomem ≤ (promisc_tap H i rp m ps).2.in_nomem := by
  unfold promisc_tap
  split_ifs
  · cases m_copym (H.promisc_copym_ok i) m with
    | none => exact Nat.le_refl _
    | some n => exact key_sendup0_nomem_mono _ rp n 1 0 ps
  · exact Nat.le_refl _

theorem sendup_body_nomem_mono (H : sendup_host) (so : Option Nat) (m : mbuf)
    (target : Int) (mx : Int) (i : Nat) (rp : keycb) (ps : pfkeystat) :
    ps.in_nomem ≤ (sendup_body H so m target mx i rp ps).2.2.in_nomem := by
  have ht := promisc_tap_nomem_mono H i rp m ps
  unfold sendup_body
  by_cases hf : rp.kp_raw.rcb_proto.sp_family ≠ PF_KEY
  · rw [if_pos hf]
  rw [if_neg hf]
  by_cases hpr : rp.kp_raw.rcb_proto.sp_protocol ≠ 0
      ∧ rp.kp_raw.rcb_proto.sp_protocol ≠ PF_KEY_V2
  · rw [if_pos hpr]
  rw [if_neg hpr]
  simp only
  by_cases hs : so = some i
  · rw [if_pos hs]; exact ht
  rw [if_neg hs]
  by_cases hz : sendup_of target so i (promisc_tap H i rp m ps).1 mx = 0
  · rw [if_pos hz]; exact ht
  rw [if_neg hz]
  cases hc : m_copym (H.copym_ok i) m with
  | none =>
    show ps.in_nomem ≤ (promisc_tap H i rp m ps).2.in_nomem + 1
    omega
  | some n =>
    simp only
    have hk := key_sendup0_nomem_mono (H.sendup0 i) (promisc_tap H i rp m ps).1 n 0 0
      (stat_in_msgtarget (promisc_tap H i rp m ps).2 target)
    have heq : (stat_in_msgtarget (promisc_tap H i rp m ps).2 target).in_nomem
        = (promisc_tap H i rp m ps).2.in_nomem := rfl
    rw [heq] at hk
    split_ifs
    · exact Nat.le_trans ht hk
    · exact Nat.le_trans ht hk

theorem sendup_loop_nomem_mono (H : sendup_host) (so : Option Nat) (m : mbuf)
    (target : Int) (mx : Int) (l : List keycb) :
    ∀ (i : Nat) (ps : pfkeystat),
      ps.in_nomem ≤ (sendup_loop H so m target mx i l ps).2.2.in_nomem := by
  induction l with
  | nil => intro i ps; exact Nat.le_refl _
  | cons rp rest ih =>
    intro i ps
    have hb := sendup_body_nomem_mono H so m target mx i rp ps
    simp only [sendup_loop]
    cases (sendup_body H so m target mx i rp ps).1 with
    | some e => exact hb
    | none => exact Nat.le_trans hb (ih _ _)

/-- Statistics after the loop over `pre ++ rp :: post` when the loop over
`pre` runs to the end and the pass over `rp` returns: those left by that
pass. -/
theorem sendup_loop_abort_stats (H : sendup_host) (so : Option Nat) (m : mbuf)
    (target : Int) (mx : Int) (pre : List keycb) (rp : keycb) (post : List keycb)
    (e : Int) :
    ∀ (i : Nat) (ps : pfkeystat),
      (sendup_loop H so m target mx i pre ps).1 = none →
      body_ret H so m target mx (i + pre.length) rp = some e →
      (sendup_loop H so m target mx i (pre ++ rp :: post) ps).2.2
        = (sendup_body H so m target mx (i + pre.length) rp
            (sendup_loop H so m target mx i pre ps).2.2).2.2 := by
  induction pre with
  | nil =>
    intro i ps _ hb
    simp only [List.nil_append, List.length_nil, Nat.add_zero, sendup_loop] at hb ⊢
    rw [sendup_body_ret, hb]
  | cons rp0 rest ih =>
    intro i ps hpre hb
    simp only [List.cons_append, sendup_loop, List.append_eq] at hpre ⊢
    cases h0 : (sendup_body H so m target mx i rp0 ps).1 with
    | some e0 => rw [h0] at hpre; simp at hpre
    | none =>
      rw [h0] at hpre
      simp only at hpre ⊢
      rw [ih (i + 1) _ hpre
        (by rw [show i + 1 + rest.length = i + (rp0 :: rest).length by simp; omega]
            exact hb)]
      rw [show i + 1 + rest.length = i + (rp0 :: rest).length by simp; omega]

/-- Statistics left by the pass over a selected control block whose receive
buffer rejects the copy: `PFKEY_STAT_IN_NOMEM` is counted once more. -/
theorem sendup_body_rejected_nomem (H : sendup_host) (so : Option Nat) (m : mbuf)
    (target : Int) (mx : Int) (i : Nat) (rp : keycb) (ps : pfkeystat)
    (hkey : is_key_socket rp = true) (hne : so ≠ some i)
    (hsel : sendup_of target so i (tap_cb H i rp m) mx ≠ 0)
    (hcopy : H.copym_ok i = true)
    (hfull : (H.sendup0 i).sbappendaddr_ok = false) :
    (sendup_body H so m target mx i rp ps).2.2.in_nomem
      = (promisc_tap H i rp m ps).2.in_nomem + 1 := by
  have hk2 := (is_key_socket_iff rp).1 hkey
  have hsel1 : sendup_of target so i (promisc_tap H i rp m ps).1 mx ≠ 0 := by
    rw [promisc_tap_stats_indep H i rp m ps stats0]; exact hsel
  unfold sendup_body
  rw [if_neg hk2.1, if_neg hk2.2]
  simp only
  rw [if_neg hne, if_neg hsel1]
  simp only [m_copym, hcopy, if_true, key_sendup0_plain, hfull]
  simp [stat_in_nomem, stat_in_msgtarget, ENOBUFS]

theorem promisc_tap_overflowed_mono (H : sendup_host) (i : Nat) (rp : keycb)
    (m : mbuf) (ps : pfkeystat) :
    rp.kp_raw.rcb_socket.so_rcv.sb_overflowed
      ≤ (promisc_tap H i rp m ps).1.kp_raw.rcb_socket.so_rcv.sb_overflowed := by
  unfold promisc_tap m_copym
  by_cases hp : rp.kp_promisc ≠ 0
  · rw [if_pos hp]
    cases hc : H.promisc_copym_ok i with
    | false => simp
    | true =>
      simp only [if_true, key_sendup0_eq]
      rw [if_pos (by decide : (1 : Int) ≠ 0)]
      cases hw : key_sendup0_promisc (H.promisc_sendup0 i) m with
      | none => simp
      | some w =>
        cases hq : (H.promisc_sendup0 i).sbappendaddr_ok with
        | false => simp [so_rcv_overflow]
        | true => simp [so_rcv_append, sbappend_record]
  · rw [if_neg hp]

theorem entry_stats_nomem (ps : pfkeystat) (m m1 : mbuf) :
    (stat_in_msgtype_of (stat_in_total ps m) m1).in_nomem = ps.in_nomem := by
  unfold stat_in_msgtype_of
  split_ifs <;> rfl

/-! ## C6 -/

/-- C6 fails as stated. Two key sockets, target `KEY_SENDUP_ALL`, no sender; the
receive buffer of the first rejects its copy while that of the second would
accept: the call returns `ENOBUFS` and the second socket receives nothing. -/
theorem sendup_rejection_continues_counterexample :
    ((host_full_at 0).sendup0 1).sbappendaddr_ok = true ∧
    (_key_sendup_mbuf (host_full_at 0)
        (state_of [endpoint 0 0 0, endpoint 0 0 0] 100) none msg16 KEY_SENDUP_ALL).map
      (fun r => (r.1, r.2.key_rawcb.map records)) = some (ENOBUFS, [[], []]) := by
  decide

/-- C6 as amended. When the loop reaches a selected control block, the
duplication succeeds and the receive buffer rejects the copy, the call
returns `ENOBUFS` at once: `PFKEY_STAT_IN_NOMEM` and the `sb_overflowed` count
of that block go up by one, the block gets no copy, and the blocks after it
are untouched, the sender receiving no final delivery. -/
theorem sendup_rejection_aborts (H : sendup_host) (st : KeyState)
    (so : Option Nat) (m m1 : mbuf) (target : Int)
    (pre : List keycb) (rp : keycb) (post : List keycb)
    (hpull : sendup_pullup H m = some m1)
    (hreg : st.key_rawcb = pre ++ rp :: post)
    (hreach : loop_ret H so m1 target st.key_registered_sb_max 0 pre = none)
    (hkey : is_key_socket rp = true) (hne : so ≠ some pre.length)
    (hsel : sendup_of target so pre.length (tap_cb H pre.length rp m1)
      st.key_registered_sb_max ≠ 0)
    (hcopy : H.copym_ok pre.length = true)
    (hfull : (H.sendup0 pre.length).sbappendaddr_ok = false) :
    ∃ st1, _key_sendup_mbuf H st so m target = some (ENOBUFS, st1) ∧
      st1.key_rawcb
        = loop_cbs H so m1 target st.key_registered_sb_max 0 pre
          ++ so_rcv_overflow (tap_cb H pre.length rp m1) :: post ∧
      (so_rcv_overflow (tap_cb H pre.length rp m1)).kp_raw.rcb_socket.so_rcv.sb_overflowed
        = (tap_cb H pre.length rp m1).kp_raw.rcb_socket.so_rcv.sb_overflowed + 1 ∧
      rp.kp_raw.rcb_socket.so_rcv.sb_overflowed + 1
        ≤ (so_rcv_overflow
            (tap_cb H pre.length rp m1)).kp_raw.rcb_socket.so_rcv.sb_overflowed ∧
      m1 ∉ new_records rp (so_rcv_overflow (tap_cb H pre.length rp m1)) ∧
      st.stats.in_nomem + 1 ≤ st1.stats.in_nomem := by
  obtain ⟨hb1, hb2⟩ := body_selected_rejected H so m1 target
    st.key_registered_sb_max pre.length rp hkey hne hsel hcopy hfull
  obtain ⟨h1, h2⟩ := loop_append H so m1 target st.key_registered_sb_max pre
    (rp :: post) 0
  rw [hreach] at h1 h2
  simp only [Nat.zero_add, loop_ret_cons, loop_cbs_cons, hb1, hb2] at h1 h2
  have hres := key_sendup_mbuf_loop_ret H st so m m1 target ENOBUFS hpull
    (by rw [hreg]; exact h1)
  refine ⟨_, hres, by rw [hreg]; exact h2, rfl, ?_, ?_, ?_⟩
  · have := promisc_tap_overflowed_mono H pre.length rp m1 stats0
    show _ ≤ (tap_cb H pre.length rp m1).kp_raw.rcb_socket.so_rcv.sb_overflowed + 1
    unfold tap_cb
    omega
  · have hrec : records (so_rcv_overflow (tap_cb H pre.length rp m1))
        = records rp ++ relay_records H pre.length rp m1 := by
      rw [records_so_rcv_overflow, records_tap_cb]
    rw [new_records_append rp _ _ hrec]
    exact fun hx => relay_records_ne H pre.length rp m1 m1 hx rfl
  · show st.stats.in_nomem + 1 ≤ (loop_stats H st so m m1 target).in_nomem
    unfold loop_stats
    rw [hreg]
    have hpre1 : (sendup_loop H so m1 target st.key_registered_sb_max 0 pre
        (stat_in_msgtype_of (stat_in_total st.stats m) m1)).1 = none := by
      rw [(sendup_loop_stats_indep H so m1 target st.key_registered_sb_max pre 0 _).1]
      exact hreach
    rw [sendup_loop_abort_stats H so m1 target st.key_registered_sb_max pre rp post
      ENOBUFS 0 _ hpre1 (by rw [Nat.zero_add]; exact hb1)]
    rw [Nat.zero_add, sendup_body_rejected_nomem H so m1 target
      st.key_registered_sb_max pre.length rp _ hkey hne hsel hcopy hfull]
    have hm1 := sendup_loop_nomem_mono H so m1 target st.key_registered_sb_max pre 0
      (stat_in_msgtype_of (stat_in_total st.stats m) m1)
    have hm2 := promisc_tap_nomem_mono H pre.length rp m1
      (sendup_loop H so m1 target st.key_registered_sb_max 0 pre
        (stat_in_msgtype_of (stat_in_total st.stats m) m1)).2.2
    rw [entry_stats_nomem] at hm1
    omega

/-- Witness of the amended C6: three key sockets, target `KEY_SENDUP_ALL`, no
sender, the receive buffer of the second rejects its copy. -/
theorem sendup_rejection_aborts_witness :
    ∃ st1, _key_sendup_mbuf (host_full_at 1)
        (state_of ([endpoint 0 0 0] ++ endpoint 0 0 0 :: [endpoint 0 0 0]) 100)
        none msg16 KEY_SENDUP_ALL = some (ENOBUFS, st1) ∧
      st1.key_rawcb.map records = [[msg16], [], []] ∧
      st1.key_rawcb.map (fun rp => rp.kp_raw.rcb_socket.so_rcv.sb_overflowed) = [0, 1, 0] ∧
      1 ≤ st1.stats.in_nomem := by
  obtain ⟨st1, h1, h2, _, _, _, h6⟩ := sendup_rejection_aborts (host_full_at 1)
    (state_of ([endpoint 0 0 0] ++ endpoint 0 0 0 :: [endpoint 0 0 0]) 100)
    none msg16 msg16 KEY_SENDUP_ALL [endpoint 0 0 0] (endpoint 0 0 0)
    [endpoint 0 0 0] rfl rfl (by decide) (by decide) (by decide)
    (by decide) (by decide) (by decide)
  refine ⟨st1, h1, by rw [h2]; decide, by rw [h2]; decide, ?_⟩
  have : (state_of ([endpoint 0 0 0] ++ endpoint 0 0 0 :: [endpoint 0 0 0])
      100).stats.in_nomem = 0 := rfl
  omega

/-! ## C8 -/

/-- C8. When the loop of `_key_sendup_mbuf` runs to the end: without a sender
the call returns 0 and the control blocks are exactly as the loop left them
(no final delivery); with a sender the result is exactly that of the one
final `key_sendup0` call on the sender's control block, which either queues
the message once after the records the loop left and returns 0, or counts a
drop and returns `ENOBUFS`, every other control block being as the loop
left it. -/
theorem sendup_final_delivery (H : sendup_host) (st : KeyState) (m m1 : mbuf)
    (target : Int) (hpull : sendup_pullup H m = some m1) :
    (loop_ret H none m1 target st.key_registered_sb_max 0 st.key_rawcb = none →
      ∃ st1, _key_sendup_mbuf H st none m target = some (0, st1) ∧
        st1.key_rawcb
          = loop_cbs H none m1 target st.key_registered_sb_max 0 st.key_rawcb) ∧
    (∀ s rp,
      loop_ret H (some s) m1 target st.key_registered_sb_max 0 st.key_rawcb = none →
      (loop_cbs H (some s) m1 target st.key_registered_sb_max 0 st.key_rawcb)[s]?
        = some rp →
      ∃ st1,
        _key_sendup_mbuf H st (some s) m target
          = some ((key_sendup0 H.final_sendup0 rp m1 0 (sbprio_of target)
                (loop_stats H st (some s) m m1 target)).1, st1) ∧
        st1.key_rawcb
          = (loop_cbs H (some s) m1 target st.key_registered_sb_max 0 st.key_rawcb).set s
              (key_sendup0 H.final_sendup0 rp m1 0 (sbprio_of target)
                (loop_stats H st (some s) m m1 target)).2.1 ∧
        (key_sendup0 H.final_sendup0 rp m1 0 (sbprio_of target)
            (loop_stats H st (some s) m m1 target)).1
          = (if final_ok H target = true then 0 else ENOBUFS) ∧
        records (key_sendup0 H.final_sendup0 rp m1 0 (sbprio_of target)
            (loop_stats H st (some s) m m1 target)).2.1
          = records rp ++ (if final_ok H target = true then [m1] else [])) := by
  constructor
  · intro hr
    exact ⟨_, key_sendup_mbuf_no_sender H st m m1 target hpull hr, rfl⟩
  · intro s rp hr hs
    have hres := key_sendup_mbuf_sender H st s m m1 target rp hpull hr hs
    have hk : key_sendup0 H.final_sendup0 rp m1 0 (sbprio_of target)
        (loop_stats H st (some s) m m1 target)
        = if final_ok H target = true
          then (0, so_rcv_append rp m1, loop_stats H st (some s) m m1 target)
          else (ENOBUFS, so_rcv_overflow rp,
            stat_in_nomem (loop_stats H st (some s) m m1 target)) := by
      rw [key_sendup0_plain]
      rfl
    rw [hk, hres]
    by_cases hok : final_ok H target = true
    · simp only [if_pos hok]
      refine ⟨_, rfl, ?_⟩
      simp [records_so_rcv_append]
    · simp only [if_neg hok]
      refine ⟨_, rfl, ?_⟩
      simp [records_so_rcv_overflow]

/-- Witness of C8: the sender is the second of two key sockets and its receive
buffer rejects the final delivery, which the call reports. -/
theorem sendup_final_delivery_witness :
    sendup_pullup { host_ok with final_sendup0 := sendup0_full } msg16 = some msg16 ∧
    (_key_sendup_mbuf { host_ok with final_sendup0 := sendup0_full }
        (state_of [endpoint 0 0 0, endpoint 0 0 0] 100) (some 1) msg16
        KEY_SENDUP_ALL).map (fun r => (r.1, r.2.key_rawcb.map records))
      = some (ENOBUFS, [[msg16], []]) ∧
    (_key_sendup_mbuf host_ok (state_of [endpoint 0 0 0, endpoint 0 0 0] 100) none
        msg16 KEY_SENDUP_ONE).map (fun r => (r.1, r.2.key_rawcb.map records))
      = some (0, [[], []]) := by
  have h := sendup_final_delivery { host_ok with final_sendup0 := sendup0_full }
    (state_of [endpoint 0 0 0, endpoint 0 0 0] 100) msg16 msg16 KEY_SENDUP_ALL rfl
  obtain ⟨st1, h1, h2, h3, h4⟩ := h.2 1 (endpoint 0 0 0) (by decide) (by decide)
  refine ⟨rfl, ?_, by decide⟩
  rw [h1]
  simp only [Option.map_some']
  rw [h2]
  decide

/-! ## C9 -/

/-- The pass over the sender's control block never returns and leaves the
block as it was or as the promiscuous copy left it, whatever the target. -/
theorem body_sender (H : sendup_host) (m : mbuf) (target : Int) (mx : Int)
    (s : Nat) (rp : keycb) :
    body_ret H (some s) m target mx s rp = none ∧
    (body_cb H (some s) m target mx s rp = rp ∨
      body_cb H (some s) m target mx s rp = tap_cb H s rp m) := by
  have hc := sendup_body_cases H (some s) m target mx s rp
  rw [if_pos rfl] at hc
  have h1 := congrArg Prod.fst hc
  have h2 := congrArg Prod.snd hc
  simp only at h1 h2
  constructor
  · rw [h1]; split_ifs <;> rfl
  · rw [h2]; split_ifs
    · left; rfl
    · right; rfl

/-- Every error returned by the loop is `ENOBUFS`. -/
theorem loop_ret_enobufs (H : sendup_host) (so : Option Nat) (m : mbuf)
    (target : Int) (mx : Int) (l : List keycb) :
    ∀ (i : Nat) (e : Int), loop_ret H so m target mx i l = some e → e = ENOBUFS := by
  induction l with
  | nil => intro i e h; cases h
  | cons rp rest ih =>
    intro i e h
    rw [loop_ret_cons] at h
    cases hb : body_ret H so m target mx i rp with
    | some e0 =>
      rw [hb] at h
      simp only [Option.some.injEq] at h
      subst h
      exact body_ret_enobufs H so m target mx i rp e0 hb
    | none =>
      rw [hb] at h
      exact ih (i + 1) e h

/-- C9. For every target, with a sender on the list: inside the loop the
sender's control block gains at most its relay records and never a copy of
the message, even when it is registered and within the ceiling; over the
whole call it gains the message exactly once, through the final direct
delivery, when the call returns 0, and not at all when the call returns an
error. -/
theorem sendup_sender_direct_only (H : sendup_host) (st : KeyState) (s : Nat)
    (m m1 : mbuf) (target : Int) (rp : keycb)
    (hpull : sendup_pullup H m = some m1)
    (hs : st.key_rawcb[s]? = some rp) :
    (∃ rpl,
      (loop_cbs H (some s) m1 target st.key_registered_sb_max 0 st.key_rawcb)[s]?
        = some rpl ∧
      (records rpl = records rp ∨ records rpl = records rp ++ relay_records H s rp m1) ∧
      m1 ∉ new_records rp rpl) ∧
    (∃ e st1 rp1 rl,
      _key_sendup_mbuf H st (some s) m target = some (e, st1) ∧
      st1.key_rawcb[s]? = some rp1 ∧
      (rl = [] ∨ rl = relay_records H s rp m1) ∧
      ((e = 0 ∧ records rp1 = records rp ++ rl ++ [m1]) ∨
        (e = ENOBUFS ∧ records rp1 = records rp ++ rl))) := by
  obtain ⟨_, hb2⟩ := body_sender H m1 target st.key_registered_sb_max s rp
  have hent := loop_cbs_entry H (some s) m1 target st.key_registered_sb_max
    st.key_rawcb s rp hs
  have hloop : ∃ rpl rl,
      (loop_cbs H (some s) m1 target st.key_registered_sb_max 0 st.key_rawcb)[s]?
        = some rpl ∧
      (rl = [] ∨ rl = relay_records H s rp m1) ∧ records rpl = records rp ++ rl := by
    rcases hent with h | h
    · exact ⟨rp, [], h, Or.inl rfl, by simp⟩
    · rcases hb2 with h2 | h2
      · exact ⟨rp, [], by rw [h, h2], Or.inl rfl, by simp⟩
      · exact ⟨_, _, by rw [h, h2], Or.inr rfl, records_tap_cb H s rp m1⟩
  obtain ⟨rpl, rl, hl1, hl2, hl3⟩ := hloop
  have hnot : m1 ∉ rl := by
    rcases hl2 with h | h
    · rw [h]; simp
    · rw [h]; exact fun hx => relay_records_ne H s rp m1 m1 hx rfl
  constructor
  · refine ⟨rpl, hl1, ?_, ?_⟩
    · rcases hl2 with h | h
      · left; rw [hl3, h]; simp
      · right; rw [hl3, h]
    · rw [new_records_append rp rpl rl hl3]; exact hnot
  · cases hr : loop_ret H (some s) m1 target st.key_registered_sb_max 0 st.key_rawcb with
    | some e =>
      have he := loop_ret_enobufs H (some s) m1 target st.key_registered_sb_max
        st.key_rawcb 0 e hr
      subst he
      refine ⟨ENOBUFS, _, rpl, rl,
        key_sendup_mbuf_loop_ret H st (some s) m m1 target ENOBUFS hpull hr, hl1, hl2,
        Or.inr ⟨rfl, hl3⟩⟩
    | none =>
      have hres := key_sendup_mbuf_sender H st s m m1 target rpl hpull hr hl1
      have hlt : s < (loop_cbs H (some s) m1 target st.key_registered_sb_max 0
          st.key_rawcb).length := by
        by_contra hcon
        rw [List.getElem?_eq_none (by omega)] at hl1
        cases hl1
      by_cases hok : final_ok H target = true
      · simp only [if_pos hok] at hres
        refine ⟨0, _, so_rcv_append rpl m1, rl, hres, ?_, hl2, Or.inl ⟨rfl, ?_⟩⟩
        · simp [hlt]
        · rw [records_so_rcv_append, hl3]
      · simp only [if_neg hok] at hres
        refine ⟨ENOBUFS, _, so_rcv_overflow rpl, rl, hres, ?_, hl2, Or.inr ⟨rfl, ?_⟩⟩
        · simp [hlt]
        · rw [records_so_rcv_overflow, hl3]

/-- Witness of C9: registry of A (registered, the sender), B (registered, 101
bytes queued against a ceiling of 100) and C (plain), target
`KEY_SENDUP_REGISTERED`: no copy is queued by the loop and A receives the
message once, by the final delivery. -/
theorem sendup_sender_direct_only_witness :
    (∃ rpl,
      (loop_cbs host_ok (some 0) msg16 KEY_SENDUP_REGISTERED 100 0
        [endpoint 0 1 0, endpoint 0 1 101, endpoint 0 0 0])[0]? = some rpl ∧
      msg16 ∉ new_records (endpoint 0 1 0) rpl) ∧
    (loop_cbs host_ok (some 0) msg16 KEY_SENDUP_REGISTERED 100 0
        [endpoint 0 1 0, endpoint 0 1 101, endpoint 0 0 0]).map records = [[], [], []] ∧
    (_key_sendup_mbuf host_ok
        (state_of [endpoint 0 1 0, endpoint 0 1 101, endpoint 0 0 0] 100) (some 0)
        msg16 KEY_SENDUP_REGISTERED).map (fun r => (r.1, r.2.key_rawcb.map records))
      = some (0, [[msg16], [], []]) := by
  obtain ⟨⟨rpl, h1, _, h3⟩, _⟩ := sendup_sender_direct_only host_ok
    (state_of [endpoint 0 1 0, endpoint 0 1 101, endpoint 0 0 0] 100) 0 msg16 msg16
    KEY_SENDUP_REGISTERED (endpoint 0 1 0) rfl rfl
  exact ⟨⟨rpl, h1, h3⟩, by decide, by decide⟩

/-! ## `key_sendup_mbuf` -/

/-- The inner function `_key_sendup_mbuf` neither reads nor writes the mutex. -/
theorem key_sendup_mbuf_mtx (H : sendup_host) (st : KeyState) (b : Bool)
    (so : Option Nat) (m : mbuf) (target : Int) :
    _key_sendup_mbuf H { st with key_so_mtx := b } so m target
      = (_key_sendup_mbuf H st so m target).map
          (fun r => (r.1, { r.2 with key_so_mtx := b })) := by
  unfold _key_sendup_mbuf
  cases sendup_pullup H m with
  | none => rfl
  | some m1 =>
    simp only
    cases (sendup_loop H so m1 target st.key_registered_sb_max 0 st.key_rawcb
        (stat_in_msgtype_of (stat_in_total st.stats m) m1)).1 with
    | some e => rfl
    | none =>
      cases so with
      | none => rfl
      | some i =>
        simp only
        cases (sendup_loop H (some i) m1 target st.key_registered_sb_max 0 st.key_rawcb
            (stat_in_msgtype_of (stat_in_total st.stats m) m1)).2.1[i]? with
        | none => rfl
        | some rp => rfl

/-- Function `key_sendup_mbuf` returns what `_key_sendup_mbuf` returns, with the
same control blocks and statistics, provided the mutex is free when there is
no sender. -/
theorem key_sendup_mbuf_wrapper (H : sendup_host) (st : KeyState) (so : Option Nat)
    (m : mbuf) (target : Int) (e : Int) (st2 : KeyState)
    (hfree : so = none → st.key_so_mtx = false)
    (h : _key_sendup_mbuf H st so m target = some (e, st2)) :
    ∃ st1, key_sendup_mbuf H st so m target = some (e, st1) ∧
      st1.key_rawcb = st2.key_rawcb ∧ st1.stats = st2.stats := by
  unfold key_sendup_mbuf
  cases so with
  | none =>
    simp only [hfree rfl, key_sendup_mbuf_mtx, h, Option.map_some']
    exact ⟨_, rfl, rfl, rfl⟩
  | some i => exact ⟨st2, h, rfl, rfl⟩

/-- Conversely, what `key_sendup_mbuf` returns is returned by
`_key_sendup_mbuf` with the same control blocks and statistics. -/
theorem key_sendup_mbuf_inner (H : sendup_host) (st : KeyState) (so : Option Nat)
    (m : mbuf) (target : Int) (e : Int) (st1 : KeyState)
    (h : key_sendup_mbuf H st so m target = some (e, st1)) :
    ∃ st2, _key_sendup_mbuf H st so m target = some (e, st2) ∧
      st1.key_rawcb = st2.key_rawcb ∧ st1.stats = st2.stats := by
  unfold key_sendup_mbuf at h
  cases so with
  | some i => exact ⟨st1, h, rfl, rfl⟩
  | none =>
    simp only at h
    split_ifs at h
    rw [key_sendup_mbuf_mtx] at h
    cases hr : _key_sendup_mbuf H st none m target with
    | none => rw [hr] at h; simp at h
    | some r =>
      rw [hr] at h
      simp only [Option.map_some', Option.some.injEq, Prod.mk.injEq] at h
      obtain ⟨h1, h2⟩ := h
      subst h1 h2
      exact ⟨r.2, rfl, rfl, rfl⟩

/-! ## C2 -/

/-- The envelope is built whenever the prepend finds room or memory. -/
theorem key_sendup0_promisc_succeeds (h : sendup0_host) (m : mbuf)
    (halloc : h.leadingspace = true ∨ h.m_prepend_ok = true) :
    ∃ w, key_sendup0_promisc h m = some w := by
  unfold key_sendup0_promisc M_PREPEND
  cases hl : h.leadingspace with
  | true => simp [sizeof_sadb_msg]
  | false =>
    rcases halloc with ha | ha
    · rw [hl] at ha; cases ha
    · simp [ha, sizeof_sadb_msg]

/-- The loop reaches the control block after `pre` when the passes over `pre`
do not return; the block is then as its pass leaves it. -/
theorem loop_cbs_reach (H : sendup_host) (so : Option Nat) (m : mbuf)
    (target : Int) (mx : Int) (pre : List keycb) (rp : keycb) (post : List keycb)
    (hreach : loop_ret H so m target mx 0 pre = none) :
    (loop_cbs H so m target mx 0 (pre ++ rp :: post))[pre.length]?
      = some (body_cb H so m target mx pre.length rp) := by
  obtain ⟨_, h2⟩ := loop_append H so m target mx pre (rp :: post) 0
  rw [hreach] at h2
  simp only [Nat.zero_add] at h2
  rw [h2, List.getElem?_append_right (by rw [loop_cbs_length]), loop_cbs_length,
    Nat.sub_self, loop_cbs_cons]
  cases body_ret H so m target mx pre.length rp <;> simp

/-- Records left by the pass over a key socket: those after the promiscuous
copy, then at most one copy of the message, and none for the sender. -/
theorem body_cb_records (H : sendup_host) (so : Option Nat) (m : mbuf)
    (target : Int) (mx : Int) (i : Nat) (rp : keycb)
    (hkey : is_key_socket rp = true) :
    ∃ tl, (tl = [] ∨ (tl = [m] ∧ so ≠ some i)) ∧
      records (body_cb H so m target mx i rp) = records (tap_cb H i rp m) ++ tl := by
  have hc := congrArg Prod.snd (sendup_body_cases H so m target mx i rp)
  simp only at hc
  rw [if_neg (by simp [hkey])] at hc
  rw [hc]
  by_cases hs : so = some i
  · rw [if_pos hs]; exact ⟨[], Or.inl rfl, by simp⟩
  rw [if_neg hs]
  split_ifs
  · exact ⟨[], Or.inl rfl, by simp⟩
  · exact ⟨[], Or.inl rfl, by simp⟩
  · exact ⟨[m], Or.inr ⟨rfl, hs⟩, records_so_rcv_append _ _⟩
  · exact ⟨[], Or.inl rfl, by simp [records_so_rcv_overflow]⟩

/-- Records of a control block after the call: those the loop left, then at
most the message itself, and that only on the sender's block. -/
theorem key_sendup_mbuf_entry (H : sendup_host) (st : KeyState) (so : Option Nat)
    (m m1 : mbuf) (target : Int) (e : Int) (st1 : KeyState) (i : Nat) (rpl : keycb)
    (hp : sendup_pullup H m = some m1)
    (hres : _key_sendup_mbuf H st so m target = some (e, st1))
    (hl : (loop_cbs H so m1 target st.key_registered_sb_max 0 st.key_rawcb)[i]?
      = some rpl) :
    ∃ rp1 tl, st1.key_rawcb[i]? = some rp1 ∧
      (tl = [] ∨ (tl = [m1] ∧ so = some i)) ∧ records rp1 = records rpl ++ tl := by
  by_cases hs : so = some i
  · subst hs
    cases hr : loop_ret H (some i) m1 target st.key_registered_sb_max 0 st.key_rawcb with
    | some e1 =>
      rw [key_sendup_mbuf_loop_ret H st (some i) m m1 target e1 hp hr] at hres
      simp only [Option.some.injEq, Prod.mk.injEq] at hres
      obtain ⟨_, h2⟩ := hres
      subst h2
      exact ⟨rpl, [], hl, Or.inl rfl, by simp⟩
    | none =>
      rw [key_sendup_mbuf_sender H st i m m1 target rpl hp hr hl] at hres
      simp only [Option.some.injEq, Prod.mk.injEq] at hres
      obtain ⟨_, h2⟩ := hres
      subst h2
      have hlt : i < (loop_cbs H (some i) m1 target st.key_registered_sb_max 0
          st.key_rawcb).length := by
        by_contra hcon
        rw [List.getElem?_eq_none (by omega)] at hl
        cases hl
      by_cases hok : final_ok H target = true
      · simp only [if_pos hok]
        exact ⟨so_rcv_append rpl m1, [m1], by simp [hlt], Or.inr ⟨rfl, trivial⟩,
          records_so_rcv_append _ _⟩
      · simp only [if_neg hok]
        exact ⟨so_rcv_overflow rpl, [], by simp [hlt], Or.inl rfl,
          by simp [records_so_rcv_overflow]⟩
  · obtain ⟨_, hframe⟩ := key_sendup_mbuf_frame H st so m m1 target e st1 hp hres
    exact ⟨rpl, [], by rw [hframe i hs]; exact hl, Or.inl rfl, by simp⟩

/-- C2 fails as stated. One promiscuous key socket, target `KEY_SENDUP_ALL`, no
sender, and the duplication for the promiscuous copy fails: the call returns 0
and the socket holds the plain copy only, no relay copy. -/
theorem sendup_observer_always_counterexample :
    (endpoint 1 0 0).kp_promisc ≠ 0 ∧
    (key_sendup_mbuf host_no_promisc_copy (state_of [endpoint 1 0 0] 100) none msg16
        KEY_SENDUP_ALL).map (fun r => (r.1, r.2.key_rawcb.map records))
      = some (0, [[msg16]]) := by
  decide

/-- C2 as amended. For every target and whether or not the control block is
the sender's: when the header is pulled up, the loop reaches a promiscuous
key socket (the passes over the blocks before it do not return), and the
duplication, the prepend and the append of the promiscuous copy succeed,
`key_sendup_mbuf` queues on it exactly one relay record, the sixteen-byte
envelope followed by the bytes of the message; whatever else the call queues
on it after that is at most the message itself. -/
theorem sendup_observer_relay (H : sendup_host) (st : KeyState) (so : Option Nat)
    (m m1 : mbuf) (target : Int)
    (pre : List keycb) (rp : keycb) (post : List keycb)
    (hpull : sendup_pullup H m = some m1)
    (hreg : st.key_rawcb = pre ++ rp :: post)
    (hreach : loop_ret H so m1 target st.key_registered_sb_max 0 pre = none)
    (hkey : is_key_socket rp = true)
    (hprom : rp.kp_promisc ≠ 0)
    (hcopy : H.promisc_copym_ok pre.length = true)
    (hprep : (H.promisc_sendup0 pre.length).leadingspace = true
      ∨ (H.promisc_sendup0 pre.length).m_prepend_ok = true)
    (hq : (H.promisc_sendup0 pre.length).sbappendaddr_ok = true)
    (hso : ∀ s, so = some s → s < st.key_rawcb.length)
    (hfree : so = none → st.key_so_mtx = false) :
    ∃ e st1 rp1 w tl,
      key_sendup_mbuf H st so m target = some (e, st1) ∧
      st1.key_rawcb[pre.length]? = some rp1 ∧
      records rp1 = records rp ++ w :: tl ∧
      w.m_data = (promisc_header (m1.m_pkthdr_len + 2 * sizeof_sadb_msg)).bytes
        ++ m1.m_data ∧
      (tl = [] ∨ tl = [m1]) := by
  obtain ⟨e, st2, hres2⟩ := key_sendup_mbuf_returns H st so m m1 target hpull hso
  obtain ⟨st1, hres, hcb, _⟩ := key_sendup_mbuf_wrapper H st so m target e st2 hfree hres2
  obtain ⟨w, hw⟩ := key_sendup0_promisc_succeeds (H.promisc_sendup0 pre.length) m1 hprep
  have hrel : relay_records H pre.length rp m1 = [w] := by
    unfold relay_records
    rw [if_pos ⟨hprom, hcopy, hq⟩, hw]
    rfl
  have hl := loop_cbs_reach H so m1 target st.key_registered_sb_max pre rp post hreach
  rw [← hreg] at hl
  obtain ⟨tl1, ht1, hr1⟩ := body_cb_records H so m1 target st.key_registered_sb_max
    pre.length rp hkey
  obtain ⟨rp1, tl2, hg, ht2, hr2⟩ := key_sendup_mbuf_entry H st so m m1 target e st2
    pre.length _ hpull hres2 hl
  refine ⟨e, st1, rp1, w, tl1 ++ tl2, hres, by rw [hcb]; exact hg, ?_,
    (key_sendup0_promisc_some _ m1 w hw).2, ?_⟩
  · rw [hr2, hr1, records_tap_cb, hrel]
    simp
  · rcases ht1 with h1 | ⟨h1, hne⟩
    · rcases ht2 with h2 | ⟨h2, _⟩
      · left; rw [h1, h2]; rfl
      · right; rw [h1, h2]; rfl
    · rcases ht2 with h2 | ⟨_, hs⟩
      · right; rw [h1, h2]; rfl
      · exact absurd hs hne

/-- Witness of the amended C2: the promiscuous key socket is the sender and the
target is `KEY_SENDUP_ONE`; it receives the relay record and then the message
itself. -/
theorem sendup_observer_relay_witness :
    ∃ e st1 rp1 w tl,
      key_sendup_mbuf host_ok (state_of ([endpoint 0 0 0] ++ endpoint 1 0 0 :: []) 100)
        (some 1) msg16 KEY_SENDUP_ONE = some (e, st1) ∧
      st1.key_rawcb[[endpoint 0 0 0].length]? = some rp1 ∧
      records rp1 = records (endpoint 1 0 0) ++ w :: tl ∧
      w.m_data = (promisc_header (msg16.m_pkthdr_len + 2 * sizeof_sadb_msg)).bytes
        ++ msg16.m_data ∧
      (tl = [] ∨ tl = [msg16]) :=
  sendup_observer_relay host_ok (state_of ([endpoint 0 0 0] ++ endpoint 1 0 0 :: []) 100)
    (some 1) msg16 msg16 KEY_SENDUP_ONE [endpoint 0 0 0] (endpoint 1 0 0) []
    rfl rfl (by decide) (by decide) (by decide) rfl (Or.inr rfl) rfl
    (by intro s hs; cases hs; decide) (by intro h; cases h)

/-! ## C4 -/

/-- C4 fails as stated. A message of 24 bytes whose header says 16, with only
eight bytes in its first mbuf, on a host that cannot pull the header up:
`key_output` returns `ENOBUFS`, not `EINVAL`. -/
theorem key_output_einval_counterexample :
    msg_split.m_pkthdr_len ≠ PFKEY_UNUNIT64 (mtod msg_split.m_data).sadb_msg_len ∧
    (key_output key_parse_nop false (state_of [] 100) msg_split 0).1 = ENOBUFS ∧
    ENOBUFS ≠ EINVAL := by
  decide

/-- The three ways `key_output` ends on a message that is too short or whose
length differs from the declared one, each whatever the parser. -/
theorem key_output_reject_cases (ok : Bool) (st : KeyState) (m : mbuf) (so : Nat)
    (hbad : m.m_pkthdr_len < sizeof_sadb_msg ∨
      m.m_pkthdr_len ≠ PFKEY_UNUNIT64 (mtod m.m_data).sadb_msg_len) :
    (∀ kp, key_output kp ok st m so
      = (EINVAL, { st with stats := stat_out_tooshort (stat_out_total st.stats m) })) ∨
    (∀ kp, key_output kp ok st m so
      = (EINVAL, { st with stats :=
          (stat_out_invlen (stat_out_msgtype (stat_out_total st.stats m)
            (mtod m.m_data).sadb_msg_type)) })) ∨
    (sizeof_sadb_msg ≤ m.m_pkthdr_len ∧ m.m_len < sizeof_sadb_msg ∧
      m_pullup ok m sizeof_sadb_msg = none ∧
      ∀ kp, key_output kp ok st m so
        = (ENOBUFS, { st with stats := stat_out_nomem (stat_out_total st.stats m) })) := by
  by_cases hshort : m.m_pkthdr_len < sizeof_sadb_msg
  · left
    intro kp
    unfold key_output
    simp only [if_pos hshort]
  have hne : m.m_pkthdr_len ≠ PFKEY_UNUNIT64 (mtod m.m_data).sadb_msg_len := by
    rcases hbad with h | h
    · exact absurd h hshort
    · exact h
  by_cases hlen : m.m_len < sizeof_sadb_msg
  · cases hp : m_pullup ok m sizeof_sadb_msg with
    | none =>
      right; right
      refine ⟨Nat.le_of_not_lt hshort, hlen, rfl, ?_⟩
      intro kp
      unfold key_output
      simp only [if_neg hshort, if_pos hlen, hp]
    | some m1 =>
      have hd : m1.m_data = m.m_data := by
        unfold m_pullup at hp
        split_ifs at hp
        simp only [Option.some.injEq] at hp
        subst hp
        rfl
      right; left
      intro kp
      unfold key_output
      simp only [if_neg hshort, if_pos hlen, hp, hd, if_pos hne]
  · right; left
    intro kp
    unfold key_output
    simp only [if_neg hshort, if_neg hlen, if_pos hne]

/-- C4 as amended. For a message shorter than the header, or whose length
differs from eight times `sadb_msg_len`, `key_output` returns `EINVAL`, except
that it returns `ENOBUFS` when the message is at least header-sized, its
first mbuf is shorter than the header and `m_pullup` fails.  Either way the
result is the same for every parser (so `key_parse` is not invoked) and the
control blocks, hence every receive buffer, are unchanged. -/
theorem key_output_rejects (kp kp2 : mbuf → Nat → KeyState → Int × KeyState)
    (ok : Bool) (st : KeyState) (m : mbuf) (so : Nat)
    (hbad : m.m_pkthdr_len < sizeof_sadb_msg ∨
      m.m_pkthdr_len ≠ PFKEY_UNUNIT64 (mtod m.m_data).sadb_msg_len) :
    ((key_output kp ok st m so).1 = EINVAL ∨
      ((key_output kp ok st m so).1 = ENOBUFS ∧ sizeof_sadb_msg ≤ m.m_pkthdr_len ∧
        m.m_len < sizeof_sadb_msg ∧ m_pullup ok m sizeof_sadb_msg = none)) ∧
    ((m.m_pkthdr_len < sizeof_sadb_msg ∨ sizeof_sadb_msg ≤ m.m_len ∨
        (ok = true ∧ sizeof_sadb_msg ≤ m.m_data.length)) →
      (key_output kp ok st m so).1 = EINVAL) ∧
    (key_output kp ok st m so).2.key_rawcb = st.key_rawcb ∧
    key_output kp ok st m so = key_output kp2 ok st m so := by
  rcases key_output_reject_cases ok st m so hbad with h | h | h
  · rw [h kp, h kp2]
    exact ⟨Or.inl rfl, fun _ => rfl, rfl, rfl⟩
  · rw [h kp, h kp2]
    exact ⟨Or.inl rfl, fun _ => rfl, rfl, rfl⟩
  · obtain ⟨h1, h2, h3, h4⟩ := h
    rw [h4 kp, h4 kp2]
    refine ⟨Or.inr ⟨rfl, h1, h2, h3⟩, ?_, rfl, rfl⟩
    intro hc
    exfalso
    rcases hc with hc | hc | ⟨hc1, hc2⟩
    · exact absurd hc (Nat.not_lt.mpr h1)
    · exact absurd h2 (Nat.not_lt.mpr hc)
    · unfold m_pullup at h3
      rw [if_neg (Nat.not_lt.mpr hc2), hc1] at h3
      simp at h3

/-- Witness of the amended C4: a sixteen-byte message whose header says 24
bytes. -/
theorem key_output_rejects_witness :
    (key_output key_parse_nop true (state_of [endpoint 0 0 0] 100) msg_badlen 0).1
      = EINVAL ∧
    (key_output key_parse_nop true (state_of [endpoint 0 0 0] 100) msg_badlen
      0).2.key_rawcb = [endpoint 0 0 0] :=
  have h := key_output_rejects key_parse_nop key_parse_nop true
    (state_of [endpoint 0 0 0] 100) msg_badlen 0 (Or.inr (by decide))
  ⟨h.2.1 (Or.inr (Or.inl (by decide))), h.2.2.1⟩

/-! ## C5 -/

/-- C5 fails as stated. A sixteen-byte message whose header says 24 bytes,
target `KEY_SENDUP_ALL`, no sender, one key socket: `key_sendup_mbuf` returns 0
and the socket receives the message. -/
theorem sendup_length_check_counterexample :
    msg_badlen.m_data.length ≠ PFKEY_UNUNIT64 (mtod msg_badlen.m_data).sadb_msg_len ∧
    msg_badlen.m_pkthdr_len ≠ PFKEY_UNUNIT64 (mtod msg_badlen.m_data).sadb_msg_len ∧
    (key_sendup_mbuf host_ok (state_of [endpoint 0 0 0] 100) none msg_badlen
        KEY_SENDUP_ALL).map (fun r => (r.1, r.2.key_rawcb.map records))
      = some (0, [[msg_badlen]]) := by
  decide

/-- C5 as amended. `key_sendup_mbuf` makes no check of the declared length:
with the sender, if any, on the list (and the mutex free when there is none)
it returns 0 or `ENOBUFS`, never `EINVAL`; and when the header cannot be
pulled up it returns `ENOBUFS` and leaves every control block, hence every
receive buffer, as it was. -/
theorem sendup_no_length_check (H : sendup_host) (st : KeyState) (so : Option Nat)
    (m : mbuf) (target : Int)
    (hso : ∀ s, so = some s → s < st.key_rawcb.length)
    (hfree : so = none → st.key_so_mtx = false) :
    ∃ e st1, key_sendup_mbuf H st so m target = some (e, st1) ∧
      (e = 0 ∨ e = ENOBUFS) ∧ e ≠ EINVAL ∧
      (sendup_pullup H m = none → e = ENOBUFS ∧ st1.key_rawcb = st.key_rawcb) := by
  have hcode : ∀ e : Int, e = 0 ∨ e = ENOBUFS → e ≠ EINVAL := by
    intro e h
    rcases h with h | h <;> rw [h] <;> decide
  cases hp : sendup_pullup H m with
  | none =>
    obtain ⟨st1, h1, h2, _⟩ := key_sendup_mbuf_wrapper H st so m target ENOBUFS _ hfree
      (key_sendup_mbuf_pullup_fail H st so m target hp)
    exact ⟨ENOBUFS, st1, h1, Or.inr rfl, by decide, fun _ => ⟨rfl, h2⟩⟩
  | some m1 =>
    obtain ⟨e, st2, hres2⟩ := key_sendup_mbuf_returns H st so m m1 target hp hso
    obtain ⟨st1, h1, _, _⟩ := key_sendup_mbuf_wrapper H st so m target e st2 hfree hres2
    have he : e = 0 ∨ e = ENOBUFS := by
      cases hr : loop_ret H so m1 target st.key_registered_sb_max 0 st.key_rawcb with
      | some e1 =>
        rw [key_sendup_mbuf_loop_ret H st so m m1 target e1 hp hr] at hres2
        simp only [Option.some.injEq, Prod.mk.injEq] at hres2
        right
        rw [← hres2.1]
        exact loop_ret_enobufs _ _ _ _ _ _ 0 e1 hr
      | none =>
        cases so with
        | none =>
          rw [key_sendup_mbuf_no_sender H st m m1 target hp hr] at hres2
          simp only [Option.some.injEq, Prod.mk.injEq] at hres2
          left; exact hres2.1.symm
        | some s =>
          have hlt : s < (loop_cbs H (some s) m1 target st.key_registered_sb_max 0
              st.key_rawcb).length := by
            rw [loop_cbs_length]; exact hso s rfl
          rw [key_sendup_mbuf_sender H st s m m1 target _ hp hr
            (List.getElem?_eq_getElem hlt)] at hres2
          simp only [Option.some.injEq, Prod.mk.injEq] at hres2
          rw [← hres2.1]
          split_ifs
          · left; rfl
          · right; rfl
    exact ⟨e, st1, h1, he, hcode e he, fun h => by cases h⟩

/-- Witness of the amended C5: a chain of eight bytes cannot be pulled up to a
header; the call returns `ENOBUFS` and the key socket receives nothing. -/
theorem sendup_no_length_check_witness :
    ∃ e st1, key_sendup_mbuf host_ok (state_of [endpoint 0 0 0] 100) none
        { m_len := 8, m_pkthdr_len := 8, m_data := [2, 1, 0, 0, 1, 0, 0, 0] }
        KEY_SENDUP_ALL = some (e, st1) ∧
      e = ENOBUFS ∧ st1.key_rawcb = [endpoint 0 0 0] := by
  obtain ⟨e, st1, h1, _, _, h4⟩ := sendup_no_length_check host_ok
    (state_of [endpoint 0 0 0] 100) none
    { m_len := 8, m_pkthdr_len := 8, m_data := [2, 1, 0, 0, 1, 0, 0, 0] }
    KEY_SENDUP_ALL (by intro s hs; cases hs) (fun _ => rfl)
  exact ⟨e, st1, h1, (h4 rfl).1, (h4 rfl).2⟩

/-! ## C10 -/

/-- Reading back the envelope written in front of a chain gives its fields. -/
theorem mtod_promisc_header (n : Nat) (rest : List Nat) :
    mtod ((promisc_header n).bytes ++ rest) = promisc_header n := by
  have h : PFKEY_UNIT64 n % 65536 % 256 + 256 * (PFKEY_UNIT64 n % 65536 / 256 % 256)
      = PFKEY_UNIT64 n % 65536 := by omega
  simp [mtod, sadb_msg.bytes, promisc_header, PF_KEY_V2, SADB_X_PROMISC, h]

/-- C10. Message delivered by `key_sendup0` with `promisc` set, when the
prepend and the append succeed: the sixteen-byte envelope followed by the
bytes of the chain given, unchanged; the envelope has version `PF_KEY_V2`,
type `SADB_X_PROMISC` and every other field zero but the length, which is
`PFKEY_UNIT64` of `m_pkthdr.len` after it was raised twice by the header size
(by `M_PREPEND` and again at line 184): for a chain of `L` bytes it is two
units above `PFKEY_UNIT64 (16 + L)`, the header-plus-original total. -/
theorem key_sendup0_promisc_envelope (h : sendup0_host) (rp : keycb) (m : mbuf)
    (promisc : Int) (ps : pfkeystat)
    (hp : promisc ≠ 0)
    (halloc : h.leadingspace = true ∨ h.m_prepend_ok = true)
    (hq : h.sbappendaddr_ok = true) :
    ∃ w, key_sendup0 h rp m promisc 0 ps
        = (0, so_rcv_append rp w, stat_in_msgtype ps SADB_X_PROMISC) ∧
      w.m_data = (mtod w.m_data).bytes ++ m.m_data ∧
      mtod w.m_data =
        { sadb_msg_version := PF_KEY_V2
          sadb_msg_type := SADB_X_PROMISC
          sadb_msg_errno := 0
          sadb_msg_satype := 0
          sadb_msg_len := PFKEY_UNIT64 (m.m_pkthdr_len + 2 * sizeof_sadb_msg) % 65536
          sadb_msg_reserved := 0
          sadb_msg_seq := 0
          sadb_msg_pid := 0 } ∧
      (m.m_pkthdr_len + 2 * sizeof_sadb_msg < 524288 →
        (mtod w.m_data).sadb_msg_len
          = PFKEY_UNIT64 (sizeof_sadb_msg + m.m_pkthdr_len) + 2) := by
  obtain ⟨w, hw⟩ := key_sendup0_promisc_succeeds h m halloc
  obtain ⟨_, hd⟩ := key_sendup0_promisc_some h m w hw
  have hm : mtod w.m_data = promisc_header (m.m_pkthdr_len + 2 * sizeof_sadb_msg) := by
    rw [hd, mtod_promisc_header]
  refine ⟨w, ?_, ?_, ?_, ?_⟩
  · rw [key_sendup0_eq, if_pos hp, hw]
    simp [hq]
  · rw [hm]; exact hd
  · rw [hm]; rfl
  · intro hlt
    rw [hm]
    show PFKEY_UNIT64 (m.m_pkthdr_len + 2 * sizeof_sadb_msg) % 65536 = _
    unfold PFKEY_UNIT64 sizeof_sadb_msg at *
    simp only [Nat.shiftRight_eq_div_pow]
    omega

/-- Witness of C10: a sixteen-byte message wrapped for a promiscuous socket
gives 32 bytes, that is four 8-byte units, while the length field of the
envelope says six. -/
theorem key_sendup0_promisc_envelope_witness :
    ∃ w, key_sendup0 sendup0_ok (endpoint 1 0 0) msg16 1 0 stats0
        = (0, so_rcv_append (endpoint 1 0 0) w, stat_in_msgtype stats0 SADB_X_PROMISC) ∧
      w.m_data.length = 32 ∧
      PFKEY_UNIT64 (sizeof_sadb_msg + msg16.m_data.length) = 4 ∧
      (mtod w.m_data).sadb_msg_len = 6 := by
  obtain ⟨w, h1, h2, h3, h4⟩ := key_sendup0_promisc_envelope sendup0_ok (endpoint 1 0 0)
    msg16 1 stats0 (by decide) (Or.inr rfl) rfl
  refine ⟨w, h1, ?_, by decide, ?_⟩
  · rw [h2]; rfl
  · rw [h3]; decide

/-! ## C11 -/

/-- Under target `KEY_SENDUP_REGISTERED` a registered control block whose
queued bytes are within the ceiling is selected. -/
theorem sendup_of_registered_within (so : Option Nat) (i : Nat) (rp : keycb) (mx : Int)
    (hr : rp.kp_registered ≠ 0)
    (hc : rp.kp_raw.rcb_socket.so_rcv.sb_cc ≤ u_long_of_int mx) :
    sendup_of KEY_SENDUP_REGISTERED so i rp mx = 1 := by
  unfold sendup_of
  rw [if_neg (by decide), if_neg (by decide), if_pos rfl, if_pos hr, if_pos hc]

/-- C11. The copies made inside the loop are appended with `sbappendaddr`, the
ordinary append, whatever the target (line 335 passes priority 0): under
target `KEY_SENDUP_REGISTERED`, when the loop reaches a registered control
block other than the sender's whose queued bytes are within the ceiling, the
duplication succeeds, the ordinary append rejects the copy and the append by
priority would take it, the call returns `ENOBUFS` and the block receives no
copy, only a count in `sb_overflowed`. -/
theorem sendup_registered_ordinary_append (H : sendup_host) (st : KeyState)
    (so : Option Nat) (m m1 : mbuf)
    (pre : List keycb) (rp : keycb) (post : List keycb)
    (hpull : sendup_pullup H m = some m1)
    (hreg : st.key_rawcb = pre ++ rp :: post)
    (hreach : loop_ret H so m1 KEY_SENDUP_REGISTERED st.key_registered_sb_max 0 pre
      = none)
    (hkey : is_key_socket rp = true) (hne : so ≠ some pre.length)
    (hregd : rp.kp_registered ≠ 0)
    (hceil : (tap_cb H pre.length rp m1).kp_raw.rcb_socket.so_rcv.sb_cc
      ≤ u_long_of_int st.key_registered_sb_max)
    (hcopy : H.copym_ok pre.length = true)
    (hfull : (H.sendup0 pre.length).sbappendaddr_ok = false)
    (_hprio : (H.sendup0 pre.length).sbappendaddrchain_ok = true) :
    ∃ st1, _key_sendup_mbuf H st so m KEY_SENDUP_REGISTERED = some (ENOBUFS, st1) ∧
      st1.key_rawcb[pre.length]? = some (so_rcv_overflow (tap_cb H pre.length rp m1)) ∧
      m1 ∉ new_records rp (so_rcv_overflow (tap_cb H pre.length rp m1)) := by
  have hsel : sendup_of KEY_SENDUP_REGISTERED so pre.length (tap_cb H pre.length rp m1)
      st.key_registered_sb_max ≠ 0 := by
    rw [sendup_of_registered_within so pre.length _ _
      (by unfold tap_cb; rw [(promisc_tap_frame H pre.length rp m1 stats0).1]; exact hregd)
      hceil]
    decide
  obtain ⟨hb1, hb2⟩ := body_selected_rejected H so m1 KEY_SENDUP_REGISTERED
    st.key_registered_sb_max pre.length rp hkey hne hsel hcopy hfull
  obtain ⟨h1, h2⟩ := loop_append H so m1 KEY_SENDUP_REGISTERED
    st.key_registered_sb_max pre (rp :: post) 0
  rw [hreach] at h1 h2
  simp only [Nat.zero_add, loop_ret_cons, loop_cbs_cons, hb1, hb2] at h1 h2
  have hres := key_sendup_mbuf_loop_ret H st so m m1 KEY_SENDUP_REGISTERED ENOBUFS hpull
    (by rw [hreg]; exact h1)
  refine ⟨_, hres, ?_, ?_⟩
  · show (loop_cbs H so m1 KEY_SENDUP_REGISTERED st.key_registered_sb_max 0
      st.key_rawcb)[pre.length]? = _
    rw [hreg, h2, List.getElem?_append_right (by rw [loop_cbs_length]), loop_cbs_length,
      Nat.sub_self]
    simp
  · have hrec : records (so_rcv_overflow (tap_cb H pre.length rp m1))
        = records rp ++ relay_records H pre.length rp m1 := by
      rw [records_so_rcv_overflow, records_tap_cb]
    rw [new_records_append rp _ _ hrec]
    exact fun hx => relay_records_ne H pre.length rp m1 m1 hx rfl

/-- Witness of C11: one registered key socket with nothing queued, ceiling 100,
target `KEY_SENDUP_REGISTERED`, no sender; its receive buffer is at its limit
for the ordinary append and open to the append by priority. -/
theorem sendup_registered_ordinary_append_witness :
    (host_prio_only.sendup0 0).sbappendaddrchain_ok = true ∧
    (_key_sendup_mbuf host_prio_only (state_of ([] ++ endpoint 0 1 0 :: []) 100) none
        msg16 KEY_SENDUP_REGISTERED).map
      (fun r => (r.1, r.2.key_rawcb.map records,
        r.2.key_rawcb.map (fun rp => rp.kp_raw.rcb_socket.so_rcv.sb_overflowed)))
      = some (ENOBUFS, [[]], [1]) := by
  obtain ⟨st1, h1, _, _⟩ := sendup_registered_ordinary_append host_prio_only
    (state_of ([] ++ endpoint 0 1 0 :: []) 100) none msg16 msg16 [] (endpoint 0 1 0) []
    rfl rfl (by decide) (by decide) (by decide) (by decide) (by decide) rfl rfl rfl
  exact ⟨rfl, by decide⟩

/-! ## C12 -/

/-- State after a successful `key_attach`. -/
theorem key_attach_success (so_lock : Bool) (st : KeyState) (so : socket)
    (proto : Int) (hlock : so_lock = true ∨ st.key_so_mtx = false) :
    key_attach 0 so_lock st so proto = some (0, some 0,
      { st with
        key_so_mtx := true
        key_rawcb := attached_keycb so proto :: st.key_rawcb
        key_cb :=
          { key_count :=
              if (attached_keycb so proto).kp_raw.rcb_proto.sp_protocol = PF_KEY
              then st.key_cb.key_count + 1 else st.key_cb.key_count
            any_count := st.key_cb.any_count + 1 } }) := by
  have hno : ¬ (so_lock = false ∧ st.key_so_mtx = true) := by
    rintro ⟨h1, h2⟩
    rcases hlock with h | h
    · rw [h] at h1; cases h1
    · rw [h] at h2; cases h2
  unfold key_attach
  rw [if_neg hno, if_neg (by decide)]

/-- Detaching the control block at the head of the list. -/
theorem key_detach_head (st : KeyState) (kp : keycb) (rest : List keycb)
    (h : st.key_rawcb = kp :: rest) :
    key_detach st 0 = some { st with
      key_cb :=
        { key_count :=
            if kp.kp_raw.rcb_proto.sp_protocol = PF_KEY
            then st.key_cb.key_count - 1 else st.key_cb.key_count
          any_count := st.key_cb.any_count - 1 }
      key_rawcb := rest } := by
  unfold key_detach
  rw [h]
  simp only [List.getElem?_cons_zero, List.eraseIdx_cons_zero]

/-- C12. For every socket and protocol number, a successful `key_attach`
followed at once by `key_detach` of the same socket leaves `key_cb.key_count`
and `key_cb.any_count`, and the list `key_rawcb`, as they were before the
attach. -/
theorem key_attach_detach_restores (so_lock : Bool) (st : KeyState) (so : socket)
    (proto : Int) (hlock : so_lock = true ∨ st.key_so_mtx = false) :
    ∃ pcb st1 st2,
      key_attach 0 so_lock st so proto = some (0, some pcb, st1) ∧
      key_detach st1 pcb = some st2 ∧
      st2.key_cb.key_count = st.key_cb.key_count ∧
      st2.key_cb.any_count = st.key_cb.any_count ∧
      st2.key_rawcb = st.key_rawcb := by
  refine ⟨0, _, _, key_attach_success so_lock st so proto hlock,
    key_detach_head _ (attached_keycb so proto) st.key_rawcb rfl, ?_, ?_, rfl⟩
  · show (if (attached_keycb so proto).kp_raw.rcb_proto.sp_protocol = PF_KEY
        then (if (attached_keycb so proto).kp_raw.rcb_proto.sp_protocol = PF_KEY
          then st.key_cb.key_count + 1 else st.key_cb.key_count) - 1
        else (if (attached_keycb so proto).kp_raw.rcb_proto.sp_protocol = PF_KEY
          then st.key_cb.key_count + 1 else st.key_cb.key_count)) = st.key_cb.key_count
    split_ifs <;> omega
  · show st.key_cb.any_count + 1 - 1 = st.key_cb.any_count
    omega

/-- Witness of C12: a socket attached with protocol `PF_KEY`, for which both
counters move, to a state holding one key socket. -/
theorem key_attach_detach_restores_witness :
    ∃ pcb st1 st2,
      key_attach 0 false (state_of [endpoint 0 0 0] 100)
        (endpoint 0 0 0).kp_raw.rcb_socket 29 = some (0, some pcb, st1) ∧
      st1.key_cb.key_count = 1 ∧ st1.key_cb.any_count = 1 ∧
      key_detach st1 pcb = some st2 ∧
      st2.key_cb.key_count = 0 ∧ st2.key_cb.any_count = 0 ∧
      st2.key_rawcb = [endpoint 0 0 0] := by
  obtain ⟨pcb, st1, st2, h1, h2, h3, h4, h5⟩ := key_attach_detach_restores false
    (state_of [endpoint 0 0 0] 100) (endpoint 0 0 0).kp_raw.rcb_socket 29 (Or.inr rfl)
  have h := h1
  rw [key_attach_success false _ _ _ (Or.inr rfl)] at h
  simp only [Option.some.injEq, Prod.mk.injEq] at h
  refine ⟨pcb, st1, st2, h1, ?_, ?_, h2, h3, h4, h5⟩
  · rw [← h.2.2]; rfl
  · rw [← h.2.2]; rfl

/-! ## C20 -/

/-- C20. When `raw_attach` fails, `key_attach` returns its error, counts it in
`PFKEY_STAT_SOCKERR`, leaves `key_cb.key_count`, `key_cb.any_count` and the
list `key_rawcb` unchanged and the socket without control block (`so_pcb`
is `NULL`); when `raw_attach` succeeds, `any_count` goes up by one and
`key_count` by one exactly when the protocol stored is `PF_KEY`. -/
theorem key_attach_failure (e : Int) (so_lock : Bool) (st : KeyState) (so : socket)
    (proto : Int) (he : e ≠ 0) (hlock : so_lock = true ∨ st.key_so_mtx = false) :
    (∃ st1, key_attach e so_lock st so proto = some (e, none, st1) ∧
      st1.key_cb = st.key_cb ∧ st1.key_rawcb = st.key_rawcb ∧
      st1.stats.sockerr = st.stats.sockerr + 1) ∧
    (∃ pcb st2, key_attach 0 so_lock st so proto = some (0, some pcb, st2) ∧
      st2.key_cb.any_count = st.key_cb.any_count + 1 ∧
      st2.key_cb.key_count = st.key_cb.key_count
        + (if (proto % 65536).toNat = PF_KEY then 1 else 0)) := by
  have hno : ¬ (so_lock = false ∧ st.key_so_mtx = true) := by
    rintro ⟨h1, h2⟩
    rcases hlock with h | h
    · rw [h] at h1; cases h1
    · rw [h] at h2; cases h2
  constructor
  · have hf : key_attach e so_lock st so proto = some (e, none,
        { st with key_so_mtx := true, stats := stat_sockerr st.stats }) := by
      unfold key_attach
      rw [if_neg hno, if_pos he]
    exact ⟨_, hf, rfl, rfl, rfl⟩
  · refine ⟨0, _, key_attach_success so_lock st so proto hlock, rfl, ?_⟩
    show (if (proto % 65536).toNat = PF_KEY
        then st.key_cb.key_count + 1 else st.key_cb.key_count) = _
    split_ifs <;> omega

/-- Witness of C20: `raw_attach` fails with `ENOBUFS` on a state holding one
key socket. -/
theorem key_attach_failure_witness :
    ∃ st1, key_attach ENOBUFS false (state_of [endpoint 0 0 0] 100)
        (endpoint 0 0 0).kp_raw.rcb_socket 2 = some (ENOBUFS, none, st1) ∧
      st1.key_cb = { key_count := 0, any_count := 0 } ∧
      st1.key_rawcb = [endpoint 0 0 0] ∧ st1.stats.sockerr = 1 :=
  (key_attach_failure ENOBUFS false (state_of [endpoint 0 0 0] 100)
    (endpoint 0 0 0).kp_raw.rcb_socket 2 (by decide) (Or.inr rfl)).1

/-! ## C13 -/

/-- With duplication and the ordinary append succeeding, no pass of the body
returns, whatever the target. -/
theorem body_ret_none_of_ok (H : sendup_host) (so : Option Nat) (m : mbuf)
    (target : Int) (mx : Int) (i : Nat) (rp : keycb)
    (hcopy : H.copym_ok i = true) (hq : (H.sendup0 i).sbappendaddr_ok = true) :
    body_ret H so m target mx i rp = none := by
  have hc := congrArg Prod.fst (sendup_body_cases H so m target mx i rp)
  simp only at hc
  rw [hc, hcopy, hq]
  split_ifs <;> first | rfl | contradiction

/-- C13. When the header is pulled up and every duplication and ordinary
append of a plain copy succeeds, each key socket other than the sender's that
the target selects receives its plain copy last: a promiscuous one whose
relay copy goes through (duplication, prepend and append succeed) gains
exactly two records, the relay record and then the message; one that is not
promiscuous gains exactly one record, the message. -/
theorem sendup_observer_two_records (H : sendup_host) (st : KeyState)
    (so : Option Nat) (m m1 : mbuf) (target : Int)
    (hpull : sendup_pullup H m = some m1)
    (hcopy : ∀ i, H.copym_ok i = true)
    (hq : ∀ i, (H.sendup0 i).sbappendaddr_ok = true)
    (hso : ∀ s, so = some s → s < st.key_rawcb.length) :
    ∃ e st1, _key_sendup_mbuf H st so m target = some (e, st1) ∧
      ∀ i rp, st.key_rawcb[i]? = some rp → is_key_socket rp = true → so ≠ some i →
        sendup_of target so i (tap_cb H i rp m1) st.key_registered_sb_max ≠ 0 →
        ∃ rp1, st1.key_rawcb[i]? = some rp1 ∧
          records rp1 = records rp ++ new_records rp rp1 ∧
          (rp.kp_promisc = 0 → new_records rp rp1 = [m1]) ∧
          (rp.kp_promisc ≠ 0 → H.promisc_copym_ok i = true →
            ((H.promisc_sendup0 i).leadingspace = true
              ∨ (H.promisc_sendup0 i).m_prepend_ok = true) →
            (H.promisc_sendup0 i).sbappendaddr_ok = true →
            ∃ w, new_records rp rp1 = [w, m1] ∧
              w.m_data = (promisc_header (m1.m_pkthdr_len + 2 * sizeof_sadb_msg)).bytes
                ++ m1.m_data) := by
  obtain ⟨e, st1, hres⟩ := key_sendup_mbuf_returns H st so m m1 target hpull hso
  obtain ⟨_, hframe⟩ := key_sendup_mbuf_frame H st so m m1 target e st1 hpull hres
  have hret : loop_ret H so m1 target st.key_registered_sb_max 0 st.key_rawcb = none :=
    loop_ret_none _ _ _ _ _ _
      (fun j rp _ => body_ret_none_of_ok H so m1 target _ j rp (hcopy j) (hq j))
  refine ⟨e, st1, hres, ?_⟩
  intro i rp hi hkey hne hsel
  obtain ⟨c1, c2⟩ := loop_cbs_complete H so m1 target st.key_registered_sb_max
    st.key_rawcb hret i rp hi
  have hcb := body_selected_none H so m1 target st.key_registered_sb_max i rp hkey hne
    hsel c1
  have hrec : records (body_cb H so m1 target st.key_registered_sb_max i rp)
      = records rp ++ (relay_records H i rp m1 ++ [m1]) := by
    rw [hcb, records_so_rcv_append, records_tap_cb, List.append_assoc]
  have hnew := new_records_append rp _ _ hrec
  refine ⟨_, by rw [hframe i hne]; exact c2, by rw [hnew]; exact hrec, ?_, ?_⟩
  · intro hp
    rw [hnew]
    unfold relay_records
    rw [if_neg (by simp [hp])]
    rfl
  · intro hp hpc hprep hpq
    obtain ⟨w, hw⟩ := key_sendup0_promisc_succeeds (H.promisc_sendup0 i) m1 hprep
    refine ⟨w, ?_, (key_sendup0_promisc_some _ m1 w hw).2⟩
    rw [hnew]
    unfold relay_records
    rw [if_pos ⟨hp, hpc, hpq⟩, hw]
    rfl

/-- Witness of C13: registry of A (promiscuous) and B (plain), target
`KEY_SENDUP_ALL`, no sender, nothing fails: A holds the relay record and then
the message, B the message. -/
theorem sendup_observer_two_records_witness :
    ∃ e st1, _key_sendup_mbuf host_ok (state_of [endpoint 1 0 0, endpoint 0 0 0] 100)
        none msg16 KEY_SENDUP_ALL = some (e, st1) ∧
      (∃ a w, st1.key_rawcb[0]? = some a ∧ new_records (endpoint 1 0 0) a = [w, msg16] ∧
        w.m_data = (promisc_header (msg16.m_pkthdr_len + 2 * sizeof_sadb_msg)).bytes
          ++ msg16.m_data) ∧
      (∃ b, st1.key_rawcb[1]? = some b ∧ new_records (endpoint 0 0 0) b = [msg16]) := by
  obtain ⟨e, st1, h1, h2⟩ := sendup_observer_two_records host_ok
    (state_of [endpoint 1 0 0, endpoint 0 0 0] 100) none msg16 msg16 KEY_SENDUP_ALL
    rfl (fun _ => rfl) (fun _ => rfl) (by intro s hs; cases hs)
  obtain ⟨a, ha, _, _, ha2⟩ := h2 0 (endpoint 1 0 0) rfl (by decide) (by decide)
    (by decide)
  obtain ⟨b, hb, _, hb2, _⟩ := h2 1 (endpoint 0 0 0) rfl (by decide) (by decide)
    (by decide)
  obtain ⟨w, hw1, hw2⟩ := ha2 (by decide) rfl (Or.inr rfl) rfl
  exact ⟨e, st1, h1, ⟨a, w, ha, hw1, hw2⟩, ⟨b, hb, hb2 rfl⟩⟩

/-! ## C15 -/

theorem sendup_of_one (so : Option Nat) (i : Nat) (rp : keycb) (mx : Int)
    (hne : so ≠ some i) : sendup_of KEY_SENDUP_ONE so i rp mx = 0 := by
  unfold sendup_of
  rw [if_pos rfl, if_neg hne]

/-- Under target `KEY_SENDUP_ONE` no pass of the body returns and each pass
leaves the block as it was or as the promiscuous copy left it. -/
theorem body_one (H : sendup_host) (so : Option Nat) (m : mbuf) (mx : Int)
    (i : Nat) (rp : keycb) :
    body_ret H so m KEY_SENDUP_ONE mx i rp = none ∧
    (body_cb H so m KEY_SENDUP_ONE mx i rp = rp ∨
      body_cb H so m KEY_SENDUP_ONE mx i rp = tap_cb H i rp m) := by
  have hc := sendup_body_cases H so m KEY_SENDUP_ONE mx i rp
  by_cases hs : so = some i
  · rw [if_pos hs] at hc
    have h1 := congrArg Prod.fst hc
    have h2 := congrArg Prod.snd hc
    simp only at h1 h2
    constructor
    · rw [h1]; split_ifs <;> rfl
    · rw [h2]; split_ifs
      · left; rfl
      · right; rfl
  · rw [if_neg hs, sendup_of_one so i _ mx hs, if_pos rfl] at hc
    have h1 := congrArg Prod.fst hc
    have h2 := congrArg Prod.snd hc
    simp only at h1 h2
    constructor
    · rw [h1]; split_ifs <;> rfl
    · rw [h2]; split_ifs
      · left; rfl
      · right; rfl

/-- C15. Under target `KEY_SENDUP_ONE` the loop selects nobody: it always runs
to the end, every control block other than the sender's gains nothing but
its relay records, never the message, and the only plain delivery is the
final one, which puts the message on the sender's control block exactly
when the call returns 0. -/
theorem sendup_one_direct_only (H : sendup_host) (st : KeyState) (so : Option Nat)
    (m m1 : mbuf)
    (hpull : sendup_pullup H m = some m1)
    (hso : ∀ s, so = some s → s < st.key_rawcb.length) :
    loop_ret H so m1 KEY_SENDUP_ONE st.key_registered_sb_max 0 st.key_rawcb = none ∧
    ∃ e st1, _key_sendup_mbuf H st so m KEY_SENDUP_ONE = some (e, st1) ∧
      (∀ i rp, st.key_rawcb[i]? = some rp → so ≠ some i →
        ∃ rp1, st1.key_rawcb[i]? = some rp1 ∧
          (records rp1 = records rp ∨
            records rp1 = records rp ++ relay_records H i rp m1) ∧
          m1 ∉ new_records rp rp1) ∧
      (∀ s rp, so = some s → st.key_rawcb[s]? = some rp →
        ∃ rp1 rl, st1.key_rawcb[s]? = some rp1 ∧
          (rl = [] ∨ rl = relay_records H s rp m1) ∧
          ((e = 0 ∧ final_ok H KEY_SENDUP_ONE = true ∧
              records rp1 = records rp ++ rl ++ [m1]) ∨
            (e = ENOBUFS ∧ final_ok H KEY_SENDUP_ONE = false ∧
              records rp1 = records rp ++ rl))) := by
  have hret : loop_ret H so m1 KEY_SENDUP_ONE st.key_registered_sb_max 0 st.key_rawcb
      = none :=
    loop_ret_none _ _ _ _ _ _ (fun j rp _ => (body_one H so m1 _ j rp).1)
  obtain ⟨e, st1, hres⟩ := key_sendup_mbuf_returns H st so m m1 KEY_SENDUP_ONE hpull hso
  obtain ⟨_, hframe⟩ := key_sendup_mbuf_frame H st so m m1 KEY_SENDUP_ONE e st1 hpull
    hres
  have hloop : ∀ i rp, st.key_rawcb[i]? = some rp →
      ∃ rpl rl,
        (loop_cbs H so m1 KEY_SENDUP_ONE st.key_registered_sb_max 0 st.key_rawcb)[i]?
          = some rpl ∧
        (rl = [] ∨ rl = relay_records H i rp m1) ∧ records rpl = records rp ++ rl := by
    intro i rp hi
    obtain ⟨_, c2⟩ := loop_cbs_complete H so m1 KEY_SENDUP_ONE
      st.key_registered_sb_max st.key_rawcb hret i rp hi
    rcases (body_one H so m1 st.key_registered_sb_max i rp).2 with h | h
    · exact ⟨rp, [], by rw [c2, h], Or.inl rfl, by simp⟩
    · exact ⟨_, _, by rw [c2, h], Or.inr rfl, records_tap_cb H i rp m1⟩
  refine ⟨hret, e, st1, hres, ?_, ?_⟩
  · intro i rp hi hne
    obtain ⟨rpl, rl, hl1, hl2, hl3⟩ := hloop i rp hi
    refine ⟨rpl, by rw [hframe i hne]; exact hl1, ?_, ?_⟩
    · rcases hl2 with h | h
      · left; rw [hl3, h]; simp
      · right; rw [hl3, h]
    · rw [new_records_append rp rpl rl hl3]
      rcases hl2 with h | h
      · rw [h]; simp
      · rw [h]; exact fun hx => relay_records_ne H i rp m1 m1 hx rfl
  · intro s rp hs hi
    subst hs
    obtain ⟨rpl, rl, hl1, hl2, hl3⟩ := hloop s rp hi
    have hsend := key_sendup_mbuf_sender H st s m m1 KEY_SENDUP_ONE rpl hpull hret hl1
    rw [hsend] at hres
    simp only [Option.some.injEq, Prod.mk.injEq] at hres
    obtain ⟨he, hst⟩ := hres
    have hlt : s < (loop_cbs H (some s) m1 KEY_SENDUP_ONE st.key_registered_sb_max 0
        st.key_rawcb).length := by
      by_contra hcon
      rw [List.getElem?_eq_none (by omega)] at hl1
      cases hl1
    by_cases hok : final_ok H KEY_SENDUP_ONE = true
    · rw [if_pos hok] at he
      simp only [if_pos hok] at hst
      refine ⟨so_rcv_append rpl m1, rl, ?_, hl2, Or.inl ⟨he.symm, hok, ?_⟩⟩
      · rw [← hst]; simp [hlt]
      · rw [records_so_rcv_append, hl3]
    · rw [if_neg hok] at he
      simp only [if_neg hok] at hst
      refine ⟨so_rcv_overflow rpl, rl, ?_, hl2,
        Or.inr ⟨he.symm, by simpa using hok, ?_⟩⟩
      · rw [← hst]; simp [hlt]
      · rw [records_so_rcv_overflow, hl3]

/-- Witness of C15: three key sockets, the second being the sender and the
third registered, target `KEY_SENDUP_ONE`: only the sender receives the
message. -/
theorem sendup_one_direct_only_witness :
    loop_ret host_ok (some 1) msg16 KEY_SENDUP_ONE 100 0
      [endpoint 0 0 0, endpoint 0 0 0, endpoint 0 1 0] = none ∧
    (_key_sendup_mbuf host_ok
        (state_of [endpoint 0 0 0, endpoint 0 0 0, endpoint 0 1 0] 100) (some 1) msg16
        KEY_SENDUP_ONE).map (fun r => (r.1, r.2.key_rawcb.map records))
      = some (0, [[], [msg16], []]) :=
  ⟨(sendup_one_direct_only host_ok
      (state_of [endpoint 0 0 0, endpoint 0 0 0, endpoint 0 1 0] 100) (some 1) msg16
      msg16 rfl (by intro s hs; cases hs; decide)).1, by decide⟩

/-! ## C16 -/

/-- C16. For a message that passes the checks of `key_output` (at least as
long as the header, the header pulled up when the first mbuf is shorter, and
the length equal to eight times `sadb_msg_len`), the result of `key_output`
is exactly what the parser returns when invoked on that message (its bytes
and length unchanged), the sender's socket and the state in which only the
outbound counters have moved. -/
theorem key_output_valid (kp : mbuf → Nat → KeyState → Int × KeyState)
    (ok : Bool) (st : KeyState) (m m1 : mbuf) (so : Nat)
    (hlen : sizeof_sadb_msg ≤ m.m_pkthdr_len)
    (hpull : (if m.m_len < sizeof_sadb_msg then m_pullup ok m sizeof_sadb_msg
      else some m) = some m1)
    (hdecl : m.m_pkthdr_len = PFKEY_UNUNIT64 (mtod m.m_data).sadb_msg_len) :
    m1.m_data = m.m_data ∧ m1.m_pkthdr_len = m.m_pkthdr_len ∧
    key_output kp ok st m so
      = kp m1 so { st with stats :=
          (stat_out_msgtype (stat_out_total st.stats m)
            (mtod m.m_data).sadb_msg_type) } := by
  have hd : m1.m_data = m.m_data ∧ m1.m_pkthdr_len = m.m_pkthdr_len := by
    by_cases hl : m.m_len < sizeof_sadb_msg
    · rw [if_pos hl] at hpull
      unfold m_pullup at hpull
      split_ifs at hpull
      simp only [Option.some.injEq] at hpull
      subst hpull
      exact ⟨rfl, rfl⟩
    · rw [if_neg hl] at hpull
      simp only [Option.some.injEq] at hpull
      subst hpull
      exact ⟨rfl, rfl⟩
  refine ⟨hd.1, hd.2, ?_⟩
  unfold key_output
  simp only [if_neg (Nat.not_lt.mpr hlen), hpull, hd.1]
  rw [if_neg (by simpa using hdecl)]

/-- Witness of C16: a well-formed sixteen-byte message from the socket at
position 0, with a parser that answers the sender once through
`_key_sendup_mbuf`: the sender holds the message once and the result is the
parser's. -/
theorem key_output_valid_witness :
    key_output key_parse_echo true (state_of [endpoint 0 0 0] 100) msg16 0
      = key_parse_echo msg16 0
          { state_of [endpoint 0 0 0] 100 with stats :=
            (stat_out_msgtype (stat_out_total (state_of [endpoint 0 0 0] 100).stats msg16)
              (mtod msg16.m_data).sadb_msg_type) } ∧
    (fun r : Int × KeyState => (r.1, r.2.key_rawcb.map records))
        (key_output key_parse_echo true (state_of [endpoint 0 0 0] 100) msg16 0)
      = (0, [[msg16]]) :=
  ⟨(key_output_valid key_parse_echo true (state_of [endpoint 0 0 0] 100) msg16 msg16 0
      (by decide) rfl (by decide)).2.2, by decide⟩

/-! ## C17 -/

/-- Value of `sendup` after the switch for target `KEY_SENDUP_REGISTERED`. -/
theorem sendup_of_registered_eq (so : Option Nat) (i : Nat) (rp : keycb) (mx : Int) :
    sendup_of KEY_SENDUP_REGISTERED so i rp mx =
      if rp.kp_registered ≠ 0 then
        (if rp.kp_raw.rcb_socket.so_rcv.sb_cc ≤ u_long_of_int mx then 1 else 0)
      else 0 := by
  unfold sendup_of
  rw [if_neg (by decide), if_neg (by decide), if_pos rfl]

/-- C18. Under target `KEY_SENDUP_REGISTERED` the switch selects a control
block exactly when it is registered and its queued bytes `so_rcv.sb_cc` do
not exceed the ceiling (as line 313 compares them, the `int` ceiling
converted to `u_long`; for a ceiling that is not negative, the plain
comparison), a block exactly at the ceiling being selected.  The decision is
a function of the registered flag, the queued bytes and the ceiling alone;
and for a key socket other than the sender's, when duplication and append
succeed, it decides whether the block, as the promiscuous copy left it,
gains the message, whatever the message. -/
theorem sendup_registered_selection (H : sendup_host) (so : Option Nat) (m : mbuf)
    (mx : Int) (i : Nat) (rp : keycb) :
    (sendup_of KEY_SENDUP_REGISTERED so i rp mx ≠ 0 ↔
      (rp.kp_registered ≠ 0 ∧
        rp.kp_raw.rcb_socket.so_rcv.sb_cc ≤ u_long_of_int mx)) ∧
    (0 ≤ mx → mx < 2147483648 →
      (sendup_of KEY_SENDUP_REGISTERED so i rp mx ≠ 0 ↔
        (rp.kp_registered ≠ 0 ∧
          (rp.kp_raw.rcb_socket.so_rcv.sb_cc : Int) ≤ mx))) ∧
    (0 ≤ mx → mx < 2147483648 → rp.kp_registered ≠ 0 →
      (rp.kp_raw.rcb_socket.so_rcv.sb_cc : Int) = mx →
      sendup_of KEY_SENDUP_REGISTERED so i rp mx ≠ 0) ∧
    (∀ (so1 : Option Nat) (i1 : Nat) (rp1 : keycb),
      rp1.kp_registered = rp.kp_registered →
      rp1.kp_raw.rcb_socket.so_rcv.sb_cc = rp.kp_raw.rcb_socket.so_rcv.sb_cc →
      sendup_of KEY_SENDUP_REGISTERED so1 i1 rp1 mx
        = sendup_of KEY_SENDUP_REGISTERED so i rp mx) ∧
    (is_key_socket rp = true → so ≠ some i → H.copym_ok i = true →
      (H.sendup0 i).sbappendaddr_ok = true →
      records (body_cb H so m KEY_SENDUP_REGISTERED mx i rp)
        = records (tap_cb H i rp m)
          ++ (if sendup_of KEY_SENDUP_REGISTERED so i (tap_cb H i rp m) mx ≠ 0
              then [m] else [])) := by
  have hiff : sendup_of KEY_SENDUP_REGISTERED so i rp mx ≠ 0 ↔
      (rp.kp_registered ≠ 0 ∧
        rp.kp_raw.rcb_socket.so_rcv.sb_cc ≤ u_long_of_int mx) := by
    rw [sendup_of_registered_eq]
    by_cases hr : rp.kp_registered ≠ 0
    · rw [if_pos hr]
      by_cases hc : rp.kp_raw.rcb_socket.so_rcv.sb_cc ≤ u_long_of_int mx
      · rw [if_pos hc]; simp [hr, hc]
      · rw [if_neg hc]; simp [hc]
    · rw [if_neg hr]; simp [hr]
  have hplain : 0 ≤ mx → mx < 2147483648 →
      (sendup_of KEY_SENDUP_REGISTERED so i rp mx ≠ 0 ↔
        (rp.kp_registered ≠ 0 ∧
          (rp.kp_raw.rcb_socket.so_rcv.sb_cc : Int) ≤ mx)) := by
    intro h0 h1
    rw [hiff]
    have hu := u_long_of_int_nonneg mx h0 h1
    constructor
    · rintro ⟨a, b⟩; exact ⟨a, by omega⟩
    · rintro ⟨a, b⟩; exact ⟨a, by omega⟩
  refine ⟨hiff, hplain, ?_, ?_, ?_⟩
  · intro h0 h1 hr hc
    exact (hplain h0 h1).2 ⟨hr, by omega⟩
  · intro so1 i1 rp1 hr hc
    rw [sendup_of_registered_eq, sendup_of_registered_eq, hr, hc]
  · intro hkey hne hcopy hq
    have hcs := congrArg Prod.snd (sendup_body_cases H so m KEY_SENDUP_REGISTERED mx i rp)
    simp only at hcs
    rw [if_neg (by simp [hkey]), if_neg hne, hcopy, hq] at hcs
    rw [hcs]
    by_cases hz : sendup_of KEY_SENDUP_REGISTERED so i (tap_cb H i rp m) mx = 0
    · rw [if_pos hz, if_neg (by simp [hz])]; simp
    · rw [if_neg hz, if_neg (by decide), if_pos rfl, if_pos hz, records_so_rcv_append]

/-- Witness of C18: a registered key socket holding exactly the ceiling of 100
bytes receives the message, of sixteen bytes or of thirty-two; one holding
101 bytes receives neither. -/
theorem sendup_registered_selection_witness :
    sendup_of KEY_SENDUP_REGISTERED none 0 (endpoint 0 1 100) 100 ≠ 0 ∧
    sendup_of KEY_SENDUP_REGISTERED none 0 (endpoint 0 1 101) 100 = 0 ∧
    (loop_cbs host_ok none msg16 KEY_SENDUP_REGISTERED 100 0
        [endpoint 0 1 100, endpoint 0 1 101]).map records = [[msg16], []] ∧
    (loop_cbs host_ok none msg32 KEY_SENDUP_REGISTERED 100 0
        [endpoint 0 1 100, endpoint 0 1 101]).map records = [[msg32], []] :=
  ⟨(sendup_registered_selection host_ok none msg16 100 0 (endpoint 0 1 100)).2.2.1
      (by decide) (by decide) (by decide) (by decide),
    by decide, by decide, by decide⟩

/-! ## C19 -/

/-- C19. The priority of the final delivery is `SB_PRIO_BESTEFFORT` exactly
for target `KEY_SENDUP_REGISTERED` and 0 for every other target; so when the
loop runs to the end with a sender, the final `key_sendup0` appends with
`sbappendaddrchain` for target `KEY_SENDUP_REGISTERED` and with `sbappendaddr`
otherwise, and the call returns 0 or `ENOBUFS` as that append decides. -/
theorem sendup_final_priority (H : sendup_host) (st : KeyState) (s : Nat)
    (m m1 : mbuf) (target : Int) (rp : keycb)
    (hpull : sendup_pullup H m = some m1)
    (hloop : loop_ret H (some s) m1 target st.key_registered_sb_max 0 st.key_rawcb
      = none)
    (hs : (loop_cbs H (some s) m1 target st.key_registered_sb_max 0 st.key_rawcb)[s]?
      = some rp) :
    (sbprio_of target = SB_PRIO_BESTEFFORT ↔ target = KEY_SENDUP_REGISTERED) ∧
    (target ≠ KEY_SENDUP_REGISTERED → sbprio_of target = 0) ∧
    (∃ st1, _key_sendup_mbuf H st (some s) m target
      = some ((key_sendup0 H.final_sendup0 rp m1 0 (sbprio_of target)
          (loop_stats H st (some s) m m1 target)).1, st1)) ∧
    (target = KEY_SENDUP_REGISTERED →
      (key_sendup0 H.final_sendup0 rp m1 0 (sbprio_of target)
          (loop_stats H st (some s) m m1 target)).1
        = if H.final_sendup0.sbappendaddrchain_ok = true then 0 else ENOBUFS) ∧
    (target ≠ KEY_SENDUP_REGISTERED →
      (key_sendup0 H.final_sendup0 rp m1 0 (sbprio_of target)
          (loop_stats H st (some s) m m1 target)).1
        = if H.final_sendup0.sbappendaddr_ok = true then 0 else ENOBUFS) := by
  have hcode : ∀ ps, (key_sendup0 H.final_sendup0 rp m1 0 (sbprio_of target) ps).1
      = if (if sbprio_of target = 0 then H.final_sendup0.sbappendaddr_ok
          else H.final_sendup0.sbappendaddrchain_ok) = true then 0 else ENOBUFS := by
    intro ps
    rw [key_sendup0_plain]
    split_ifs <;> rfl
  refine ⟨?_, ?_, ?_, ?_, ?_⟩
  · unfold sbprio_of
    constructor
    · intro h
      by_contra hn
      rw [if_neg hn] at h
      revert h
      decide
    · intro h
      rw [if_pos h]
  · intro h
    unfold sbprio_of
    rw [if_neg h]
  · have hres := key_sendup_mbuf_sender H st s m m1 target rp hpull hloop hs
    rw [hres, hcode]
    exact ⟨_, rfl⟩
  · intro h
    rw [hcode]
    have : sbprio_of target ≠ 0 := by
      unfold sbprio_of
      rw [if_pos h]
      decide
    rw [if_neg this]
  · intro h
    rw [hcode]
    have : sbprio_of target = 0 := by
      unfold sbprio_of
      rw [if_neg h]
    rw [if_pos this]

/-- Witness of C19: one key socket, the sender, whose receive buffer is at its
limit for the ordinary append and open to the append by priority: the final
delivery goes through for target `KEY_SENDUP_REGISTERED` and is rejected for
targets `KEY_SENDUP_ONE` and `KEY_SENDUP_ALL`. -/
theorem sendup_final_priority_witness :
    (∃ st1, _key_sendup_mbuf { host_ok with final_sendup0 := sendup0_prio_only }
        (state_of [endpoint 0 1 0] 100) (some 0) msg16 KEY_SENDUP_REGISTERED
      = some (0, st1)) ∧
    (_key_sendup_mbuf { host_ok with final_sendup0 := sendup0_prio_only }
        (state_of [endpoint 0 1 0] 100) (some 0) msg16 KEY_SENDUP_ONE).map
      (fun r => (r.1, r.2.key_rawcb.map records)) = some (ENOBUFS, [[]]) ∧
    (_key_sendup_mbuf { host_ok with final_sendup0 := sendup0_prio_only }
        (state_of [endpoint 0 1 0] 100) (some 0) msg16 KEY_SENDUP_ALL).map
      (fun r => (r.1, r.2.key_rawcb.map records)) = some (ENOBUFS, [[]]) := by
  obtain ⟨_, _, ⟨st1, h3⟩, h4, _⟩ := sendup_final_priority
    { host_ok with final_sendup0 := sendup0_prio_only }
    (state_of [endpoint 0 1 0] 100) 0 msg16 msg16 KEY_SENDUP_REGISTERED (endpoint 0 1 0)
    rfl (by decide) (by decide)
  rw [h4 rfl] at h3
  exact ⟨⟨st1, h3⟩, by decide, by decide⟩

/-! ## C14 -/

theorem tap_cb_not_promisc (H : sendup_host) (i : Nat) (rp : keycb) (m : mbuf)
    (h : rp.kp_promisc = 0) : tap_cb H i rp m = rp := by
  unfold tap_cb promisc_tap
  rw [if_neg (by simp [h])]

/-- The selection made on the control block as the promiscuous copy left it
is the one made on the block as the pass found it, unless the target is
`KEY_SENDUP_REGISTERED` and the block is both promiscuous and registered. -/
theorem sendup_of_tap_cb (H : sendup_host) (so : Option Nat) (m : mbuf)
    (target : Int) (mx : Int) (i : Nat) (rp : keycb)
    (h : target ≠ KEY_SENDUP_REGISTERED ∨ rp.kp_promisc = 0 ∨ rp.kp_registered = 0) :
    sendup_of target so i (tap_cb H i rp m) mx = sendup_of target so i rp mx := by
  rcases h with h | h | h
  · unfold sendup_of
    rw [if_neg h, if_neg h]
  · rw [tap_cb_not_promisc H i rp m h]
  · rw [show sendup_of target so i (tap_cb H i rp m) mx
        = sendup_of target so i rp mx from by
      unfold sendup_of tap_cb
      rw [(promisc_tap_frame H i rp m stats0).1, h]
      simp]

/-- One pass of the body is the promiscuous copy followed by the plain
outcome, under the same proviso. -/
theorem body_plain_outcome (H : sendup_host) (so : Option Nat) (m : mbuf)
    (target : Int) (mx : Int) (i : Nat) (rp : keycb)
    (h : target ≠ KEY_SENDUP_REGISTERED ∨ rp.kp_promisc = 0 ∨ rp.kp_registered = 0) :
    body_ret H so m target mx i rp = (plain_outcome H so m target mx i rp).1 ∧
    ∃ rl, (rl = [] ∨ rl = relay_records H i rp m) ∧
      records (body_cb H so m target mx i rp)
        = records rp ++ rl ++ (plain_outcome H so m target mx i rp).2 := by
  have hc := sendup_body_cases H so m target mx i rp
  rw [sendup_of_tap_cb H so m target mx i rp h] at hc
  have h1 := congrArg Prod.fst hc
  have h2 := congrArg Prod.snd hc
  simp only at h1 h2
  rw [h1, h2]
  unfold plain_outcome
  by_cases hk : is_key_socket rp = false
  · rw [if_pos hk, if_pos hk]
    exact ⟨rfl, [], Or.inl rfl, by simp⟩
  rw [if_neg hk, if_neg hk]
  by_cases hs : so = some i
  · rw [if_pos hs, if_pos hs]
    exact ⟨rfl, _, Or.inr rfl, by simp [records_tap_cb]⟩
  rw [if_neg hs, if_neg hs]
  by_cases hz : sendup_of target so i rp mx = 0
  · rw [if_pos hz, if_pos hz]
    exact ⟨rfl, _, Or.inr rfl, by simp [records_tap_cb]⟩
  rw [if_neg hz, if_neg hz]
  by_cases hcp : H.copym_ok i = false
  · rw [if_pos hcp, if_pos hcp]
    exact ⟨rfl, _, Or.inr rfl, by simp [records_tap_cb]⟩
  rw [if_neg hcp, if_neg hcp]
  by_cases hq : (H.sendup0 i).sbappendaddr_ok = true
  · rw [if_pos hq, if_pos hq]
    exact ⟨rfl, _, Or.inr rfl, by simp [records_so_rcv_append, records_tap_cb]⟩
  · rw [if_neg hq, if_neg hq]
    exact ⟨rfl, _, Or.inr rfl, by simp [records_so_rcv_overflow, records_tap_cb]⟩

/-- The plain outcome is the same on two hosts that answer the calls of the
plain path alike. -/
theorem plain_outcome_congr (H H1 : sendup_host) (so : Option Nat) (m : mbuf)
    (target : Int) (mx : Int) (i : Nat) (rp : keycb)
    (hc : H1.copym_ok = H.copym_ok) (hq : H1.sendup0 = H.sendup0) :
    plain_outcome H1 so m target mx i rp = plain_outcome H so m target mx i rp := by
  unfold plain_outcome
  rw [hc, hq]

/-- Two hosts that differ only in the outcome of the promiscuous copies make
the loop end the same way and leave on each control block the same plain
records after relay records of their own. -/
theorem loop_promisc_indep (H H1 : sendup_host) (so : Option Nat) (m : mbuf)
    (target : Int) (mx : Int) (hc : H1.copym_ok = H.copym_ok)
    (hq : H1.sendup0 = H.sendup0) (l : List keycb) :
    ∀ i : Nat,
      (∀ rp ∈ l, target ≠ KEY_SENDUP_REGISTERED ∨ rp.kp_promisc = 0
        ∨ rp.kp_registered = 0) →
      loop_ret H1 so m target mx i l = loop_ret H so m target mx i l ∧
      ∀ (j : Nat) (rp : keycb), l[j]? = some rp →
        ∃ c c1 rl rl1 tl,
          (loop_cbs H so m target mx i l)[j]? = some c ∧
          (loop_cbs H1 so m target mx i l)[j]? = some c1 ∧
          records c = records rp ++ rl ++ tl ∧
          records c1 = records rp ++ rl1 ++ tl ∧
          m ∉ rl ∧ m ∉ rl1 := by
  induction l with
  | nil =>
    intro i _
    exact ⟨rfl, fun j rp hj => by simp at hj⟩
  | cons rp0 rest ih =>
    intro i hl
    have h0 := hl rp0 (List.mem_cons_self _ _)
    obtain ⟨b1, rl, hrl, b2⟩ := body_plain_outcome H so m target mx i rp0 h0
    obtain ⟨d1, rl1, hrl1, d2⟩ := body_plain_outcome H1 so m target mx i rp0 h0
    rw [plain_outcome_congr H H1 so m target mx i rp0 hc hq] at d1 d2
    have hnot : m ∉ rl := by
      rcases hrl with h | h
      · rw [h]; simp
      · rw [h]; exact fun hx => relay_records_ne H i rp0 m m hx rfl
    have hnot1 : m ∉ rl1 := by
      rcases hrl1 with h | h
      · rw [h]; simp
      · rw [h]; exact fun hx => relay_records_ne H1 i rp0 m m hx rfl
    obtain ⟨ih1, ih2⟩ := ih (i + 1) (fun rp hrp => hl rp (List.mem_cons_of_mem _ hrp))
    rw [loop_ret_cons, loop_ret_cons, loop_cbs_cons, loop_cbs_cons, b1, d1]
    cases hp : (plain_outcome H so m target mx i rp0).1 with
    | some e =>
      refine ⟨rfl, ?_⟩
      intro j rp hj
      cases j with
      | zero =>
        simp only [List.getElem?_cons_zero, Option.some.injEq] at hj
        subst hj
        exact ⟨_, _, rl, rl1, _, by simp, by simp, b2, d2, hnot, hnot1⟩
      | succ k =>
        have hk : rest[k]? = some rp := by simpa using hj
        exact ⟨rp, rp, [], [], [], by simpa using hk, by simpa using hk, by simp,
          by simp, by simp, by simp⟩
    | none =>
      refine ⟨ih1, ?_⟩
      intro j rp hj
      cases j with
      | zero =>
        simp only [List.getElem?_cons_zero, Option.some.injEq] at hj
        subst hj
        exact ⟨_, _, rl, rl1, _, by simp, by simp, b2, d2, hnot, hnot1⟩
      | succ k =>
        have hk : rest[k]? = some rp := by simpa using hj
        obtain ⟨c, c1, r, r1, t, e1, e2, e3, e4, e5, e6⟩ := ih2 k rp hk
        exact ⟨c, c1, r, r1, t, by simpa using e1, by simpa using e2, e3, e4, e5, e6⟩

/-- The value returned and the records a call adds after those of the loop,
on every control block. -/
theorem key_sendup_mbuf_exact (H : sendup_host) (st : KeyState) (so : Option Nat)
    (m m1 : mbuf) (target : Int) (e : Int) (st1 : KeyState)
    (hp : sendup_pullup H m = some m1)
    (hres : _key_sendup_mbuf H st so m target = some (e, st1)) :
    e = call_ret H so target
          (loop_ret H so m1 target st.key_registered_sb_max 0 st.key_rawcb) ∧
    ∀ (i : Nat) (rpl : keycb),
      (loop_cbs H so m1 target st.key_registered_sb_max 0 st.key_rawcb)[i]? = some rpl →
      ∃ rp1, st1.key_rawcb[i]? = some rp1 ∧
        records rp1 = records rpl ++
          (if so = some i
              ∧ loop_ret H so m1 target st.key_registered_sb_max 0 st.key_rawcb = none
              ∧ final_ok H target = true then [m1] else []) := by
  cases hr : loop_ret H so m1 target st.key_registered_sb_max 0 st.key_rawcb with
  | some e1 =>
    rw [key_sendup_mbuf_loop_ret H st so m m1 target e1 hp hr] at hres
    simp only [Option.some.injEq, Prod.mk.injEq] at hres
    obtain ⟨h1, h2⟩ := hres
    subst h2
    refine ⟨by rw [← h1]; rfl, ?_⟩
    intro i rpl hl
    exact ⟨rpl, hl, by simp⟩
  | none =>
    cases so with
    | none =>
      rw [key_sendup_mbuf_no_sender H st m m1 target hp hr] at hres
      simp only [Option.some.injEq, Prod.mk.injEq] at hres
      obtain ⟨h1, h2⟩ := hres
      subst h2
      refine ⟨by rw [← h1]; rfl, ?_⟩
      intro i rpl hl
      exact ⟨rpl, hl, by simp⟩
    | some s =>
      cases hs : (loop_cbs H (some s) m1 target st.key_registered_sb_max 0
          st.key_rawcb)[s]? with
      | none =>
        exfalso
        unfold _key_sendup_mbuf at hres
        simp only [hp] at hres
        rw [(sendup_loop_stats_indep H (some s) m1 target st.key_registered_sb_max
              st.key_rawcb 0 _).1,
          (sendup_loop_stats_indep H (some s) m1 target st.key_registered_sb_max
              st.key_rawcb 0 _).2, hr] at hres
        simp [hs] at hres
      | some rp =>
        rw [key_sendup_mbuf_sender H st s m m1 target rp hp hr hs] at hres
        simp only [Option.some.injEq, Prod.mk.injEq] at hres
        obtain ⟨h1, h2⟩ := hres
        subst h2
        refine ⟨by rw [← h1]; rfl, ?_⟩
        intro i rpl hl
        have hlt : s < (loop_cbs H (some s) m1 target st.key_registered_sb_max 0
            st.key_rawcb).length := by
          by_contra hcon
          rw [List.getElem?_eq_none (by omega)] at hs
          simp at hs
        by_cases hi : s = i
        · subst hi
          rw [hs] at hl
          simp only [Option.some.injEq] at hl
          subst hl
          by_cases hf : final_ok H target = true
          · refine ⟨so_rcv_append rp m1, by simp [hf, hlt], ?_⟩
            simp [hf, records_so_rcv_append]
          · refine ⟨so_rcv_overflow rp, by simp [hf, hlt], ?_⟩
            simp [hf, records_so_rcv_overflow]
        · refine ⟨rpl, by simp [List.getElem?_set_ne hi, hl], ?_⟩
          have hne : ¬ (some s = some i) := fun h => hi (Option.some.inj h)
          simp [hne]

/-- C14 counterexample.  First, one promiscuous registered key socket holding
exactly `key_registered_sb_max` bytes, target `KEY_SENDUP_REGISTERED`, no
sender: when the promiscuous copy succeeds the queue goes over the ceiling
and the socket gets no plain copy; when the duplication for the promiscuous
copy fails the socket is still within the ceiling and gets the plain copy;
both calls return 0.  Second, a promiscuous key socket followed by a plain
one, target `KEY_SENDUP_ALL`, no sender, the receive buffer of the first
having room for one record: when the promiscuous copy succeeds the relay
record takes the room, `sbappendaddr` rejects the plain copy and the call
returns `ENOBUFS` with no plain copy delivered to either socket; when the
duplication for the promiscuous copy fails the plain copy is taken, and the
call returns 0 with a plain copy on both. -/
theorem sendup_observer_failure_counterexample :
    ((_key_sendup_mbuf host_ok (state_of [endpoint 1 1 100] 100) none msg16
        KEY_SENDUP_REGISTERED).map
      (fun r => (r.1, r.2.key_rawcb.map (fun rp => (records rp).count msg16)))
      = some (0, [0]) ∧
    (_key_sendup_mbuf host_no_promisc_copy (state_of [endpoint 1 1 100] 100) none msg16
        KEY_SENDUP_REGISTERED).map
      (fun r => (r.1, r.2.key_rawcb.map (fun rp => (records rp).count msg16)))
      = some (0, [1])) ∧
    ((_key_sendup_mbuf (host_full_at 0) (state_of [endpoint 1 0 0, endpoint 0 0 0] 100)
        none msg16 KEY_SENDUP_ALL).map
      (fun r => (r.1, r.2.key_rawcb.map (fun rp => (records rp).count msg16)))
      = some (ENOBUFS, [0, 0]) ∧
    (_key_sendup_mbuf host_no_promisc_copy (state_of [endpoint 1 0 0, endpoint 0 0 0] 100)
        none msg16 KEY_SENDUP_ALL).map
      (fun r => (r.1, r.2.key_rawcb.map (fun rp => (records rp).count msg16)))
      = some (0, [1, 1])) := by
  refine ⟨⟨?_, ?_⟩, ⟨?_, ?_⟩⟩ <;> decide

/-- C14 (amended): the outcome of a promiscuous copy is never returned and
never stops the loop; it reaches the rest of the call only through the
receive queue of the promiscuous socket.  Take two runs of `_key_sendup_mbuf`
on the same state, sender (on the list, or none), message and target, whose
promiscuous copies may end in any way (duplication, prepend, pull-up, append),
differently in the two runs, while every other host call is answered alike
in both: the header pull-up, the duplications for the plain copies, the
appends of the plain copies and the append of the final delivery.  If the
target is not `KEY_SENDUP_REGISTERED`, or no control block is both promiscuous
and registered, then both runs return, with the same value, and every control
block is given the same number of plain records (records equal to the
message) in both. -/
theorem sendup_observer_failure_absorbed (H H1 : sendup_host) (st : KeyState)
    (so : Option Nat) (m m1 : mbuf) (target : Int)
    (hpull : sendup_pullup H m = some m1)
    (hp : H1.m_pullup_ok = H.m_pullup_ok)
    (hc : H1.copym_ok = H.copym_ok)
    (hq : H1.sendup0 = H.sendup0)
    (hf : H1.final_sendup0 = H.final_sendup0)
    (hso : ∀ s, so = some s → s < st.key_rawcb.length)
    (hcond : target ≠ KEY_SENDUP_REGISTERED ∨
      ∀ rp ∈ st.key_rawcb, rp.kp_promisc = 0 ∨ rp.kp_registered = 0) :
    ∃ e st1 st2,
      _key_sendup_mbuf H st so m target = some (e, st1) ∧
      _key_sendup_mbuf H1 st so m target = some (e, st2) ∧
      ∀ (i : Nat) (rp : keycb), st.key_rawcb[i]? = some rp →
        ∃ rp1 rp2, st1.key_rawcb[i]? = some rp1 ∧ st2.key_rawcb[i]? = some rp2 ∧
          (new_records rp rp1).count m1 = (new_records rp rp2).count m1 := by
  have hpull1 : sendup_pullup H1 m = some m1 := by
    rw [← hpull]; unfold sendup_pullup; rw [hp]
  have hfin : final_ok H1 target = final_ok H target := by
    unfold final_ok; rw [hf]
  have hel : ∀ rp ∈ st.key_rawcb, target ≠ KEY_SENDUP_REGISTERED ∨ rp.kp_promisc = 0
      ∨ rp.kp_registered = 0 := by
    intro rp hrp
    rcases hcond with h | h
    · exact Or.inl h
    · exact Or.inr (h rp hrp)
  obtain ⟨e, st1, hres⟩ := key_sendup_mbuf_returns H st so m m1 target hpull hso
  obtain ⟨e2, st2, hres2⟩ := key_sendup_mbuf_returns H1 st so m m1 target hpull1 hso
  obtain ⟨hx1, hx2⟩ := key_sendup_mbuf_exact H st so m m1 target e st1 hpull hres
  obtain ⟨hy1, hy2⟩ := key_sendup_mbuf_exact H1 st so m m1 target e2 st2 hpull1 hres2
  obtain ⟨hlr, hent⟩ := loop_promisc_indep H H1 so m1 target st.key_registered_sb_max
    hc hq st.key_rawcb 0 hel
  rw [hlr, hfin] at hy2
  have hee : e2 = e := by
    rw [hx1, hy1, hlr]
    unfold call_ret
    rw [hfin]
  subst hee
  refine ⟨e2, st1, st2, hres, hres2, ?_⟩
  intro i rp hi
  obtain ⟨c, c1, rl, rl1, tl, e1, e2, e3, e4, e5, e6⟩ := hent i rp hi
  obtain ⟨rp1, a1, a2⟩ := hx2 i c e1
  obtain ⟨rp2, b1, b2⟩ := hy2 i c1 e2
  refine ⟨rp1, rp2, a1, b1, ?_⟩
  unfold new_records
  rw [a2, b2, e3, e4]
  simp only [List.append_assoc, List.drop_left, List.count_append,
    List.count_eq_zero_of_not_mem e5, List.count_eq_zero_of_not_mem e6]

theorem sendup_observer_failure_absorbed_witness :
    ∃ e st1 st2,
      _key_sendup_mbuf host_ok (state_of registry3 100) (some 1) msg16 KEY_SENDUP_ALL
        = some (e, st1) ∧
      _key_sendup_mbuf host_no_promisc_copy (state_of registry3 100) (some 1) msg16
        KEY_SENDUP_ALL = some (e, st2) ∧
      ∀ (i : Nat) (rp : keycb), (state_of registry3 100).key_rawcb[i]? = some rp →
        ∃ rp1 rp2, st1.key_rawcb[i]? = some rp1 ∧ st2.key_rawcb[i]? = some rp2 ∧
          (new_records rp rp1).count msg16 = (new_records rp rp2).count msg16 :=
  sendup_observer_failure_absorbed host_ok host_no_promisc_copy (state_of registry3 100)
    (some 1) msg16 msg16 KEY_SENDUP_ALL (by decide) rfl rfl rfl rfl
    (by intro s hs; cases hs; decide) (Or.inl (by decide))

end Keysock
